import Mathlib

/-!
# hdhr-relay: discovery protocol engine

A shallow embedding of the binary discovery protocol code of the relay
(`packet.go`, `remote.go`, `main.go`) and theorems about it.

Conventions of the embedding:

* a Go `[]byte` / `string` is a `List Nat` whose elements are bytes (`< 256`);
* `uint8`, `uint16`, `uint32` values are `Nat`, with an explicit `% 2^w`
  wherever the Go code converts or can overflow;
* a Go function returning `(T, error)` returns `Except Fault T`; a run-time
  panic is the distinguished faults `Fault.panicSliceBounds` /
  `Fault.panicCopyMismatch`, which are not errors returned to a caller;
* the methods of `*Reader` return the value, the error and the reader after
  the call, because Go mutates the reader also on the failing path.
-/

namespace HDHR

/-! ## Protocol constants (`main.go`) -/

def DiscoveryPort : Nat := 65001
def ContentPort : Nat := 5004
def WebPort : Nat := 80
def DiscoveryRequest : Nat := 0x2
def DiscoveryResponse : Nat := 0x3
def DeviceType : Nat := 0x1
def DeviceID : Nat := 0x2
def TunerCount : Nat := 0x10
def LineupURL : Nat := 0x27
def BaseURL : Nat := 0x2a
def DeviceAuth : Nat := 0x2b
def MultiType : Nat := 0x2d
def TypeTuner : Nat := 0x1
def TypeWildcard : Nat := 0xFFFFFFFF
def TypeStorage : Nat := 0x5

/-! ## Errors and panics -/

/-- Everything that can end a call other than a normal result. -/
inductive Fault where
  /-- `ErrInvalidPacket`, "too short". -/
  | tooShort
  /-- `ErrInvalidPacket`, "invalid length". -/
  | invalidLength
  /-- `ErrInvalidPacket`, "CRC mismatch". -/
  | crcMismatch
  /-- `ErrEndOfPacket`. -/
  | endOfPacket
  /-- Run-time panic: slice bounds out of range. -/
  | panicSliceBounds
  /-- Run-time panic: `panic("copy mismatch")` of `Frame`. -/
  | panicCopyMismatch
  /-- A failure of the network calls of `Discover` or of a socket write. -/
  | ioFailure
  /-- `Discover`: "failed to unframe". -/
  | failedUnframe
  /-- `Discover`: "unexpected response". -/
  | unexpectedResponse
  /-- `Discover`: "failed to read tag". -/
  | failedReadTag
  /-- `Discover`: "failed to read len". -/
  | failedReadLen
  /-- `Discover`: "failed to read tag data". -/
  | failedReadTagData
  /-- `discoveryRequest`: "invalid length: vl". -/
  | requestInvalidLength (vl : Nat)
  /-- `discoveryRequest`: "unknown discovery type: ty". -/
  | requestUnknownType (ty : Nat)
  /-- The iteration budget of a modelled loop ran out (never happens in Go). -/
  | outOfFuel
  /-- The error `ctx.Err()` of a cancelled context. -/
  | canceled
  /-- The error of a socket write whose datagram is too long (`EMSGSIZE`). -/
  | messageTooLong
  deriving DecidableEq, Repr

/-- The fault wraps `ErrInvalidPacket` (`errors.Is(err, ErrInvalidPacket)`). -/
def Fault.isInvalidPacket : Fault → Bool
  | .tooShort => true
  | .invalidLength => true
  | .crcMismatch => true
  | _ => false

/-- The fault is a run-time panic, not a returned error. -/
def Fault.isPanic : Fault → Bool
  | .panicSliceBounds => true
  | .panicCopyMismatch => true
  | _ => false

/-! ## Byte order helpers (`encoding/binary`) -/

/-- A list of bytes: every element is below 256. -/
def IsBytes (d : List Nat) : Prop := ∀ b ∈ d, b < 256

instance (d : List Nat) : Decidable (IsBytes d) := by
  unfold IsBytes; infer_instance

/-- `binary.BigEndian.Uint16(b)` on a slice of two bytes. -/
def beUint16 (b : List Nat) : Nat := b.getD 0 0 * 256 + b.getD 1 0

/-- `binary.BigEndian.Uint32(b)` on a slice of four bytes. -/
def beUint32 (b : List Nat) : Nat :=
  b.getD 0 0 * 16777216 + b.getD 1 0 * 65536 + b.getD 2 0 * 256 + b.getD 3 0

/-- `binary.LittleEndian.Uint32(b)` on a slice of four bytes. -/
def leUint32 (b : List Nat) : Nat :=
  b.getD 0 0 + b.getD 1 0 * 256 + b.getD 2 0 * 65536 + b.getD 3 0 * 16777216

/-- The two bytes `binary.BigEndian.PutUint16` stores for `v`. -/
def putUint16BE (v : Nat) : List Nat := [v / 256 % 256, v % 256]

/-- The four bytes `binary.BigEndian.AppendUint32(nil, v)` yields. -/
def putUint32BE (v : Nat) : List Nat :=
  [v / 16777216 % 256, v / 65536 % 256, v / 256 % 256, v % 256]

/-- The four bytes `binary.LittleEndian.PutUint32` stores for `v`. -/
def putUint32LE (v : Nat) : List Nat :=
  [v % 256, v / 256 % 256, v / 65536 % 256, v / 16777216 % 256]

/-! ## CRC32-IEEE (`hash/crc32`) -/

/-- One shift of the reflected CRC register with polynomial `0xEDB88320`. -/
def crcStep (c : Nat) : Nat :=
  if c % 2 = 1 then (c / 2) ^^^ 0xEDB88320 else c / 2

/-- Feed one byte into the CRC register. -/
def crcByte (c b : Nat) : Nat :=
  crcStep (crcStep (crcStep (crcStep (crcStep (crcStep (crcStep (crcStep (c ^^^ b))))))))

/-- The `crc32.ChecksumIEEE` of a byte sequence. -/
def ChecksumIEEE (d : List Nat) : Nat :=
  (d.foldl crcByte 0xFFFFFFFF) ^^^ 0xFFFFFFFF

/-! ## Slices -/

/-- The Go slice expression `d[lo:hi]`: it panics unless `lo ≤ hi ≤ len(d)`
(the slices of this program have capacity equal to their length wherever the
upper bound matters). -/
def slice (d : List Nat) (lo hi : Nat) : Except Fault (List Nat) :=
  if lo ≤ hi ∧ hi ≤ d.length then .ok ((d.take hi).drop lo) else .error .panicSliceBounds

/-- Store `src` into `out` starting at index `pos`; the stores of
`PutUint16` / `PutUint32` into `out[pos:pos+len(src)]`. -/
def putAt (out : List Nat) (pos : Nat) (src : List Nat) : List Nat :=
  out.take pos ++ src ++ out.drop (pos + src.length)

/-- The Go builtin `copy(dst, src)`: the new contents of `dst` and the number
of elements copied, `min(len(dst), len(src))`. -/
def goCopy (dst src : List Nat) : List Nat × Nat :=
  let n := min dst.length src.length
  (src.take n ++ dst.drop n, n)

/-! ## Packet envelope (`packet.go`) -/

/-- `UnFrame`: the type and payload of a framed packet. `l` and `crcPos` are
`uint16`, so `l + 4` and `crcPos + 4` are taken modulo `2^16`. -/
def UnFrame (data : List Nat) : Except Fault (Nat × List Nat) :=
  if data.length < 8 then .error .tooShort
  else do
    let ty := beUint16 (← slice data 0 2)
    let l := beUint16 (← slice data 2 4)
    let crcPos := (l + 4) % 65536
    if data.length ≠ crcPos + 4 then .error .invalidLength
    else do
      let eCRC := leUint32 (← slice data crcPos ((crcPos + 4) % 65536))
      let crc := ChecksumIEEE (← slice data 0 ((l + 4) % 65536))
      if crc ≠ eCRC then .error .crcMismatch
      else do
        let payload ← slice data 4 ((l + 4) % 65536)
        .ok (ty, payload)

/-- `Frame`: type, length, payload and CRC trailer written into a fresh
buffer of `len(data) + 8` bytes. -/
def Frame (ty : Nat) (data : List Nat) : Except Fault (List Nat) :=
  let out := List.replicate (data.length + 8) 0
  let out := putAt out 0 (putUint16BE ty)
  let out := putAt out 2 (putUint16BE (data.length % 65536))
  let cp := goCopy (out.drop 4) data
  let out := out.take 4 ++ cp.1
  if cp.2 ≠ data.length then .error .panicCopyMismatch
  else
    let crcPos := data.length + 4
    let crc := ChecksumIEEE (out.take crcPos)
    .ok (putAt out crcPos (putUint32LE crc))

/-- The header of a framed packet: type and length, big-endian. -/
def frameHeader (ty : Nat) (data : List Nat) : List Nat :=
  putUint16BE ty ++ putUint16BE (data.length % 65536)

/-- The bytes of a framed packet, as a concatenation. -/
def frameBytes (ty : Nat) (data : List Nat) : List Nat :=
  frameHeader ty data ++ data ++ putUint32LE (ChecksumIEEE (frameHeader ty data ++ data))

/-! ## TLV reader and writer (`packet.go`) -/

/-- The Go `Reader`: a buffer and a read position. -/
structure Reader where
  Data : List Nat
  Pos : Nat
  deriving DecidableEq, Repr

/-- What a method of `*Reader` leaves behind: the returned value, the returned
error (`none` for `nil`) and the reader after the call. -/
structure Read (α : Type) where
  val : α
  err : Option Fault
  rd : Reader

def NewReader (data : List Nat) : Reader := { Data := data, Pos := 0 }

/-- `Reader.ReadU8`. -/
def Reader.ReadU8 (r : Reader) : Read Nat :=
  if r.Pos + 1 > r.Data.length then { val := 0, err := some .endOfPacket, rd := r }
  else { val := r.Data.getD r.Pos 0, err := none, rd := { r with Pos := r.Pos + 1 } }

/-- `Reader.ReadU32`. -/
def Reader.ReadU32 (r : Reader) : Read Nat :=
  if r.Pos + 4 > r.Data.length then { val := 0, err := some .endOfPacket, rd := r }
  else
    { val := beUint32 ((r.Data.take (r.Pos + 4)).drop r.Pos), err := none,
      rd := { r with Pos := r.Pos + 4 } }

/-- `Reader.ReadVarLen`. The position is advanced past the first byte before
the second one is looked for. `uint16(s) << 7` is taken modulo `2^16`. -/
def Reader.ReadVarLen (r : Reader) : Read Nat :=
  if r.Pos + 1 > r.Data.length then { val := 0, err := some .endOfPacket, rd := r }
  else
    let v := r.Data.getD r.Pos 0
    let r1 : Reader := { r with Pos := r.Pos + 1 }
    if v &&& 0x80 ≠ 0 then
      if r1.Pos + 1 > r1.Data.length then { val := 0, err := some .endOfPacket, rd := r1 }
      else
        let s := r1.Data.getD r1.Pos 0
        let r2 : Reader := { r1 with Pos := r1.Pos + 1 }
        { val := (v &&& 0x7f) ||| ((s <<< 7) % 65536), err := none, rd := r2 }
    else { val := v, err := none, rd := r1 }

/-- `Reader.ReadStr` as `Discover` calls it: the length is `int(l)` for a
`uint16`, so that the sum `r.Pos + l` stays in the range of `int` and is the
sum of the natural numbers. `Reader.ReadStrInt` is the method on the whole
range of its parameter; the two agree wherever the sum does not overflow. -/
def Reader.ReadStr (r : Reader) (l : Nat) : Read (List Nat) :=
  if r.Pos + l > r.Data.length then { val := [], err := some .endOfPacket, rd := r }
  else
    { val := (r.Data.take (r.Pos + l)).drop r.Pos, err := none,
      rd := { r with Pos := r.Pos + l } }

/-- The largest value of the Go type `int` (64 bits): `math.MaxInt64`. -/
def maxInt : Nat := 9223372036854775807

/-- The value of type `int` that Go computes for an integer result: the one
congruent to it modulo `2^64` in the range `-2^63 .. 2^63 - 1`. -/
def wrapInt (x : Int) : Int :=
  (x + 9223372036854775808) % 18446744073709551616 - 9223372036854775808

/-- `Reader.ReadStr` for every length `0 ≤ l ≤ maxInt` of type `int`. The sum
`r.Pos+l` is computed in `int`: when it wraps to a negative number the test
`r.Pos+l > len(r.Data)` is false and the slice expression
`r.Data[r.Pos : r.Pos+l]`, whose upper bound is below its lower bound, panics. -/
def Reader.ReadStrInt (r : Reader) (l : Nat) : Read (List Nat) :=
  let hi := wrapInt ((r.Pos : Int) + (l : Int))
  if hi > (r.Data.length : Int) then { val := [], err := some .endOfPacket, rd := r }
  else if hi < (r.Pos : Int) then { val := [], err := some .panicSliceBounds, rd := r }
  else
    { val := (r.Data.take hi.toNat).drop r.Pos, err := none,
      rd := { r with Pos := hi.toNat } }

/-- `Reader.HasMore`. -/
def Reader.HasMore (r : Reader) : Bool := decide (r.Pos < r.Data.length)

/-- The Go `Writer`: the bytes of its buffer. -/
structure Writer where
  Data : List Nat
  deriving DecidableEq, Repr

def NewWriter : Writer := { Data := [] }

/-- `Writer.WriteU8`; `v` is a `uint8`. -/
def Writer.WriteU8 (w : Writer) (v : Nat) : Writer := { Data := w.Data ++ [v] }

/-- `Writer.WriteU32`; `v` is a `uint32`. -/
def Writer.WriteU32 (w : Writer) (v : Nat) : Writer := { Data := w.Data ++ putUint32BE v }

/-- `Writer.WriteVarLen`; `v` is a `uint16` and `uint8(·)` keeps the low byte. -/
def Writer.WriteVarLen (w : Writer) (v : Nat) : Writer :=
  if v ≤ 127 then w.WriteU8 (v % 256)
  else (w.WriteU8 ((v ||| 0x80) % 256)).WriteU8 ((v >>> 7) % 256)

/-- `Writer.WriteBlob`. -/
def Writer.WriteBlob (w : Writer) (base : List Nat) : Writer := { Data := w.Data ++ base }

/-! ## Upstream discovery client (`remote.go`) -/

/-- The Go `Remote` record; `Ty` is its field `Type`. Strings are byte lists. -/
structure Remote where
  ID : Nat := 0
  Ty : Nat := 0
  TunerCount : Nat := 0
  Lineup : List Nat := []
  Base : List Nat := []
  Auth : List Nat := []
  deriving DecidableEq, Repr

/-- The body of the `switch tag` of `Discover`: the reader and the record
after the case for `tag`, or the error the case returns. -/
def discoverAttr (tag l : Nat) (r : Reader) (result : Remote) :
    Except Fault (Reader × Remote) :=
  if tag = DeviceType then
    let x := r.ReadU32
    match x.err with
    | some _ => .error .failedReadTagData
    | none => .ok (x.rd, { result with Ty := x.val })
  else if tag = DeviceID then
    let x := r.ReadU32
    match x.err with
    | some _ => .error .failedReadTagData
    | none => .ok (x.rd, { result with ID := x.val })
  else if tag = TunerCount then
    let x := r.ReadU8
    match x.err with
    | some _ => .error .failedReadTagData
    | none => .ok (x.rd, { result with TunerCount := x.val })
  else if tag = LineupURL then
    let x := r.ReadStr l
    match x.err with
    | some _ => .error .failedReadTagData
    | none => .ok (x.rd, { result with Lineup := x.val })
  else if tag = BaseURL then
    let x := r.ReadStr l
    match x.err with
    | some _ => .error .failedReadTagData
    | none => .ok (x.rd, { result with Base := x.val })
  else if tag = DeviceAuth then
    let x := r.ReadStr l
    match x.err with
    | some _ => .error .failedReadTagData
    | none => .ok (x.rd, { result with Auth := x.val })
  else .ok (r, result)

/-- One iteration of the loop `for r.HasMore() { ... }` of `Discover`, entered
with `r.HasMore()` true: tag, length, the case for the tag, then
`r.Pos = start + int(l)`. -/
def discoverStep (r : Reader) (result : Remote) : Except Fault (Reader × Remote) :=
  let t := r.ReadU8
  match t.err with
  | some _ => .error .failedReadTag
  | none =>
    let l := t.rd.ReadVarLen
    match l.err with
    | some _ => .error .failedReadLen
    | none =>
      let start := l.rd.Pos
      match discoverAttr t.val l.val l.rd result with
      | .error e => .error e
      | .ok (r', result') => .ok ({ r' with Pos := start + l.val }, result')

/-- The attribute-decoding loop of `Discover`, with an iteration budget. -/
def discoverLoop : Nat → Reader → Remote → Except Fault Remote
  | 0, _, _ => .error .outOfFuel
  | fuel + 1, r, result =>
    if r.HasMore then
      match discoverStep r result with
      | .error e => .error e
      | .ok (r', result') => discoverLoop fuel r' result'
    else .ok result

/-- The reply decoding of `Discover` (from `UnFrame(in.Data)` on). Every
iteration of the loop consumes at least two bytes, so `len(data) + 1`
iterations are never used up. -/
def discoverDecode (inData : List Nat) : Except Fault Remote :=
  match UnFrame inData with
  | .error e => if e.isPanic then .error e else .error .failedUnframe
  | .ok (ty, data) =>
    if ty ≠ DiscoveryResponse then .error .unexpectedResponse
    else discoverLoop (data.length + 1) (NewReader data) {}

/-- The request `Discover` sends: one device-type attribute naming a tuner. -/
def discoverRequestPayload : List Nat :=
  (((NewWriter.WriteU8 DeviceType).WriteVarLen 4).WriteU32 TypeTuner).Data

/-- `Discover`. The network is a function from the request datagram to what
the calls resolve, listen, write and read (with its one second deadline)
produce: an error, or the datagram received, of which the 4096-byte receive
buffer keeps the first 4096 bytes. -/
def Discover (net : List Nat → Except Fault (List Nat)) : Except Fault Remote := do
  let packet ← Frame DiscoveryRequest discoverRequestPayload
  match net packet with
  | .error _ => .error .ioFailure
  | .ok reply => discoverDecode (reply.take 4096)

/-! ## Discovery relay engine (`main.go`) -/

/-- A Go `string` constant as bytes. -/
def str (s : String) : List Nat := s.toList.map Char.toNat

/-- `strconv.Itoa` of a non-negative number. -/
def Itoa (n : Nat) : List Nat := (Nat.repr n).toList.map Char.toNat

/-- A socket address `*net.UDPAddr`. -/
structure UDPAddr where
  IP : List Nat
  Port : Nat
  deriving DecidableEq, Repr

/-- The Go `UDPIn`: a datagram, its source and the local address it was
delivered to (`[]` for the zero `netip.Addr`). -/
structure UDPIn where
  Data : List Nat
  Src : UDPAddr
  Dst : List Nat
  deriving DecidableEq, Repr

/-- The configuration of the Go `Relay`. -/
structure Relay where
  Target : List Nat
  Self : List Nat
  deriving DecidableEq, Repr

/-- What one call of `discoveryRequest` did: whether it called `Discover`,
the datagrams it handed to `discoverySocket.Write` with their destination, and
the error it returned (`none` for `nil`; a panic fault when it panicked). -/
structure Handled where
  queried : Bool
  writes : List (List Nat × UDPAddr)
  err : Option Fault
  deriving DecidableEq, Repr

/-- The loop `for i := 0; i < int(vl); i += 4` of `discoveryRequest`, as its
number of iterations: the reader after the loop and `wantTuner`. -/
def multiTypeLoop : Nat → Reader → Bool → Except Fault (Reader × Bool)
  | 0, r, want => .ok (r, want)
  | n + 1, r, want =>
    let x := r.ReadU32
    match x.err with
    | some e => .error e
    | none =>
      multiTypeLoop n x.rd (if x.val = TypeTuner ∨ x.val = TypeWildcard then true else want)

/-- The request parsing of `discoveryRequest` (up to `if !wantTuner`):
`wantTuner`, or the error returned. -/
def parseRequest (data : Reader) : Except Fault Bool :=
  let t := data.ReadU8
  match t.err with
  | some e => .error e
  | none =>
    if t.val = DeviceType then
      let vl := t.rd.ReadVarLen
      match vl.err with
      | some e => .error e
      | none =>
        if vl.val ≠ 4 then .error (.requestInvalidLength vl.val)
        else
          let dty := vl.rd.ReadU32
          match dty.err with
          | some e => .error e
          | none => .ok (decide (dty.val = TypeTuner ∨ dty.val = TypeWildcard))
    else if t.val = MultiType then
      let vl := t.rd.ReadVarLen
      match vl.err with
      | some e => .error e
      | none =>
        if vl.val % 4 ≠ 0 then .error (.requestInvalidLength vl.val)
        else
          match multiTypeLoop ((vl.val + 3) / 4) vl.rd false with
          | .error e => .error e
          | .ok (_, want) => .ok want
    else .error (.requestUnknownType t.val)

/-- The record `discoveryRequest` substitutes when `Discover` fails. -/
def fallbackRemote : Remote := { Ty := TypeTuner, ID := 1234, TunerCount := 1 }

/-- The value `newBase` of `discoveryRequest`. -/
def newBase (self : List Nat) : List Nat := str "http://" ++ self ++ str ":" ++ Itoa WebPort

/-- The response payload `discoveryRequest` writes for the record `upstream`
(`w.Data.Bytes()` at the call of `Frame`). -/
def responsePayload (self : List Nat) (upstream : Remote) : List Nat :=
  let w := NewWriter
  let w := w.WriteU8 DeviceType
  let w := w.WriteVarLen 4
  let w := w.WriteU32 upstream.Ty
  let w := w.WriteU8 DeviceID
  let w := w.WriteVarLen 4
  let w := w.WriteU32 upstream.ID
  let auth := upstream.Auth
  let w :=
    if auth.length > 0 then
      ((w.WriteU8 DeviceAuth).WriteVarLen (auth.length % 65536)).WriteBlob auth
    else w
  let base := newBase self
  let w := w.WriteU8 BaseURL
  let w := w.WriteVarLen (base.length % 65536)
  let w := w.WriteBlob base
  let w := w.WriteU8 TunerCount
  let w := w.WriteVarLen 1
  let w := w.WriteU8 upstream.TunerCount
  let lineup := newBase self ++ str "/lineup.json"
  let w := w.WriteU8 LineupURL
  let w := w.WriteVarLen (lineup.length % 65536)
  let w := w.WriteBlob lineup
  w.Data

/-- The record `discoveryRequest` answers with: what `Discover` returned, the
fallback when it returned an error; a panic inside `Discover` stays a panic. -/
def upstreamOrFallback (net : List Nat → Except Fault (List Nat)) : Except Fault Remote :=
  match Discover net with
  | .error e => if e.isPanic then .error e else .ok fallbackRemote
  | .ok upstream => .ok upstream

/-- `Relay.discoveryRequest`. `net` is the network `Discover` talks to and
`write` the outcome of `discoverySocket.Write` (`none` for `nil`). -/
def discoveryRequest (r : Relay) (net : List Nat → Except Fault (List Nat))
    (write : List Nat → UDPAddr → Option Fault) (inp : UDPIn) (data : Reader) : Handled :=
  match parseRequest data with
  | .error e => { queried := false, writes := [], err := some e }
  | .ok false => { queried := false, writes := [], err := none }
  | .ok true =>
    match upstreamOrFallback net with
    | .error e => { queried := true, writes := [], err := some e }
    | .ok upstream =>
      match Frame DiscoveryResponse (responsePayload r.Self upstream) with
      | .error e => { queried := true, writes := [], err := some e }
      | .ok packet =>
        { queried := true, writes := [(packet, inp.Src)], err := write packet inp.Src }

/-! ## Socket wrapper (`connection.go`) -/

/-- `unix.IPPROTO_IP` (Linux). -/
def IPPROTO_IP : Int := 0
/-- `unix.IP_PKTINFO` (Linux). -/
def IP_PKTINFO : Int := 8
/-- `unix.IPPROTO_IPV6` (Linux). -/
def IPPROTO_IPV6 : Int := 41
/-- `unix.IPV6_PKTINFO` (Linux). -/
def IPV6_PKTINFO : Int := 50

/-- One control message as `unix.ParseOneSocketControlMessage` returns it:
`hdr.Level`, `hdr.Type` and the body. -/
structure CMsg where
  Level : Int
  Typ : Int
  body : List Nat
  deriving DecidableEq, Repr

/-- `netip.Addr.Unmap` on a 16-byte address: an IPv4-mapped IPv6 address
(`::ffff:a.b.c.d`) becomes the 4-byte address, any other address is kept. -/
def Unmap (a : List Nat) : List Nat :=
  if a.take 10 = List.replicate 10 0 ∧ a.getD 10 0 = 0xff ∧ a.getD 11 0 = 0xff then a.drop 12
  else a

/-- The body of the loop of `UDPCon.Read` after a control message was parsed:
the new value of `ip`. `netip.AddrFrom4` and `netip.AddrFrom16` keep the bytes
of the address. -/
def controlStep (ip : List Nat) (m : CMsg) : List Nat :=
  if m.Level = IPPROTO_IP ∧ m.Typ = IP_PKTINFO ∧ m.body.length ≥ 12 then
    (m.body.take 12).drop 8
  else if m.Level = IPPROTO_IPV6 ∧ m.Typ = IPV6_PKTINFO ∧ m.body.length ≥ 16 then
    Unmap (m.body.take 16)
  else ip

/-- The loop `for len(oob) > 0` of `UDPCon.Read` over the control messages the
parser yields one after the other, starting from the zero address `[]`. -/
def scanControl (msgs : List CMsg) : List Nat := msgs.foldl controlStep []

/-- What `ReadMsgUDP` delivered: the datagram, its source and the control
data, as the messages parsed from it or the error of the parser. -/
structure Received where
  Data : List Nat
  Src : UDPAddr
  Control : Except Fault (List CMsg)

/-- `UDPCon.Read` into a buffer of `bufLen` bytes: the error of `ReadMsgUDP`
or of the control-message parser, or the datagram (the first `bufLen` bytes
of it), its source and the destination found in the control data. -/
def UDPCon.Read (bufLen : Nat) (rx : Except Fault Received) : Except Fault UDPIn :=
  match rx with
  | .error e => .error e
  | .ok m =>
    match m.Control with
    | .error e => .error e
    | .ok msgs => .ok { Data := m.Data.take bufLen, Src := m.Src, Dst := scanControl msgs }

/-- The most bytes a UDP datagram over IPv4 carries: 65535 less the 20 bytes
of the IP header and the 8 bytes of the UDP header. -/
def maxDatagram : Nat := 65507

/-- `UDPCon.Write`: `WriteToUDP` on the `udp4` socket. The system call refuses
a buffer of more than `maxDatagram` bytes ("message too long") and sends
nothing; any other buffer goes to the network `sock` as one datagram, with the
outcome of `sock` (`none` for `nil`). -/
def UDPCon.Write (sock : List Nat → UDPAddr → Option Fault) (buffer : List Nat)
    (addr : UDPAddr) : Option Fault :=
  if buffer.length > maxDatagram then some .messageTooLong else sock buffer addr

/-! ## The discovery loop (`main.go`) -/

/-- What one iteration of the loop of `handleDiscovery` meets: the state of
the context, the outcome of the socket read, the network `Discover` talks to
and the outcome of socket writes. -/
structure IterInput where
  ctxErr : Option Fault
  rx : Except Fault Received
  net : List Nat → Except Fault (List Nat)
  write : List Nat → UDPAddr → Option Fault

/-- How one iteration of the loop of `handleDiscovery` ends. -/
inductive IterEnd where
  /-- `return err`: the function returns the error of the context. -/
  | returned (err : Fault)
  /-- The iteration is over and the loop goes on; the datagrams written. -/
  | continued (writes : List (List Nat × UDPAddr))
  /-- A run-time panic. -/
  | panicked (f : Fault)
  deriving DecidableEq, Repr

/-- One iteration of the loop of `handleDiscovery` (buffers of 4096 bytes). -/
def handleDiscoveryIter (r : Relay) (i : IterInput) : IterEnd :=
  match i.ctxErr with
  | some e => .returned e
  | none =>
    match UDPCon.Read 4096 i.rx with
    | .error _ => .continued []
    | .ok inp =>
      match UnFrame inp.Data with
      | .error e => if e.isPanic then .panicked e else .continued []
      | .ok (ty, data) =>
        if ty = DiscoveryRequest then
          let h := discoveryRequest r i.net i.write inp (NewReader data)
          match h.err with
          | some e => if e.isPanic then .panicked e else .continued h.writes
          | none => .continued h.writes
        else .continued []

/-- How a run of `handleDiscovery` over finitely many iterations ends:
`none` while the loop is still running after the last of them. -/
def handleDiscovery (r : Relay) : List IterInput → Option IterEnd
  | [] => none
  | i :: rest =>
    match handleDiscoveryIter r i with
    | .continued _ => handleDiscovery r rest
    | e => some e

/-! ## The wire format as the specification describes it -/

/-- The varlen encoding of the specification: values up to 127 are one byte,
larger values are `b0 = (v & 0x7F) | 0x80`, `b1 = v >> 7` (range 0 to 32767). -/
def specVarLen (v : Nat) : List Nat :=
  if v ≤ 127 then [v] else [(v &&& 0x7F) ||| 0x80, v >>> 7]

/-- An attribute on the wire: tag, varlen length of the value, value. -/
def specAttr (tag : Nat) (value : List Nat) : List Nat :=
  tag :: specVarLen value.length ++ value

/-- A payload: the concatenation of its attributes `(tag, value)`. -/
def specPayload : List (Nat × List Nat) → List Nat
  | [] => []
  | a :: rest => specAttr a.1 a.2 ++ specPayload rest

/-- The varlen decoding of the specification: the value and the bytes after
it. If the high bit of `b0` is clear the value is `b0`, otherwise it is
`(b0 & 0x7F) | (b1 << 7)`. -/
def specReadVarLen : List Nat → Option (Nat × List Nat)
  | [] => none
  | b0 :: rest =>
    if b0 < 128 then some (b0, rest)
    else
      match rest with
      | [] => none
      | b1 :: rest' => some ((b0 - 128) + 128 * b1, rest')

/-- A payload split into its attributes, each delimited by its declared
length; `none` when the payload is not a concatenation of complete
attributes. The budget counts attributes. -/
def specAttrsAux : Nat → List Nat → Option (List (Nat × List Nat))
  | _, [] => some []
  | 0, _ :: _ => none
  | fuel + 1, tag :: rest =>
    match specReadVarLen rest with
    | none => none
    | some (l, value) =>
      if l ≤ value.length then
        (specAttrsAux fuel (value.drop l)).map (fun as => (tag, value.take l) :: as)
      else none

/-- The attributes of a payload. -/
def specAttrs (payload : List Nat) : Option (List (Nat × List Nat)) :=
  specAttrsAux payload.length payload

/-- The value of the first attribute with the given tag. -/
def attrValue (tag : Nat) (attrs : List (Nat × List Nat)) : Option (List Nat) :=
  (attrs.find? (fun a => a.1 = tag)).map (fun a => a.2)

/-- The value of the last attribute with the given tag. -/
def lastValue (tag : Nat) : List (Nat × List Nat) → Option (List Nat)
  | [] => none
  | a :: rest =>
    match lastValue tag rest with
    | some v => some v
    | none => if a.1 = tag then some a.2 else none

/-- The attributes the specification lists for the relay's response to a
record `u`, with the base URL `base`. -/
def responseAttrs (base : List Nat) (u : Remote) : List (Nat × List Nat) :=
  [(0x01, putUint32BE u.Ty), (0x02, putUint32BE u.ID)]
    ++ (if u.Auth = [] then [] else [(0x2B, u.Auth)])
    ++ [(0x2A, base), (0x10, [u.TunerCount]), (0x27, base ++ str "/lineup.json")]

/-- A device-type code that makes a request relevant: tuner or wildcard. -/
def IsTunerOrWildcard (c : Nat) : Prop := c = 0x1 ∨ c = 0xFFFFFFFF

instance (c : Nat) : Decidable (IsTunerOrWildcard c) := by
  unfold IsTunerOrWildcard; infer_instance

/-- Relevance of a discovery-request payload in the words of the
specification: the first attribute is tag 0x01 with declared length 4 and a
code that is tuner or wildcard, or tag 0x2D with a declared length that is a
multiple of 4, all declared codes present and one of them tuner or wildcard. -/
def SpecRelevant (p : List Nat) : Prop :=
  match p with
  | [] => False
  | tag :: rest =>
    match specReadVarLen rest with
    | none => False
    | some (l, value) =>
      (tag = 0x01 ∧ l = 4 ∧ 4 ≤ value.length ∧ IsTunerOrWildcard (beUint32 (value.take 4))) ∨
      (tag = 0x2D ∧ l % 4 = 0 ∧ l ≤ value.length ∧
        ∃ i, i < l / 4 ∧ IsTunerOrWildcard (beUint32 ((value.drop (4 * i)).take 4)))

/-- The effect one attribute has on the record being decoded, in the words of
the specification: the field of a known tag is overwritten, an unknown tag is
skipped. -/
def applyAttr (res : Remote) (a : Nat × List Nat) : Remote :=
  if a.1 = 0x01 then { res with Ty := beUint32 a.2 }
  else if a.1 = 0x02 then { res with ID := beUint32 a.2 }
  else if a.1 = 0x10 then { res with TunerCount := a.2.getD 0 0 }
  else if a.1 = 0x27 then { res with Lineup := a.2 }
  else if a.1 = 0x2A then { res with Base := a.2 }
  else if a.1 = 0x2B then { res with Auth := a.2 }
  else res

/-- The attributes the decoder of `Discover` is specified on: a value of at
most 32767 bytes, exactly 4 bytes for device-type and device-id and exactly 1
byte for tuner-count. -/
def DecodableAttr (a : Nat × List Nat) : Prop :=
  a.2.length ≤ 32767 ∧ ((a.1 = 0x01 ∨ a.1 = 0x02) → a.2.length = 4) ∧
    (a.1 = 0x10 → a.2.length = 1)

instance (a : Nat × List Nat) : Decidable (DecodableAttr a) := by
  unfold DecodableAttr; infer_instance

/-- An incomplete attribute at the end of a payload, of a kind the decoder of
`Discover` notices: a tag without a complete varlen length, a device-type or
device-id with fewer than 4 bytes after the length, a tuner-count with no byte
after the length, or a lineup-url, base-url or device-auth with fewer bytes
after the length than it declares. -/
def Truncated (tail : List Nat) : Prop :=
  (∃ tag, tail = [tag]) ∨
  (∃ tag b0, tail = [tag, b0] ∧ 128 ≤ b0 ∧ b0 < 256) ∨
  (∃ tag l v, tail = tag :: specVarLen l ++ v ∧ l ≤ 32767 ∧
    (((tag = 0x01 ∨ tag = 0x02) ∧ v.length < 4) ∨ (tag = 0x10 ∧ v = []) ∨
      ((tag = 0x27 ∨ tag = 0x2A ∨ tag = 0x2B) ∧ v.length < l)))

/-- A reply datagram `Discover` has to refuse: `UnFrame` rejects it, or its
envelope type is not 0x3, or its payload is a sequence of decodable attributes
followed by a truncated one. -/
def MalformedReply (d : List Nat) : Prop :=
  (∃ e, UnFrame d = .error e) ∨
  (∃ ty payload, UnFrame d = .ok (ty, payload) ∧ ty ≠ 0x3) ∨
  (∃ attrs tail, UnFrame d = .ok (0x3, specPayload attrs ++ tail) ∧
    (∀ a ∈ attrs, DecodableAttr a) ∧ Truncated tail)

/-- A discovery-request payload whose first attribute cannot be parsed, in
the words of the specification: the payload is empty, the first tag is neither
0x01 nor 0x2D, the varlen length is truncated, the tag is 0x01 and the declared
length is not 4 or fewer than 4 value bytes remain, or the tag is 0x2D and the
declared length is not a multiple of 4 or fewer bytes remain than declared. -/
def SpecUnparsable (p : List Nat) : Prop :=
  match p with
  | [] => True
  | tag :: rest =>
    (tag ≠ 0x01 ∧ tag ≠ 0x2D) ∨
    match specReadVarLen rest with
    | none => True
    | some (l, value) =>
      (tag = 0x01 ∧ (l ≠ 4 ∨ value.length < 4)) ∨
      (tag = 0x2D ∧ (l % 4 ≠ 0 ∨ value.length < l))

/-- A control message that carries a destination address: an IPv4 packet-info
entry with a body of at least 12 bytes or an IPv6 packet-info entry with a
body of at least 16 bytes. -/
def IsPktInfo (m : CMsg) : Prop :=
  (m.Level = IPPROTO_IP ∧ m.Typ = IP_PKTINFO ∧ 12 ≤ m.body.length) ∨
  (m.Level = IPPROTO_IPV6 ∧ m.Typ = IPV6_PKTINFO ∧ 16 ≤ m.body.length)

instance (m : CMsg) : Decidable (IsPktInfo m) := by
  unfold IsPktInfo; infer_instance

/-- The address a packet-info entry gives: bytes 8 to 12 of an IPv4 entry,
the first 16 bytes of an IPv6 entry with an IPv4-mapped address unwrapped. -/
def pktInfoAddr (m : CMsg) : List Nat :=
  if m.Level = IPPROTO_IP then (m.body.drop 8).take 4 else Unmap (m.body.take 16)

/-- The destination the specification asks for: the address of the last
packet-info entry, the zero address `[]` when there is none. -/
def specResolve (msgs : List CMsg) : List Nat :=
  match (msgs.filter (fun m => decide (IsPktInfo m))).getLast? with
  | some m => pktInfoAddr m
  | none => []

/-- The number of iterations the loop of `Discover` runs: `discoverLoop` with
a counter in place of the record returned. -/
def discoverLoopIters : Nat → Reader → Remote → Nat
  | 0, _, _ => 0
  | fuel + 1, r, result =>
    if r.HasMore then
      match discoverStep r result with
      | .error _ => 1
      | .ok (r', result') => 1 + discoverLoopIters fuel r' result'
    else 0

/-- The bytes `WriteVarLen` emits for a length. -/
def varLenBytes (v : Nat) : List Nat :=
  if v ≤ 127 then [v] else [v % 128 + 128, v / 128 % 256]

/-- The byte sequence `d` with bit `i` flipped: bit `i % 8` of byte `i / 8`. -/
def flipBit (d : List Nat) (i : Nat) : List Nat :=
  d.set (i / 8) (d.getD (i / 8) 0 ^^^ (1 <<< (i % 8)))

/-! # Theorems -/

theorem Frame_eq (ty : Nat) (data : List Nat) : Frame ty data = .ok (frameBytes ty data) := by
  simp [Frame, frameBytes, frameHeader, putAt, goCopy, putUint16BE, putUint32LE]

theorem frameBytes_length (ty : Nat) (data : List Nat) :
    (frameBytes ty data).length = data.length + 8 := by
  simp [frameBytes, frameHeader, putUint16BE, putUint32LE]

theorem beUint16_putUint16BE (v : Nat) (h : v < 65536) : beUint16 (putUint16BE v) = v := by
  simp [beUint16, putUint16BE]; omega

theorem leUint32_putUint32LE (v : Nat) (h : v < 4294967296) :
    leUint32 (putUint32LE v) = v := by
  simp [leUint32, putUint32LE]; omega

theorem beUint32_putUint32BE (v : Nat) (h : v < 4294967296) :
    beUint32 (putUint32BE v) = v := by
  simp [beUint32, putUint32BE]; omega

theorem slice_ok (d : List Nat) (lo hi : Nat) (h1 : lo ≤ hi) (h2 : hi ≤ d.length) :
    slice d lo hi = .ok ((d.take hi).drop lo) := by
  simp [slice, h1, h2]

theorem slice_panic (d : List Nat) (lo hi : Nat) (h : hi < lo) :
    slice d lo hi = .error .panicSliceBounds := by
  simp [slice]; omega

/-- The shape of every packet `UnFrame` is applied to in the proofs: a
four-byte header, a body and a four-byte trailer. -/
theorem UnFrame_parts (a b c d : Nat) (p t : List Nat) (ht : t.length = 4)
    (hl : (c * 256 + d + 4) % 65536 = p.length + 4) (hp : p.length + 8 < 65536) :
    UnFrame ([a, b, c, d] ++ p ++ t) =
      if ChecksumIEEE ([a, b, c, d] ++ p) ≠ leUint32 t then .error .crcMismatch
      else .ok (a * 256 + b, p) := by
  have hlen : ([a, b, c, d] ++ p ++ t).length = p.length + 8 := by simp [ht]
  have h12 : slice ([a, b, c, d] ++ p ++ t) 0 2 = .ok [a, b] := by
    rw [slice_ok _ _ _ (by omega) (by omega)]; simp
  have h24 : slice ([a, b, c, d] ++ p ++ t) 2 4 = .ok [c, d] := by
    rw [slice_ok _ _ _ (by omega) (by omega)]; simp
  have hcrc : slice ([a, b, c, d] ++ p ++ t) (p.length + 4) (p.length + 8) = .ok t := by
    rw [slice_ok _ _ _ (by omega) (by omega)]
    rw [← hlen, List.take_length]
    have : p.length + 4 = ([a, b, c, d] ++ p).length := by simp
    rw [this, List.drop_left]
  have hbody : slice ([a, b, c, d] ++ p ++ t) 0 (p.length + 4) = .ok ([a, b, c, d] ++ p) := by
    rw [slice_ok _ _ _ (by omega) (by omega)]
    have : p.length + 4 = ([a, b, c, d] ++ p).length := by simp
    rw [this, List.take_left]; simp
  have hpay : slice ([a, b, c, d] ++ p ++ t) 4 (p.length + 4) = .ok p := by
    rw [slice_ok _ _ _ (by omega) (by omega)]
    have : p.length + 4 = ([a, b, c, d] ++ p).length := by simp
    rw [this, List.take_left]; simp
  have hw : (p.length + 4 + 4) % 65536 = p.length + 8 := by omega
  unfold UnFrame
  rw [if_neg (by omega), h12, h24]
  simp only [beUint16, List.getD_cons_zero, List.getD_cons_succ, bind, Except.bind, hl, hlen]
  rw [if_neg (by omega), hw, hcrc, hbody, hpay]

theorem crcStep_lt (c : Nat) (h : c < 4294967296) : crcStep c < 4294967296 := by
  unfold crcStep
  split
  · exact Nat.xor_lt_two_pow (n := 32) (by omega) (by norm_num)
  · omega

theorem crcByte_lt (c b : Nat) (hc : c < 4294967296) (hb : b < 256) :
    crcByte c b < 4294967296 := by
  unfold crcByte
  have h0 : c ^^^ b < 4294967296 := Nat.xor_lt_two_pow (n := 32) hc (by omega)
  exact crcStep_lt _ (crcStep_lt _ (crcStep_lt _ (crcStep_lt _ (crcStep_lt _
    (crcStep_lt _ (crcStep_lt _ (crcStep_lt _ h0)))))))

theorem foldl_crcByte_lt (d : List Nat) (hd : IsBytes d) (c : Nat) (hc : c < 4294967296) :
    d.foldl crcByte c < 4294967296 := by
  induction d generalizing c with
  | nil => simpa using hc
  | cons b t ih =>
    simp only [List.foldl_cons]
    exact ih (fun x hx => hd x (List.mem_cons_of_mem _ hx)) _
      (crcByte_lt c b hc (hd b (List.mem_cons_self _ _)))

theorem ChecksumIEEE_lt (d : List Nat) (hd : IsBytes d) : ChecksumIEEE d < 4294967296 := by
  unfold ChecksumIEEE
  exact Nat.xor_lt_two_pow (n := 32) (foldl_crcByte_lt d hd _ (by norm_num)) (by norm_num)

theorem IsBytes_append {a b : List Nat} (ha : IsBytes a) (hb : IsBytes b) : IsBytes (a ++ b) := by
  intro x hx
  rcases List.mem_append.1 hx with h | h
  · exact ha x h
  · exact hb x h

theorem IsBytes_frameHeader (ty : Nat) (data : List Nat) : IsBytes (frameHeader ty data) := by
  intro x hx
  simp [frameHeader, putUint16BE] at hx
  omega

theorem frameBytes_shape (ty : Nat) (data : List Nat) :
    frameBytes ty data =
      [ty / 256 % 256, ty % 256, data.length % 65536 / 256 % 256, data.length % 65536 % 256]
        ++ data ++ putUint32LE (ChecksumIEEE (frameHeader ty data ++ data)) := by
  simp [frameBytes, frameHeader, putUint16BE]

/-- Round trip of the envelope for payloads of at most 65527 bytes. -/
theorem UnFrame_frameBytes (ty : Nat) (p : List Nat) (hty : ty < 65536) (hb : IsBytes p)
    (hp : p.length ≤ 65527) : UnFrame (frameBytes ty p) = .ok (ty, p) := by
  have hcrc := ChecksumIEEE_lt _ (IsBytes_append (IsBytes_frameHeader ty p) hb)
  rw [frameBytes_shape, UnFrame_parts _ _ _ _ _ _ (by simp [putUint32LE]) (by omega) (by omega)]
  rw [leUint32_putUint32LE _ hcrc]
  have hh : [ty / 256 % 256, ty % 256, p.length % 65536 / 256 % 256, p.length % 65536 % 256]
      = frameHeader ty p := by simp [frameHeader, putUint16BE]
  rw [hh, if_neg (by simp)]
  congr 2
  omega

/-! ## Bit operations as arithmetic -/

theorem or_0x80_mod (v : Nat) : (v ||| 0x80) % 256 = v % 128 + 128 := by
  have e : v % 128 + 128 = 2 ^ 7 * 1 ||| v % 2 ^ 7 := by
    rw [← Nat.mul_add_lt_is_or (Nat.mod_lt _ (by norm_num))]; norm_num; omega
  rw [e]
  apply Nat.eq_of_testBit_eq
  intro i
  have h8 : (256 : Nat) = 2 ^ 8 := by norm_num
  have h7 : (0x80 : Nat) = 2 ^ 7 := by norm_num
  rw [h8, h7, Nat.testBit_mod_two_pow, Nat.testBit_or, Nat.testBit_or, Nat.mul_one,
    Nat.testBit_two_pow, Nat.testBit_mod_two_pow]
  by_cases h : i < 7
  · have : ¬ (7 = i) := by omega
    have : i < 8 := by omega
    simp [*]
  · by_cases h' : 7 = i
    · subst h'; simp
    · have : ¬ i < 8 := by omega
      simp [*]

theorem and_0x7f (v : Nat) : v &&& 0x7f = v % 128 := by
  have h := Nat.and_pow_two_sub_one_eq_mod v 7
  norm_num at h
  exact h

theorem and_0x80_ne (v : Nat) : v &&& 0x80 ≠ 0 ↔ v % 256 ≥ 128 := by
  have h := Nat.and_two_pow v 7
  norm_num at h
  rw [h, Nat.testBit_to_div_mod]
  by_cases hb : v / 2 ^ 7 % 2 = 1
  · simp [hb]; omega
  · simp [hb]; omega

theorem or_shift7 (lo s : Nat) (h : lo < 128) : lo ||| (s * 128) = lo + s * 128 := by
  have := Nat.mul_add_lt_is_or (i := 7) (b := lo) (by norm_num; exact h) s
  norm_num at this
  rw [Nat.or_comm, Nat.mul_comm s 128, ← this]; omega

theorem shr7 (v : Nat) : v >>> 7 = v / 128 := by
  rw [Nat.shiftRight_eq_div_pow]

theorem shl7 (v : Nat) : v <<< 7 = v * 128 := by
  rw [Nat.shiftLeft_eq]

/-! ## Reader and writer, byte by byte -/

theorem WriteVarLen_data (w : Writer) (v : Nat) :
    (w.WriteVarLen v).Data = w.Data ++ varLenBytes v := by
  unfold Writer.WriteVarLen varLenBytes
  split
  · rename_i h
    simp [Writer.WriteU8]; omega
  · simp only [Writer.WriteU8, or_0x80_mod, shr7, List.append_assoc, List.singleton_append]

theorem getD_append_length (pre : List Nat) (b : Nat) (post : List Nat) :
    (pre ++ b :: post).getD pre.length 0 = b := by
  rw [List.getD_eq_getElem?_getD, List.getElem?_append_right (le_refl _)]
  simp

theorem ReadU8_at (pre : List Nat) (b : Nat) (post : List Nat) :
    Reader.ReadU8 { Data := pre ++ b :: post, Pos := pre.length } =
      { val := b, err := none, rd := { Data := pre ++ b :: post, Pos := pre.length + 1 } } := by
  unfold Reader.ReadU8
  rw [if_neg (by simp)]
  simp only [getD_append_length]

theorem ReadVarLen_one (pre : List Nat) (b : Nat) (post : List Nat) (hb : b < 128) :
    Reader.ReadVarLen { Data := pre ++ b :: post, Pos := pre.length } =
      { val := b, err := none, rd := { Data := pre ++ b :: post, Pos := pre.length + 1 } } := by
  unfold Reader.ReadVarLen
  rw [if_neg (by simp)]
  simp only [getD_append_length]
  rw [if_neg]
  rw [and_0x80_ne]; omega

theorem ReadVarLen_two (pre : List Nat) (b0 b1 : Nat) (post : List Nat) (h0 : 128 ≤ b0)
    (h0' : b0 < 256) (h1 : b1 < 256) :
    Reader.ReadVarLen { Data := pre ++ b0 :: b1 :: post, Pos := pre.length } =
      { val := b0 % 128 + b1 * 128, err := none,
        rd := { Data := pre ++ b0 :: b1 :: post, Pos := pre.length + 2 } } := by
  unfold Reader.ReadVarLen
  rw [if_neg (by simp)]
  simp only [getD_append_length]
  rw [if_pos (by rw [and_0x80_ne]; omega), if_neg (by simp; omega)]
  have e : pre ++ b0 :: b1 :: post = (pre ++ [b0]) ++ b1 :: post := by simp
  have e2 : pre.length + 1 = (pre ++ [b0]).length := by simp
  have hs : (pre ++ b0 :: b1 :: post).getD (pre.length + 1) 0 = b1 := by
    rw [e, e2, getD_append_length]
  simp only [hs, and_0x7f, shl7]
  rw [Nat.mod_eq_of_lt (by omega : b1 * 128 < 65536), or_shift7 _ _ (Nat.mod_lt _ (by norm_num))]

/-- Reading back a length written by `WriteVarLen`. -/
theorem ReadVarLen_varLenBytes (pre : List Nat) (v : Nat) (post : List Nat) (hv : v ≤ 32767) :
    Reader.ReadVarLen { Data := pre ++ varLenBytes v ++ post, Pos := pre.length } =
      { val := v, err := none,
        rd := { Data := pre ++ varLenBytes v ++ post,
                Pos := pre.length + (varLenBytes v).length } } := by
  unfold varLenBytes
  split
  · simp only [List.append_assoc, List.singleton_append, List.length_singleton]
    exact ReadVarLen_one pre v post (by omega)
  · simp only [List.append_assoc, List.cons_append, List.nil_append, List.length_cons,
      List.length_nil]
    rw [ReadVarLen_two pre _ _ post (by omega) (by omega) (by omega)]
    congr 1
    omega

theorem take_drop_at (pre value : List Nat) (l : Nat) :
    ((pre ++ value).take (pre.length + l)).drop pre.length = value.take l := by
  rw [List.take_append, List.drop_left]

theorem ReadU8_end (r : Reader) (h : r.Data.length ≤ r.Pos) :
    r.ReadU8 = { val := 0, err := some .endOfPacket, rd := r } := by
  unfold Reader.ReadU8
  rw [if_pos (by omega)]

theorem ReadU32_at (pre value : List Nat) (h : 4 ≤ value.length) :
    Reader.ReadU32 { Data := pre ++ value, Pos := pre.length } =
      { val := beUint32 (value.take 4), err := none,
        rd := { Data := pre ++ value, Pos := pre.length + 4 } } := by
  unfold Reader.ReadU32
  rw [if_neg (by simp; omega)]
  rw [take_drop_at]

theorem ReadU32_end (pre value : List Nat) (h : value.length < 4) :
    Reader.ReadU32 { Data := pre ++ value, Pos := pre.length } =
      { val := 0, err := some .endOfPacket, rd := { Data := pre ++ value, Pos := pre.length } }
    := by
  unfold Reader.ReadU32
  rw [if_pos (by simp; omega)]

theorem ReadStr_at (pre value : List Nat) (l : Nat) (h : l ≤ value.length) :
    Reader.ReadStr { Data := pre ++ value, Pos := pre.length } l =
      { val := value.take l, err := none,
        rd := { Data := pre ++ value, Pos := pre.length + l } } := by
  unfold Reader.ReadStr
  rw [if_neg (by simp; omega)]
  rw [take_drop_at]

theorem ReadStr_end (pre value : List Nat) (l : Nat) (h : value.length < l) :
    Reader.ReadStr { Data := pre ++ value, Pos := pre.length } l =
      { val := [], err := some .endOfPacket, rd := { Data := pre ++ value, Pos := pre.length } }
    := by
  unfold Reader.ReadStr
  rw [if_pos (by simp; omega)]

/-- `ReadVarLen` agrees with the varlen decoding of the specification. -/
theorem ReadVarLen_spec (pre rest : List Nat) (hb : IsBytes rest) :
    (specReadVarLen rest = none ∧
      (Reader.ReadVarLen { Data := pre ++ rest, Pos := pre.length }).err = some .endOfPacket) ∨
    (∃ l value lb, specReadVarLen rest = some (l, value) ∧ rest = lb ++ value ∧
      0 < lb.length ∧
      Reader.ReadVarLen { Data := pre ++ rest, Pos := pre.length } =
        { val := l, err := none, rd := { Data := pre ++ rest, Pos := (pre ++ lb).length } }) := by
  rcases rest with _ | ⟨b0, rest⟩
  · left
    refine ⟨rfl, ?_⟩
    unfold Reader.ReadVarLen
    rw [if_pos (by simp)]
  · have hb0 : b0 < 256 := hb b0 (List.mem_cons_self _ _)
    by_cases h0 : b0 < 128
    · right
      refine ⟨b0, rest, [b0], by simp [specReadVarLen, h0], by simp, by simp, ?_⟩
      rw [ReadVarLen_one pre b0 rest h0]
      simp
    · rcases rest with _ | ⟨b1, rest⟩
      · left
        refine ⟨by simp [specReadVarLen, h0], ?_⟩
        unfold Reader.ReadVarLen
        rw [if_neg (by simp)]
        simp only [getD_append_length]
        rw [if_pos (by rw [and_0x80_ne]; omega), if_pos (by simp)]
      · have hb1 : b1 < 256 := hb b1 (by simp)
        right
        refine ⟨(b0 - 128) + 128 * b1, rest, [b0, b1], by simp [specReadVarLen, h0], by simp,
          by simp, ?_⟩
        rw [ReadVarLen_two pre b0 b1 rest (by omega) hb0 hb1]
        simp only [List.length_append, List.length_cons, List.length_nil, Read.mk.injEq,
          and_true]
        omega

theorem specVarLen_eq (v : Nat) (hv : v ≤ 32767) : specVarLen v = varLenBytes v := by
  unfold specVarLen varLenBytes
  split
  · rfl
  · have hlo : (v &&& 0x7F) ||| 0x80 = v % 128 + 128 := by
      have := or_0x80_mod (v % 128)
      rw [and_0x7f]
      have h2 : v % 128 ||| 0x80 < 256 :=
        Nat.or_lt_two_pow (n := 8) (by omega) (by norm_num)
      rw [Nat.mod_eq_of_lt h2] at this
      omega
    have hhi : v >>> 7 = v / 128 % 256 := by rw [shr7]; omega
    rw [hlo, hhi]

theorem WriteU8_data (w : Writer) (v : Nat) : (w.WriteU8 v).Data = w.Data ++ [v] := rfl

theorem WriteU32_data (w : Writer) (v : Nat) : (w.WriteU32 v).Data = w.Data ++ putUint32BE v :=
  rfl

theorem WriteBlob_data (w : Writer) (b : List Nat) : (w.WriteBlob b).Data = w.Data ++ b := rfl

theorem NewWriter_data : NewWriter.Data = [] := rfl

theorem varLenBytes_4 : varLenBytes 4 = [4] := by simp [varLenBytes]

theorem varLenBytes_1 : varLenBytes 1 = [1] := by simp [varLenBytes]

/-- The response payload, byte by byte. -/
theorem responsePayload_eq (self : List Nat) (u : Remote) :
    responsePayload self u =
      (0x01 :: 4 :: putUint32BE u.Ty) ++ (0x02 :: 4 :: putUint32BE u.ID)
        ++ (if u.Auth.length > 0 then
              0x2B :: varLenBytes (u.Auth.length % 65536) ++ u.Auth else [])
        ++ (0x2A :: varLenBytes ((newBase self).length % 65536) ++ newBase self)
        ++ [0x10, 1, u.TunerCount]
        ++ (0x27 :: varLenBytes ((newBase self ++ str "/lineup.json").length % 65536)
              ++ (newBase self ++ str "/lineup.json")) := by
  unfold responsePayload
  by_cases h : u.Auth.length > 0
  · simp only [h, if_true, WriteU8_data, WriteU32_data, WriteBlob_data, WriteVarLen_data,
      NewWriter_data, varLenBytes_4, varLenBytes_1, DeviceType, DeviceID, DeviceAuth, BaseURL,
      TunerCount, LineupURL]
    simp
  · simp only [h, if_false, WriteU8_data, WriteU32_data, WriteBlob_data, WriteVarLen_data,
      NewWriter_data, varLenBytes_4, varLenBytes_1, DeviceType, DeviceID, DeviceAuth, BaseURL,
      TunerCount, LineupURL]
    simp

/-- For lengths the varlen can express the response payload is the
concatenation of the attributes of the specification. -/
theorem responsePayload_spec (self : List Nat) (u : Remote) (ha : u.Auth.length ≤ 32767)
    (hl : (newBase self ++ str "/lineup.json").length ≤ 32767) :
    responsePayload self u = specPayload (responseAttrs (newBase self) u) := by
  have hb : (newBase self).length ≤ 32767 := by
    rw [List.length_append] at hl; omega
  rw [responsePayload_eq]
  unfold responseAttrs
  have h4 : specVarLen 4 = [4] := by simp [specVarLen]
  have h1 : specVarLen 1 = [1] := by simp [specVarLen]
  by_cases h : u.Auth = []
  · have h0 : ¬ u.Auth.length > 0 := by simp [h]
    simp only [h, h0, if_true, if_false]
    simp only [List.append_nil, List.cons_append, List.nil_append, specPayload, specAttr,
      putUint32BE, List.length_cons, List.length_nil, h4, h1, List.singleton_append]
    rw [Nat.mod_eq_of_lt (by omega : (newBase self).length < 65536),
      Nat.mod_eq_of_lt (by omega : (newBase self ++ str "/lineup.json").length < 65536),
      specVarLen_eq _ hb, specVarLen_eq _ hl]
    simp
  · have h0 : u.Auth.length > 0 := List.length_pos.2 h
    simp only [h, h0, if_true, if_false]
    simp only [List.append_nil, List.cons_append, List.nil_append, specPayload, specAttr,
      putUint32BE, List.length_cons, List.length_nil, h4, h1, List.singleton_append]
    rw [Nat.mod_eq_of_lt (by omega : (newBase self).length < 65536),
      Nat.mod_eq_of_lt (by omega : (newBase self ++ str "/lineup.json").length < 65536),
      Nat.mod_eq_of_lt (by omega : u.Auth.length < 65536),
      specVarLen_eq _ hb, specVarLen_eq _ hl, specVarLen_eq _ ha]
    simp

/-! ## The decoding loop of `Discover` on a sequence of attributes -/

theorem ReadU8_in (D pre : List Nat) (b : Nat) (post : List Nat) (h : D = pre ++ b :: post) :
    Reader.ReadU8 { Data := D, Pos := pre.length } =
      { val := b, err := none, rd := { Data := D, Pos := pre.length + 1 } } := by
  subst h; exact ReadU8_at pre b post

theorem ReadVarLen_in (D pre : List Nat) (v : Nat) (post : List Nat) (hv : v ≤ 32767)
    (h : D = pre ++ specVarLen v ++ post) :
    Reader.ReadVarLen { Data := D, Pos := pre.length } =
      { val := v, err := none,
        rd := { Data := D, Pos := pre.length + (specVarLen v).length } } := by
  subst h
  rw [specVarLen_eq v hv]
  exact ReadVarLen_varLenBytes pre v post hv

theorem ReadU32_in (D pre value : List Nat) (h : D = pre ++ value) (h4 : 4 ≤ value.length) :
    Reader.ReadU32 { Data := D, Pos := pre.length } =
      { val := beUint32 (value.take 4), err := none,
        rd := { Data := D, Pos := pre.length + 4 } } := by
  subst h; exact ReadU32_at pre value h4

theorem ReadU32_in_end (D pre value : List Nat) (h : D = pre ++ value)
    (h4 : value.length < 4) :
    (Reader.ReadU32 { Data := D, Pos := pre.length }).err = some .endOfPacket := by
  subst h; rw [ReadU32_end pre value h4]

theorem ReadStr_in (D pre value : List Nat) (l : Nat) (h : D = pre ++ value)
    (hl : l ≤ value.length) :
    Reader.ReadStr { Data := D, Pos := pre.length } l =
      { val := value.take l, err := none, rd := { Data := D, Pos := pre.length + l } } := by
  subst h; exact ReadStr_at pre value l hl

theorem ReadStr_in_end (D pre value : List Nat) (l : Nat) (h : D = pre ++ value)
    (hl : value.length < l) :
    (Reader.ReadStr { Data := D, Pos := pre.length } l).err = some .endOfPacket := by
  subst h; rw [ReadStr_end pre value l hl]

/-- The case of the `switch` for one complete attribute value. -/
theorem discoverAttr_value (D pre v post : List Nat) (tag : Nat) (res : Remote)
    (hD : D = pre ++ (v ++ post)) (hdec : DecodableAttr (tag, v)) :
    ∃ r', discoverAttr tag v.length { Data := D, Pos := pre.length } res
        = .ok (r', applyAttr res (tag, v)) ∧ r'.Data = D := by
  obtain ⟨_, h4, h1⟩ := hdec
  simp only at h4 h1
  unfold discoverAttr applyAttr
  simp only [DeviceType, DeviceID, TunerCount, LineupURL, BaseURL, DeviceAuth]
  have htake : (v ++ post).take v.length = v := List.take_left v post
  split_ifs with c1 c2 c3 c4 c5 c6
  · have hv := h4 (Or.inl c1)
    rw [ReadU32_in D pre (v ++ post) hD (by simp; omega)]
    rw [← hv, htake]
    exact ⟨_, rfl, rfl⟩
  · have hv := h4 (Or.inr c2)
    rw [ReadU32_in D pre (v ++ post) hD (by simp; omega)]
    rw [← hv, htake]
    exact ⟨_, rfl, rfl⟩
  · have hv := h1 c3
    obtain ⟨b, rfl⟩ : ∃ b, v = [b] := List.length_eq_one.1 hv
    rw [ReadU8_in D pre b post (by rw [hD]; simp)]
    exact ⟨_, rfl, rfl⟩
  · rw [ReadStr_in D pre (v ++ post) v.length hD (by simp), htake]
    exact ⟨_, rfl, rfl⟩
  · rw [ReadStr_in D pre (v ++ post) v.length hD (by simp), htake]
    exact ⟨_, rfl, rfl⟩
  · rw [ReadStr_in D pre (v ++ post) v.length hD (by simp), htake]
    exact ⟨_, rfl, rfl⟩
  · exact ⟨_, rfl, rfl⟩

/-- One iteration of the loop over one complete attribute. -/
theorem discoverStep_specAttr (D pre post : List Nat) (a : Nat × List Nat) (res : Remote)
    (hD : D = pre ++ specAttr a.1 a.2 ++ post) (hdec : DecodableAttr a) :
    discoverStep { Data := D, Pos := pre.length } res =
      .ok ({ Data := D, Pos := (pre ++ specAttr a.1 a.2).length }, applyAttr res a) := by
  obtain ⟨tag, v⟩ := a
  have hlen := hdec.1
  simp only at hlen hD
  have h1 : D = pre ++ tag :: (specVarLen v.length ++ (v ++ post)) := by
    rw [hD]; simp [specAttr]
  have h2 : D = (pre ++ [tag]) ++ specVarLen v.length ++ (v ++ post) := by
    rw [hD]; simp [specAttr]
  have h3 : D = (pre ++ [tag] ++ specVarLen v.length) ++ (v ++ post) := by
    rw [hD]; simp [specAttr]
  have hr1 := ReadU8_in D pre tag _ h1
  have hr2 := ReadVarLen_in D (pre ++ [tag]) v.length (v ++ post) hlen h2
  obtain ⟨r', hr3, hr3d⟩ := discoverAttr_value D (pre ++ [tag] ++ specVarLen v.length) v post
    tag res h3 hdec
  simp only [List.length_append, List.length_singleton] at hr2 hr3
  unfold discoverStep
  simp only [hr1, hr2, hr3, hr3d]
  simp only [specAttr, List.length_append, List.length_cons]
  congr 3
  omega

theorem specAttr_length_pos (tag : Nat) (v : List Nat) : 2 ≤ (specAttr tag v).length := by
  unfold specAttr specVarLen
  split <;> simp

theorem discoverLoop_specPayload (attrs : List (Nat × List Nat))
    (hdec : ∀ a ∈ attrs, DecodableAttr a) (D pre post : List Nat) (res : Remote) (fuel : Nat)
    (hD : D = pre ++ specPayload attrs ++ post) :
    discoverLoop (fuel + attrs.length) { Data := D, Pos := pre.length } res =
      discoverLoop fuel { Data := D, Pos := (pre ++ specPayload attrs).length }
        (attrs.foldl applyAttr res) := by
  induction attrs generalizing pre res with
  | nil => simp [specPayload]
  | cons a rest ih =>
    have ha : DecodableAttr a := hdec a (List.mem_cons_self _ _)
    have hrest : ∀ b ∈ rest, DecodableAttr b := fun b hb => hdec b (List.mem_cons_of_mem _ hb)
    have hD1 : D = pre ++ specAttr a.1 a.2 ++ (specPayload rest ++ post) := by
      rw [hD]; simp [specPayload]
    have hD2 : D = (pre ++ specAttr a.1 a.2) ++ specPayload rest ++ post := by
      rw [hD]; simp [specPayload]
    have hmore : Reader.HasMore { Data := D, Pos := pre.length } = true := by
      have := specAttr_length_pos a.1 a.2
      simp [Reader.HasMore, hD1]; omega
    have e : fuel + (a :: rest).length = (fuel + rest.length) + 1 := by simp; omega
    rw [e, discoverLoop, if_pos hmore, discoverStep_specAttr D pre _ a res hD1 ha]
    simp only
    rw [ih hrest (pre ++ specAttr a.1 a.2) (applyAttr res a) hD2]
    simp [specPayload]

theorem specPayload_length (attrs : List (Nat × List Nat)) :
    attrs.length ≤ (specPayload attrs).length := by
  induction attrs with
  | nil => simp
  | cons a rest ih =>
    have := specAttr_length_pos a.1 a.2
    simp [specPayload]; omega

theorem foldl_applyAttr_field {β : Type} (f : Remote → β) (tag : Nat) (g : List Nat → β)
    (hf : ∀ res a, f (applyAttr res a) = if a.1 = tag then g a.2 else f res)
    (attrs : List (Nat × List Nat)) (res : Remote) :
    f (attrs.foldl applyAttr res) = ((lastValue tag attrs).map g).getD (f res) := by
  induction attrs generalizing res with
  | nil => rfl
  | cons a rest ih =>
    rw [List.foldl_cons, ih, hf]
    cases hl : lastValue tag rest with
    | some v => simp [lastValue, hl]
    | none =>
      by_cases h : a.1 = tag
      · simp [lastValue, hl, h]
      · simp [lastValue, hl, h]

theorem applyAttr_Ty (res : Remote) (a : Nat × List Nat) :
    (applyAttr res a).Ty = if a.1 = 0x01 then beUint32 a.2 else res.Ty := by
  unfold applyAttr; split_ifs <;> rfl

theorem applyAttr_ID (res : Remote) (a : Nat × List Nat) :
    (applyAttr res a).ID = if a.1 = 0x02 then beUint32 a.2 else res.ID := by
  unfold applyAttr; split_ifs <;> first | rfl | omega

theorem applyAttr_TunerCount (res : Remote) (a : Nat × List Nat) :
    (applyAttr res a).TunerCount = if a.1 = 0x10 then a.2.getD 0 0 else res.TunerCount := by
  unfold applyAttr; split_ifs <;> first | rfl | omega

theorem applyAttr_Lineup (res : Remote) (a : Nat × List Nat) :
    (applyAttr res a).Lineup = if a.1 = 0x27 then a.2 else res.Lineup := by
  unfold applyAttr; split_ifs <;> first | rfl | omega

theorem applyAttr_Base (res : Remote) (a : Nat × List Nat) :
    (applyAttr res a).Base = if a.1 = 0x2A then a.2 else res.Base := by
  unfold applyAttr; split_ifs <;> first | rfl | omega

theorem applyAttr_Auth (res : Remote) (a : Nat × List Nat) :
    (applyAttr res a).Auth = if a.1 = 0x2B then a.2 else res.Auth := by
  unfold applyAttr; split_ifs <;> first | rfl | omega

/-- The record after a sequence of attributes holds, in each field, the value
of the last attribute with the tag of the field. -/
theorem foldl_applyAttr_eq (attrs : List (Nat × List Nat)) :
    attrs.foldl applyAttr {} =
      { Ty := ((lastValue 0x01 attrs).map beUint32).getD 0,
        ID := ((lastValue 0x02 attrs).map beUint32).getD 0,
        TunerCount := ((lastValue 0x10 attrs).map (fun v => v.getD 0 0)).getD 0,
        Lineup := (lastValue 0x27 attrs).getD [],
        Base := (lastValue 0x2A attrs).getD [],
        Auth := (lastValue 0x2B attrs).getD [] } := by
  have h1 := foldl_applyAttr_field (fun r => r.Ty) 0x01 beUint32 applyAttr_Ty attrs {}
  have h2 := foldl_applyAttr_field (fun r => r.ID) 0x02 beUint32 applyAttr_ID attrs {}
  have h3 := foldl_applyAttr_field (fun r => r.TunerCount) 0x10 (fun v => v.getD 0 0)
    applyAttr_TunerCount attrs {}
  have h4 := foldl_applyAttr_field (fun r => r.Lineup) 0x27 id applyAttr_Lineup attrs {}
  have h5 := foldl_applyAttr_field (fun r => r.Base) 0x2A id applyAttr_Base attrs {}
  have h6 := foldl_applyAttr_field (fun r => r.Auth) 0x2B id applyAttr_Auth attrs {}
  simp only [Option.map_id_fun, id_eq] at h1 h2 h3 h4 h5 h6
  generalize attrs.foldl applyAttr {} = u at h1 h2 h3 h4 h5 h6
  cases u
  simp only at h1 h2 h3 h4 h5 h6
  simp only [Remote.mk.injEq]
  exact ⟨h2, h1, h3, h4, h5, h6⟩

/-- The loop of `Discover` on a payload made of decodable attributes. -/
theorem discoverLoop_attrs (attrs : List (Nat × List Nat))
    (hdec : ∀ a ∈ attrs, DecodableAttr a) :
    discoverLoop ((specPayload attrs).length + 1) (NewReader (specPayload attrs)) {}
      = .ok (attrs.foldl applyAttr {}) := by
  have hle := specPayload_length attrs
  obtain ⟨k, hk⟩ : ∃ k, (specPayload attrs).length + 1 = (k + 1) + attrs.length :=
    ⟨(specPayload attrs).length - attrs.length, by omega⟩
  have := discoverLoop_specPayload attrs hdec (specPayload attrs) [] [] {} (k + 1) (by simp)
  simp only [List.length_nil, List.nil_append] at this
  rw [hk, NewReader, this, discoverLoop, if_neg (by simp [Reader.HasMore])]

theorem ReadVarLen_none (pre rest : List Nat) (hb : IsBytes rest)
    (hs : specReadVarLen rest = none) :
    (Reader.ReadVarLen { Data := pre ++ rest, Pos := pre.length }).err = some .endOfPacket := by
  rcases ReadVarLen_spec pre rest hb with ⟨_, h⟩ | ⟨l, value, lb, h, _⟩
  · exact h
  · rw [hs] at h; cases h

/-- One iteration of the loop on a truncated attribute fails. -/
theorem discoverStep_truncated (pre tail : List Nat) (res : Remote) (ht : Truncated tail) :
    ∃ e, discoverStep { Data := pre ++ tail, Pos := pre.length } res = .error e ∧
      e ≠ .outOfFuel := by
  rcases ht with ⟨tag, rfl⟩ | ⟨tag, b0, rfl, h0, h0'⟩ | ⟨tag, l, v, rfl, hl, hcase⟩
  · have hr1 := ReadU8_at pre tag []
    have hr2 := ReadVarLen_none (pre ++ [tag]) [] (by decide) rfl
    simp only [List.append_nil, List.length_append, List.length_singleton] at hr2
    refine ⟨.failedReadLen, ?_, by decide⟩
    unfold discoverStep
    simp only [hr1]
    generalize Reader.ReadVarLen { Data := pre ++ [tag], Pos := pre.length + 1 } = x at hr2
    rcases x with ⟨xv, xe, xr⟩
    simp only at hr2
    subst hr2
    rfl
  · have hr1 := ReadU8_at pre tag [b0]
    have hr2 := ReadVarLen_none (pre ++ [tag]) [b0]
      (by intro z hz; simp at hz; omega)
      (by simp [specReadVarLen]; omega)
    simp only [List.append_assoc, List.singleton_append, List.length_append,
      List.length_singleton] at hr2
    refine ⟨.failedReadLen, ?_, by decide⟩
    unfold discoverStep
    simp only [hr1]
    generalize Reader.ReadVarLen { Data := pre ++ [tag, b0], Pos := pre.length + 1 } = x at hr2
    rcases x with ⟨xv, xe, xr⟩
    simp only at hr2
    subst hr2
    rfl
  · have h1 : pre ++ (tag :: specVarLen l ++ v) = pre ++ tag :: (specVarLen l ++ v) := by simp
    have h2 : pre ++ (tag :: specVarLen l ++ v) = (pre ++ [tag]) ++ specVarLen l ++ v := by simp
    have h3 : pre ++ (tag :: specVarLen l ++ v) = (pre ++ [tag] ++ specVarLen l) ++ v := by simp
    have hr1 := ReadU8_in _ pre tag _ h1
    have hr2 := ReadVarLen_in _ (pre ++ [tag]) l v hl h2
    simp only [List.length_append, List.length_singleton] at hr2
    refine ⟨.failedReadTagData, ?_, by decide⟩
    unfold discoverStep
    simp only [hr1, hr2]
    have hpos : pre.length + 1 + (specVarLen l).length
        = (pre ++ [tag] ++ specVarLen l).length := by simp; omega
    rw [hpos]
    have hattr : discoverAttr tag l
        (Reader.mk (pre ++ (tag :: specVarLen l ++ v)) (pre ++ [tag] ++ specVarLen l).length)
        res = .error .failedReadTagData := by
      unfold discoverAttr
      simp only [DeviceType, DeviceID, TunerCount, LineupURL, BaseURL, DeviceAuth]
      rcases hcase with ⟨ht, hv⟩ | ⟨ht, hv⟩ | ⟨ht, hv⟩
      · have he := ReadU32_in_end _ (pre ++ [tag] ++ specVarLen l) v h3 hv
        generalize Reader.ReadU32 _ = x at he ⊢
        rcases x with ⟨xv, xe, xr⟩
        simp only at he
        subst he
        rcases ht with ht | ht <;> simp [ht]
      · have he := congrArg Read.err (ReadU8_end
          (Reader.mk (pre ++ (tag :: specVarLen l ++ v)) (pre ++ [tag] ++ specVarLen l).length)
          (by simp [hv]))
        simp only at he
        generalize Reader.ReadU8 _ = x at he ⊢
        rcases x with ⟨xv, xe, xr⟩
        simp only at he
        subst he
        simp [ht]
      · have he := ReadStr_in_end _ (pre ++ [tag] ++ specVarLen l) v l h3 hv
        generalize Reader.ReadStr _ l = x at he ⊢
        rcases x with ⟨xv, xe, xr⟩
        simp only at he
        subst he
        rcases ht with ht | ht | ht <;> simp [ht]
    rw [hattr]

theorem Truncated_ne_nil (tail : List Nat) (ht : Truncated tail) : 0 < tail.length := by
  rcases ht with ⟨tag, rfl⟩ | ⟨tag, b0, rfl, _, _⟩ | ⟨tag, l, v, rfl, _, _⟩ <;> simp

/-- The loop of `Discover` on decodable attributes followed by a truncated one
returns an error. -/
theorem discoverLoop_truncated (attrs : List (Nat × List Nat))
    (hdec : ∀ a ∈ attrs, DecodableAttr a) (tail : List Nat) (ht : Truncated tail) :
    ∃ e, discoverLoop ((specPayload attrs ++ tail).length + 1)
      (NewReader (specPayload attrs ++ tail)) {} = .error e ∧ e ≠ .outOfFuel := by
  have hle := specPayload_length attrs
  obtain ⟨k, hk⟩ : ∃ k, (specPayload attrs ++ tail).length + 1 = (k + 1) + attrs.length :=
    ⟨(specPayload attrs ++ tail).length - attrs.length, by
      rw [List.length_append]; omega⟩
  have h := discoverLoop_specPayload attrs hdec (specPayload attrs ++ tail) [] tail {} (k + 1)
    (by simp)
  simp only [List.length_nil, List.nil_append] at h
  obtain ⟨e, he, hne⟩ := discoverStep_truncated (specPayload attrs) tail
    (attrs.foldl applyAttr {}) ht
  have hpos := Truncated_ne_nil tail ht
  refine ⟨e, ?_, hne⟩
  rw [hk, NewReader, h, discoverLoop, if_pos (by simp [Reader.HasMore]; omega), he]

/-- The reply decoding of `Discover` refuses a malformed reply, with an error
of the Go code (not the exhausted budget of the model). -/
theorem discoverDecode_malformed (d : List Nat) (h : MalformedReply d) :
    ∃ e, discoverDecode d = .error e ∧ e ≠ .outOfFuel := by
  unfold discoverDecode
  rcases h with ⟨e, he⟩ | ⟨ty, payload, hu, hty⟩ | ⟨attrs, tail, hu, hdec, ht⟩
  · rw [he]
    by_cases hp : e.isPanic = true
    · refine ⟨e, by simp [hp], ?_⟩
      intro h0
      rw [h0] at hp
      cases hp
    · exact ⟨.failedUnframe, by simp [hp], by decide⟩
  · rw [hu]
    exact ⟨.unexpectedResponse, by simp [DiscoveryResponse, hty], by decide⟩
  · rw [hu]
    obtain ⟨e, he, hne⟩ := discoverLoop_truncated attrs hdec tail ht
    refine ⟨e, ?_, hne⟩
    simp only [DiscoveryResponse, ne_eq, not_true_eq_false, if_false]
    exact he

/-! ## The request parser against the specification -/

theorem ReadU32_pos (d : List Nat) (pos : Nat) (h : pos + 4 ≤ d.length) :
    Reader.ReadU32 { Data := d, Pos := pos } =
      { val := beUint32 ((d.drop pos).take 4), err := none, rd := { Data := d, Pos := pos + 4 } }
    := by
  unfold Reader.ReadU32
  rw [if_neg (by simp; omega)]
  simp only [Read.mk.injEq, and_true]
  rw [List.drop_take]
  simp

theorem ReadU32_pos_end (d : List Nat) (pos : Nat) (h : d.length < pos + 4) :
    (Reader.ReadU32 { Data := d, Pos := pos }).err = some .endOfPacket := by
  unfold Reader.ReadU32
  rw [if_pos (by simp; omega)]

theorem multiTypeLoop_spec (d : List Nat) (n pos : Nat) (want : Bool) :
    (pos + 4 * n ≤ d.length →
      ∃ b, multiTypeLoop n { Data := d, Pos := pos } want
          = .ok ({ Data := d, Pos := pos + 4 * n }, b) ∧
        (b = true ↔ want = true ∨
          ∃ i, i < n ∧ IsTunerOrWildcard (beUint32 (((d.drop pos).drop (4 * i)).take 4)))) ∧
    (pos ≤ d.length → d.length < pos + 4 * n →
      ∃ e, multiTypeLoop n { Data := d, Pos := pos } want = .error e) := by
  induction n generalizing pos want with
  | zero =>
    refine ⟨fun _ => ⟨want, rfl, ?_⟩, fun h h' => by omega⟩
    simp
  | succ n ih =>
    constructor
    · intro h
      have hr := ReadU32_pos d pos (by omega)
      obtain ⟨b, hb, hiff⟩ := (ih (pos + 4)
        (if beUint32 ((d.drop pos).take 4) = TypeTuner ∨
            beUint32 ((d.drop pos).take 4) = TypeWildcard then true else want)).1 (by omega)
      refine ⟨b, ?_, ?_⟩
      · unfold multiTypeLoop
        rw [hr]
        simp only
        rw [hb]
        congr 3
        omega
      · rw [hiff]
        constructor
        · rintro (h1 | ⟨i, hi, hc⟩)
          · by_cases hc : beUint32 ((d.drop pos).take 4) = TypeTuner ∨
                beUint32 ((d.drop pos).take 4) = TypeWildcard
            · right
              exact ⟨0, by omega, by simpa [IsTunerOrWildcard, TypeTuner, TypeWildcard] using hc⟩
            · left
              simpa [hc] using h1
          · right
            refine ⟨i + 1, by omega, ?_⟩
            rw [List.drop_drop] at hc ⊢
            have e : pos + 4 * (i + 1) = pos + 4 + 4 * i := by omega
            rw [e]
            exact hc
        · rintro (h1 | ⟨i, hi, hc⟩)
          · left
            simp [h1]
          · rcases i with _ | i
            · left
              have hc' : beUint32 ((d.drop pos).take 4) = TypeTuner ∨
                  beUint32 ((d.drop pos).take 4) = TypeWildcard := by
                simpa [IsTunerOrWildcard, TypeTuner, TypeWildcard] using hc
              simp [hc']
            · right
              refine ⟨i, by omega, ?_⟩
              rw [List.drop_drop] at hc ⊢
              have e : pos + 4 * (i + 1) = pos + 4 + 4 * i := by omega
              rw [e] at hc
              exact hc
    · intro _ h
      by_cases h4 : pos + 4 ≤ d.length
      · have hr := ReadU32_pos d pos h4
        obtain ⟨e, he⟩ := (ih (pos + 4)
          (if beUint32 ((d.drop pos).take 4) = TypeTuner ∨
              beUint32 ((d.drop pos).take 4) = TypeWildcard then true else want)).2 h4
            (by omega)
        refine ⟨e, ?_⟩
        unfold multiTypeLoop
        rw [hr]
        simp only
        rw [he]
      · have hr := ReadU32_pos_end d pos (by omega)
        refine ⟨.endOfPacket, ?_⟩
        unfold multiTypeLoop
        simp only
        rw [hr]

/-- The request parser of `discoveryRequest` finds a request relevant exactly
when the specification does. -/
theorem parseRequest_spec (p : List Nat) (hp : IsBytes p) :
    parseRequest (NewReader p) = .ok true ↔ SpecRelevant p := by
  rcases p with _ | ⟨tag, rest⟩
  · simp [parseRequest, NewReader, Reader.ReadU8, SpecRelevant]
  · have hrest : IsBytes rest := fun z hz => hp z (List.mem_cons_of_mem _ hz)
    have ht : Reader.ReadU8 { Data := tag :: rest, Pos := 0 }
        = { val := tag, err := none, rd := { Data := tag :: rest, Pos := 1 } } :=
      ReadU8_at [] tag rest
    have hv := ReadVarLen_spec [tag] rest hrest
    simp only [List.singleton_append, List.length_singleton, List.cons_append,
      List.length_cons, List.nil_append, List.length_nil, zero_add] at hv
    unfold parseRequest
    simp only [NewReader, ht]
    rcases hv with ⟨hs, herr⟩ | ⟨l, value, lb, hs, hsplit, hpos, hrd⟩
    · -- no complete varlen length
      have hno : ¬ SpecRelevant (tag :: rest) := by simp [SpecRelevant, hs]
      generalize Reader.ReadVarLen { Data := tag :: rest, Pos := 1 } = x at herr
      rcases x with ⟨v, err, rd⟩
      simp only at herr
      subst herr
      simp only [hno, iff_false]
      split_ifs <;> simp
    · have hsr : SpecRelevant (tag :: rest) ↔
          (tag = 0x01 ∧ l = 4 ∧ 4 ≤ value.length ∧
              IsTunerOrWildcard (beUint32 (value.take 4))) ∨
          (tag = 0x2D ∧ l % 4 = 0 ∧ l ≤ value.length ∧
            ∃ i, i < l / 4 ∧ IsTunerOrWildcard (beUint32 ((value.drop (4 * i)).take 4))) := by
        simp only [SpecRelevant, hs]
      have hd : tag :: rest = (tag :: lb) ++ value := by rw [hsplit]; simp
      have hdrop : (tag :: rest).drop (lb.length + 1) = value := by
        rw [hd]
        have : lb.length + 1 = (tag :: lb).length := by simp
        rw [this, List.drop_left]
      rw [hsr, hrd]
      simp only
      by_cases h1 : tag = DeviceType
      · have h2d : ¬ tag = 0x2D := by rw [h1]; decide
        have h1' : tag = 0x01 := h1
        rw [if_pos h1]
        by_cases hl : l = 4
        · rw [if_neg (by simpa using hl)]
          by_cases h4 : 4 ≤ value.length
          · have hr := ReadU32_at (tag :: lb) value h4
            rw [← hd] at hr
            simp only [List.length_cons] at hr
            rw [hr]
            simp [h1', hl, h4, IsTunerOrWildcard, TypeTuner, TypeWildcard]
          · have hr := ReadU32_end (tag :: lb) value (by omega)
            rw [← hd] at hr
            simp only [List.length_cons] at hr
            rw [hr]
            simp [h4, h2d]
        · rw [if_pos (by simpa using hl)]
          simp [hl, h2d]
      · rw [if_neg h1]
        have h1' : ¬ tag = 0x01 := h1
        by_cases h2 : tag = MultiType
        · have h2' : tag = 0x2D := h2
          rw [if_pos h2]
          by_cases hl : l % 4 = 0
          · rw [if_neg (by simpa using hl)]
            have hn : (l + 3) / 4 = l / 4 := by omega
            have hspec := multiTypeLoop_spec (tag :: rest) (l / 4) (lb.length + 1) false
            rw [hdrop] at hspec
            have hlen : (tag :: rest).length = lb.length + 1 + value.length := by
              rw [hd]; simp; omega
            rw [hn]
            by_cases hle : l ≤ value.length
            · obtain ⟨b, hb, hiff⟩ := hspec.1 (by omega)
              rw [hb]
              simp only [Except.ok.injEq]
              rw [hiff]
              simp [h1', h2', hl, hle]
            · obtain ⟨e, he⟩ := hspec.2 (by omega) (by omega)
              rw [he]
              simp [hle, h1']
          · rw [if_pos (by simpa using hl)]
            simp [hl, h1']
        · rw [if_neg h2]
          have h2' : ¬ tag = 0x2D := h2
          simp [h1', h2']

/-- The request parser of `discoveryRequest` returns an error exactly when
the specification calls the first attribute unparsable. -/
theorem parseRequest_error_spec (p : List Nat) (hp : IsBytes p) :
    (∃ e, parseRequest (NewReader p) = .error e) ↔ SpecUnparsable p := by
  rcases p with _ | ⟨tag, rest⟩
  · simp [parseRequest, NewReader, Reader.ReadU8, SpecUnparsable]
  · have hrest : IsBytes rest := fun z hz => hp z (List.mem_cons_of_mem _ hz)
    have ht : Reader.ReadU8 { Data := tag :: rest, Pos := 0 }
        = { val := tag, err := none, rd := { Data := tag :: rest, Pos := 1 } } :=
      ReadU8_at [] tag rest
    have hv := ReadVarLen_spec [tag] rest hrest
    simp only [List.singleton_append, List.length_singleton, List.cons_append,
      List.length_cons, List.nil_append, List.length_nil, zero_add] at hv
    unfold parseRequest
    simp only [NewReader, ht]
    rcases hv with ⟨hs, herr⟩ | ⟨l, value, lb, hs, hsplit, hpos, hrd⟩
    · have hyes : SpecUnparsable (tag :: rest) := by simp [SpecUnparsable, hs]
      generalize Reader.ReadVarLen { Data := tag :: rest, Pos := 1 } = x at herr
      rcases x with ⟨v, err, rd⟩
      simp only at herr
      subst herr
      simp only [hyes, iff_true]
      split_ifs <;> exact ⟨_, rfl⟩
    · have hsu : SpecUnparsable (tag :: rest) ↔
          (tag ≠ 0x01 ∧ tag ≠ 0x2D) ∨
          ((tag = 0x01 ∧ (l ≠ 4 ∨ value.length < 4)) ∨
            (tag = 0x2D ∧ (l % 4 ≠ 0 ∨ value.length < l))) := by
        simp only [SpecUnparsable, hs]
      have hd : tag :: rest = (tag :: lb) ++ value := by rw [hsplit]; simp
      have hdrop : (tag :: rest).drop (lb.length + 1) = value := by
        rw [hd]
        have : lb.length + 1 = (tag :: lb).length := by simp
        rw [this, List.drop_left]
      rw [hsu, hrd]
      simp only
      by_cases h1 : tag = DeviceType
      · have h2d : ¬ tag = 0x2D := by rw [h1]; decide
        have h1' : tag = 0x01 := h1
        rw [if_pos h1]
        by_cases hl : l = 4
        · rw [if_neg (by simpa using hl)]
          by_cases h4 : 4 ≤ value.length
          · have hr := ReadU32_at (tag :: lb) value h4
            rw [← hd] at hr
            simp only [List.length_cons] at hr
            rw [hr]
            simp [h1', hl]
            omega
          · have hr := ReadU32_end (tag :: lb) value (by omega)
            rw [← hd] at hr
            simp only [List.length_cons] at hr
            rw [hr]
            simp [h1', hl]
            omega
        · rw [if_pos (by simpa using hl)]
          simp [hl, h1']
      · rw [if_neg h1]
        have h1' : ¬ tag = 0x01 := h1
        by_cases h2 : tag = MultiType
        · have h2' : tag = 0x2D := h2
          rw [if_pos h2]
          by_cases hl : l % 4 = 0
          · rw [if_neg (by simpa using hl)]
            have hn : (l + 3) / 4 = l / 4 := by omega
            have hspec := multiTypeLoop_spec (tag :: rest) (l / 4) (lb.length + 1) false
            have hlen : (tag :: rest).length = lb.length + 1 + value.length := by
              rw [hd]; simp; omega
            rw [hn]
            by_cases hle : l ≤ value.length
            · obtain ⟨b, hb, _⟩ := hspec.1 (by omega)
              rw [hb]
              simp [h2', hl]
              omega
            · obtain ⟨e, he⟩ := hspec.2 (by omega) (by omega)
              rw [he]
              simp [h2', hl]
              omega
          · rw [if_pos (by simpa using hl)]
            simp [hl, h2']
        · rw [if_neg h2]
          have h2' : ¬ tag = 0x2D := h2
          simp [h1', h2']

/-! ## `UnFrame` on a datagram -/

/-- On at most 65535 bytes no 16-bit sum of `UnFrame` wraps past a passed
length check and every slice is in bounds. -/
theorem UnFrame_datagram (d : List Nat) (h8 : 8 ≤ d.length) (h : d.length ≤ 65535) :
    UnFrame d =
      if d.length ≠ (beUint16 ((d.take 4).drop 2) + 4) % 65536 + 4 then .error .invalidLength
      else if ChecksumIEEE (d.take ((beUint16 ((d.take 4).drop 2) + 4) % 65536)) ≠
          leUint32 ((d.take ((beUint16 ((d.take 4).drop 2) + 4) % 65536 + 4)).drop
            ((beUint16 ((d.take 4).drop 2) + 4) % 65536)) then .error .crcMismatch
      else .ok (beUint16 (d.take 2), (d.take ((beUint16 ((d.take 4).drop 2) + 4) % 65536)).drop 4)
    := by
  unfold UnFrame
  rw [if_neg (by omega), slice_ok d 0 2 (by omega) (by omega),
    slice_ok d 2 4 (by omega) (by omega)]
  simp only [bind, Except.bind, List.drop_zero]
  by_cases hlen : d.length ≠ (beUint16 ((d.take 4).drop 2) + 4) % 65536 + 4
  · rw [if_pos hlen, if_pos hlen]
  · rw [if_neg hlen, if_neg hlen]
    have hlen' := not_not.1 hlen
    have hw : ((beUint16 ((d.take 4).drop 2) + 4) % 65536 + 4) % 65536
        = (beUint16 ((d.take 4).drop 2) + 4) % 65536 + 4 := by omega
    rw [hw, slice_ok d _ _ (by omega) (by omega), slice_ok d 0 _ (by omega) (by omega)]
    simp only [List.drop_zero]
    split
    · rfl
    · rw [slice_ok d 4 _ (by omega) (by omega)]

theorem UnFrame_no_panic (d : List Nat) (h : d.length ≤ 65535) (e : Fault)
    (he : UnFrame d = .error e) : e.isPanic = false := by
  by_cases h8 : 8 ≤ d.length
  · rw [UnFrame_datagram d h8 h] at he
    split at he
    · cases he; rfl
    · split at he
      · cases he; rfl
      · cases he
  · unfold UnFrame at he
    rw [if_pos (by omega)] at he
    cases he; rfl

/-! ## `Discover` never panics and keeps `Auth` within the datagram -/

theorem discoverAttr_no_panic (tag l : Nat) (r : Reader) (res : Remote) (e : Fault)
    (he : discoverAttr tag l r res = .error e) : e = .failedReadTagData := by
  unfold discoverAttr at he
  split_ifs at he
  · generalize r.ReadU32 = x at he
    rcases x with ⟨v, _ | er, rd⟩ <;> simp at he
    exact he.symm
  · generalize r.ReadU32 = x at he
    rcases x with ⟨v, _ | er, rd⟩ <;> simp at he
    exact he.symm
  · generalize r.ReadU8 = x at he
    rcases x with ⟨v, _ | er, rd⟩ <;> simp at he
    exact he.symm
  · generalize r.ReadStr l = x at he
    rcases x with ⟨v, _ | er, rd⟩ <;> simp at he
    exact he.symm
  · generalize r.ReadStr l = x at he
    rcases x with ⟨v, _ | er, rd⟩ <;> simp at he
    exact he.symm
  · generalize r.ReadStr l = x at he
    rcases x with ⟨v, _ | er, rd⟩ <;> simp at he
    exact he.symm

theorem discoverStep_no_panic (r : Reader) (res : Remote) (e : Fault)
    (he : discoverStep r res = .error e) : e.isPanic = false := by
  unfold discoverStep at he
  generalize r.ReadU8 = t at he
  rcases t with ⟨tv, _ | ter, trd⟩
  · simp only at he
    generalize trd.ReadVarLen = l at he
    rcases l with ⟨lv, _ | ler, lrd⟩
    · simp only at he
      cases h' : discoverAttr tv lv lrd res with
      | error e' =>
        rw [h'] at he
        cases he
        rw [discoverAttr_no_panic _ _ _ _ _ h']; rfl
      | ok x =>
        rw [h'] at he
        cases he
    · simp only at he
      cases he; rfl
  · simp only at he
    cases he; rfl

theorem discoverLoop_no_panic (fuel : Nat) (r : Reader) (res : Remote) (e : Fault)
    (he : discoverLoop fuel r res = .error e) : e.isPanic = false := by
  induction fuel generalizing r res with
  | zero => unfold discoverLoop at he; cases he; rfl
  | succ n ih =>
    unfold discoverLoop at he
    split at he
    · split at he
      · rename_i e' h'
        cases he
        exact discoverStep_no_panic _ _ _ h'
      · exact ih _ _ he
    · cases he

theorem discoverDecode_no_panic (d : List Nat) (h : d.length ≤ 65535) (e : Fault)
    (he : discoverDecode d = .error e) : e.isPanic = false := by
  unfold discoverDecode at he
  split at he
  · rename_i e' h'
    have := UnFrame_no_panic d h e' h'
    rw [this] at he
    cases he; rfl
  · split at he
    · cases he; rfl
    · exact discoverLoop_no_panic _ _ _ _ he

theorem Discover_no_panic (net : List Nat → Except Fault (List Nat)) (e : Fault)
    (he : Discover net = .error e) : e.isPanic = false := by
  unfold Discover at he
  rw [Frame_eq] at he
  simp only [bind, Except.bind] at he
  split at he
  · cases he; rfl
  · exact discoverDecode_no_panic _ (by rw [List.length_take]; omega) _ he

theorem ReadU32_data (r : Reader) : r.ReadU32.rd.Data = r.Data := by
  unfold Reader.ReadU32; split <;> rfl

theorem ReadU8_data (r : Reader) : r.ReadU8.rd.Data = r.Data := by
  unfold Reader.ReadU8; split <;> rfl

theorem ReadStr_data (r : Reader) (l : Nat) : (r.ReadStr l).rd.Data = r.Data := by
  unfold Reader.ReadStr; split <;> rfl

theorem ReadVarLen_data (r : Reader) : r.ReadVarLen.rd.Data = r.Data := by
  unfold Reader.ReadVarLen
  split
  · rfl
  · simp only
    split
    · split <;> rfl
    · rfl

theorem ReadStr_val_length (r : Reader) (l : Nat) :
    (r.ReadStr l).val.length ≤ r.Data.length := by
  unfold Reader.ReadStr
  split
  · simp
  · simp only [List.length_drop, List.length_take]
    omega

theorem discoverAttr_auth (tag l : Nat) (r r' : Reader) (res res' : Remote)
    (h : discoverAttr tag l r res = .ok (r', res')) (ha : res.Auth.length ≤ r.Data.length) :
    r'.Data = r.Data ∧ res'.Auth.length ≤ r.Data.length := by
  unfold discoverAttr at h
  split_ifs at h
  · have hd := ReadU32_data r
    generalize r.ReadU32 = x at h hd
    rcases x with ⟨v, _ | er, rd⟩ <;> simp at h
    obtain ⟨h1, h2⟩ := h
    subst h1 h2
    exact ⟨hd, ha⟩
  · have hd := ReadU32_data r
    generalize r.ReadU32 = x at h hd
    rcases x with ⟨v, _ | er, rd⟩ <;> simp at h
    obtain ⟨h1, h2⟩ := h
    subst h1 h2
    exact ⟨hd, ha⟩
  · have hd := ReadU8_data r
    generalize r.ReadU8 = x at h hd
    rcases x with ⟨v, _ | er, rd⟩ <;> simp at h
    obtain ⟨h1, h2⟩ := h
    subst h1 h2
    exact ⟨hd, ha⟩
  · have hd := ReadStr_data r l
    generalize r.ReadStr l = x at h hd
    rcases x with ⟨v, _ | er, rd⟩ <;> simp at h
    obtain ⟨h1, h2⟩ := h
    subst h1 h2
    exact ⟨hd, ha⟩
  · have hd := ReadStr_data r l
    generalize r.ReadStr l = x at h hd
    rcases x with ⟨v, _ | er, rd⟩ <;> simp at h
    obtain ⟨h1, h2⟩ := h
    subst h1 h2
    exact ⟨hd, ha⟩
  · have hd := ReadStr_data r l
    have hv := ReadStr_val_length r l
    generalize r.ReadStr l = x at h hd hv
    rcases x with ⟨v, _ | er, rd⟩ <;> simp at h
    obtain ⟨h1, h2⟩ := h
    subst h1 h2
    exact ⟨hd, hv⟩
  · simp at h
    obtain ⟨h1, h2⟩ := h
    subst h1 h2
    exact ⟨rfl, ha⟩

theorem discoverStep_auth (r r' : Reader) (res res' : Remote)
    (h : discoverStep r res = .ok (r', res')) (ha : res.Auth.length ≤ r.Data.length) :
    r'.Data = r.Data ∧ res'.Auth.length ≤ r.Data.length := by
  unfold discoverStep at h
  have hd1 := ReadU8_data r
  generalize r.ReadU8 = t at h hd1
  rcases t with ⟨tv, _ | ter, trd⟩
  · simp only at h hd1
    have hd2 := ReadVarLen_data trd
    generalize trd.ReadVarLen = l at h hd2
    rcases l with ⟨lv, _ | ler, lrd⟩
    · simp only at h hd2
      cases h' : discoverAttr tv lv lrd res with
      | error e' => rw [h'] at h; cases h
      | ok x =>
        rcases x with ⟨r2, res2⟩
        rw [h'] at h
        simp only [Except.ok.injEq, Prod.mk.injEq] at h
        obtain ⟨h1, h2⟩ := h
        have := discoverAttr_auth tv lv lrd r2 res res2 h' (by rw [hd2, hd1]; exact ha)
        subst h1 h2
        simp only
        rw [hd2, hd1] at this
        exact this
    · simp only at h
      cases h
  · simp only at h
    cases h

theorem discoverLoop_auth (fuel : Nat) (r : Reader) (res u : Remote)
    (h : discoverLoop fuel r res = .ok u) (ha : res.Auth.length ≤ r.Data.length) :
    u.Auth.length ≤ r.Data.length := by
  induction fuel generalizing r res with
  | zero => unfold discoverLoop at h; cases h
  | succ n ih =>
    unfold discoverLoop at h
    split at h
    · cases h' : discoverStep r res with
      | error e => rw [h'] at h; cases h
      | ok x =>
        rcases x with ⟨r2, res2⟩
        rw [h'] at h
        simp only at h
        obtain ⟨hd, ha2⟩ := discoverStep_auth r r2 res res2 h' ha
        have := ih r2 res2 h (by rw [hd]; exact ha2)
        rw [hd] at this
        exact this
    · cases h
      exact ha

theorem UnFrame_payload_length (d : List Nat) (ty : Nat) (payload : List Nat)
    (hl : d.length ≤ 65535) (h : UnFrame d = .ok (ty, payload)) :
    payload.length ≤ d.length := by
  by_cases h8 : 8 ≤ d.length
  · rw [UnFrame_datagram d h8 hl] at h
    split_ifs at h
    simp only [Except.ok.injEq, Prod.mk.injEq] at h
    rw [← h.2]
    simp only [List.length_drop, List.length_take]
    omega
  · unfold UnFrame at h
    rw [if_pos (by omega)] at h
    cases h

theorem discoverDecode_auth (d : List Nat) (u : Remote) (hl : d.length ≤ 65535)
    (h : discoverDecode d = .ok u) : u.Auth.length ≤ d.length := by
  unfold discoverDecode at h
  cases hU : UnFrame d with
  | error e =>
    rw [hU] at h
    simp only at h
    split_ifs at h
  | ok x =>
    obtain ⟨ty, payload⟩ := x
    rw [hU] at h
    simp only at h
    split_ifs at h
    have h1 := discoverLoop_auth _ _ _ _ h (by simp [NewReader])
    have h2 := UnFrame_payload_length d ty payload hl hU
    simp only [NewReader] at h1
    omega

/-- The auth of a record `Discover` returns lies within the 4096-byte receive
buffer. -/
theorem Discover_auth (net : List Nat → Except Fault (List Nat)) (u : Remote)
    (h : Discover net = .ok u) : u.Auth.length ≤ 4096 := by
  unfold Discover at h
  rw [Frame_eq] at h
  simp only [bind, Except.bind] at h
  split at h
  · cases h
  · rename_i reply _
    have hlen : (reply.take 4096).length ≤ 4096 := by rw [List.length_take]; omega
    have := discoverDecode_auth _ u (by omega) h
    omega

/-! ## The iteration budget of the decoding loop is never used up -/

theorem ReadU8_pos (r : Reader) (h : r.ReadU8.err = none) : r.ReadU8.rd.Pos = r.Pos + 1 := by
  unfold Reader.ReadU8 at h ⊢
  split
  · rename_i hc; rw [if_pos hc] at h; cases h
  · rfl

theorem ReadVarLen_pos (r : Reader) (h : r.ReadVarLen.err = none) :
    r.Pos + 1 ≤ r.ReadVarLen.rd.Pos := by
  unfold Reader.ReadVarLen at h ⊢
  by_cases hc : r.Pos + 1 > r.Data.length
  · rw [if_pos hc] at h
    simp at h
  · rw [if_neg hc] at h ⊢
    simp only at h ⊢
    by_cases hc2 : r.Data.getD r.Pos 0 &&& 0x80 ≠ 0
    · rw [if_pos hc2] at h ⊢
      by_cases hc3 : r.Pos + 1 + 1 > r.Data.length
      · rw [if_pos hc3] at h
        simp at h
      · rw [if_neg hc3]
        simp only
        omega
    · rw [if_neg hc2]

theorem discoverAttr_data (tag l : Nat) (r r' : Reader) (res res' : Remote)
    (h : discoverAttr tag l r res = .ok (r', res')) : r'.Data = r.Data := by
  unfold discoverAttr at h
  split_ifs at h
  · have hd := ReadU32_data r
    generalize r.ReadU32 = x at h hd
    rcases x with ⟨v, _ | er, rd⟩ <;> simp at h
    rw [← h.1]; exact hd
  · have hd := ReadU32_data r
    generalize r.ReadU32 = x at h hd
    rcases x with ⟨v, _ | er, rd⟩ <;> simp at h
    rw [← h.1]; exact hd
  · have hd := ReadU8_data r
    generalize r.ReadU8 = x at h hd
    rcases x with ⟨v, _ | er, rd⟩ <;> simp at h
    rw [← h.1]; exact hd
  · have hd := ReadStr_data r l
    generalize r.ReadStr l = x at h hd
    rcases x with ⟨v, _ | er, rd⟩ <;> simp at h
    rw [← h.1]; exact hd
  · have hd := ReadStr_data r l
    generalize r.ReadStr l = x at h hd
    rcases x with ⟨v, _ | er, rd⟩ <;> simp at h
    rw [← h.1]; exact hd
  · have hd := ReadStr_data r l
    generalize r.ReadStr l = x at h hd
    rcases x with ⟨v, _ | er, rd⟩ <;> simp at h
    rw [← h.1]; exact hd
  · simp at h
    rw [← h.1]

/-- An iteration of the loop that does not fail leaves the position at least
two bytes further: the tag and at least one length byte. -/
theorem discoverStep_pos (r r' : Reader) (res res' : Remote)
    (h : discoverStep r res = .ok (r', res')) : r'.Data = r.Data ∧ r.Pos + 2 ≤ r'.Pos := by
  unfold discoverStep at h
  have hd1 := ReadU8_data r
  have hp1 := ReadU8_pos r
  generalize r.ReadU8 = t at h hd1 hp1
  rcases t with ⟨tv, _ | ter, trd⟩
  · simp only at h hd1 hp1
    have hp1' := hp1 trivial
    have hd2 := ReadVarLen_data trd
    have hp2 := ReadVarLen_pos trd
    generalize trd.ReadVarLen = l at h hd2 hp2
    rcases l with ⟨lv, _ | ler, lrd⟩
    · simp only at h hd2 hp2
      have hp2' := hp2 trivial
      cases h' : discoverAttr tv lv lrd res with
      | error e' => rw [h'] at h; cases h
      | ok x =>
        rcases x with ⟨r2, res2⟩
        rw [h'] at h
        simp only [Except.ok.injEq, Prod.mk.injEq] at h
        obtain ⟨h1, h2⟩ := h
        have hd3 := discoverAttr_data tv lv lrd r2 res res2 h'
        subst h1
        simp only
        constructor
        · rw [hd3, hd2, hd1]
        · omega
    · simp only at h
      cases h
  · simp only at h
    cases h

theorem discoverStep_error_kind (r : Reader) (res : Remote) (e : Fault)
    (he : discoverStep r res = .error e) :
    e = .failedReadTag ∨ e = .failedReadLen ∨ e = .failedReadTagData := by
  unfold discoverStep at he
  generalize r.ReadU8 = t at he
  rcases t with ⟨tv, _ | ter, trd⟩
  · simp only at he
    generalize trd.ReadVarLen = l at he
    rcases l with ⟨lv, _ | ler, lrd⟩
    · simp only at he
      cases h' : discoverAttr tv lv lrd res with
      | error e' =>
        rw [h'] at he
        cases he
        exact Or.inr (Or.inr (discoverAttr_no_panic _ _ _ _ _ h'))
      | ok x =>
        rw [h'] at he
        cases he
    · simp only at he
      cases he; exact Or.inr (Or.inl rfl)
  · simp only at he
    cases he; exact Or.inl rfl

/-- With a budget of more than half the remaining bytes the loop never runs
out of iterations. -/
theorem discoverLoop_fuel (fuel : Nat) (r : Reader) (res : Remote) (h1 : 1 ≤ fuel)
    (h : r.Data.length + 2 ≤ r.Pos + 2 * fuel) :
    discoverLoop fuel r res ≠ .error .outOfFuel := by
  induction fuel generalizing r res with
  | zero => omega
  | succ n ih =>
    rw [discoverLoop]
    split
    · rename_i hm
      have hm' : r.Pos < r.Data.length := by simpa [Reader.HasMore] using hm
      cases h' : discoverStep r res with
      | error e =>
        simp only
        intro h0
        cases h0
        rcases discoverStep_error_kind r res _ h' with h2 | h2 | h2 <;> cases h2
      | ok x =>
        rcases x with ⟨r2, res2⟩
        simp only
        obtain ⟨hd, hp⟩ := discoverStep_pos r r2 res res2 h'
        exact ih r2 res2 (by omega) (by rw [hd]; omega)
    · intro h0; cases h0

/-- The loop as `Discover` starts it never runs out of iterations. -/
theorem discoverLoop_total (data : List Nat) (res : Remote) :
    discoverLoop (data.length + 1) (NewReader data) res ≠ .error .outOfFuel :=
  discoverLoop_fuel _ _ _ (by omega) (by simp [NewReader]; omega)

theorem discoverLoopIters_le (fuel : Nat) (r : Reader) (res : Remote) :
    discoverLoopIters fuel r res ≤ (r.Data.length - r.Pos + 1) / 2 := by
  induction fuel generalizing r res with
  | zero => rw [discoverLoopIters]; omega
  | succ n ih =>
    rw [discoverLoopIters]
    split
    · rename_i hm
      have hm' : r.Pos < r.Data.length := by simpa [Reader.HasMore] using hm
      cases h' : discoverStep r res with
      | error e => simp only; omega
      | ok x =>
        rcases x with ⟨r2, res2⟩
        simp only
        obtain ⟨hd, hp⟩ := discoverStep_pos r r2 res res2 h'
        have := ih r2 res2
        rw [hd] at this
        omega
    · omega

/-- Beyond a budget of more than half the remaining bytes, the result and the
number of iterations of the loop do not depend on the budget. -/
theorem discoverLoop_stable (fuel : Nat) (r : Reader) (res : Remote) (fuel' : Nat)
    (h1 : 1 ≤ fuel) (h : r.Data.length + 2 ≤ r.Pos + 2 * fuel) (hf : fuel ≤ fuel') :
    discoverLoop fuel' r res = discoverLoop fuel r res ∧
    discoverLoopIters fuel' r res = discoverLoopIters fuel r res := by
  induction fuel generalizing r res fuel' with
  | zero => omega
  | succ n ih =>
    obtain ⟨m, rfl⟩ : ∃ m, fuel' = m + 1 := ⟨fuel' - 1, by omega⟩
    rw [discoverLoop, discoverLoop, discoverLoopIters, discoverLoopIters]
    by_cases hm : r.HasMore = true
    · have hm' : r.Pos < r.Data.length := by simpa [Reader.HasMore] using hm
      rw [if_pos hm, if_pos hm, if_pos hm, if_pos hm]
      cases h' : discoverStep r res with
      | error e => exact ⟨rfl, rfl⟩
      | ok x =>
        rcases x with ⟨r2, res2⟩
        simp only
        obtain ⟨hd, hp⟩ := discoverStep_pos r r2 res res2 h'
        have := ih r2 res2 m (by omega) (by rw [hd]; omega) (by omega)
        rw [this.1, this.2]
        exact ⟨rfl, rfl⟩
    · rw [if_neg hm, if_neg hm, if_neg hm, if_neg hm]
      exact ⟨rfl, rfl⟩

/-- `discoveryRequest` always has a record to answer with. -/
theorem upstreamOrFallback_ok (net : List Nat → Except Fault (List Nat)) :
    (∃ u, Discover net = .ok u ∧ upstreamOrFallback net = .ok u) ∨
    ((∃ e, Discover net = .error e) ∧ upstreamOrFallback net = .ok fallbackRemote) := by
  unfold upstreamOrFallback
  cases h : Discover net with
  | ok u => left; exact ⟨u, rfl, rfl⟩
  | error e =>
    right
    refine ⟨⟨e, rfl⟩, ?_⟩
    simp [Discover_no_panic net e h]

/-! ## Attributes of the specification: encode, then split -/

theorem specVarLen_low (v : Nat) (h : ¬ v ≤ 127) :
    specVarLen v = [v % 128 + 128, v / 128] := by
  unfold specVarLen
  rw [if_neg h]
  have hlo : (v &&& 0x7F) ||| 0x80 = v % 128 + 128 := by
    have := or_0x80_mod (v % 128)
    rw [and_0x7f]
    have h2 : v % 128 ||| 0x80 < 256 :=
      Nat.or_lt_two_pow (n := 8) (by omega) (by norm_num)
    rw [Nat.mod_eq_of_lt h2] at this
    omega
  rw [hlo, shr7]

theorem specReadVarLen_specVarLen (v : Nat) (rest : List Nat) :
    specReadVarLen (specVarLen v ++ rest) = some (v, rest) := by
  by_cases h : v ≤ 127
  · simp only [specVarLen, h, if_true, List.singleton_append, specReadVarLen]
    rw [if_pos (by omega)]
  · rw [specVarLen_low v h]
    simp only [List.cons_append, List.nil_append, specReadVarLen]
    rw [if_neg (by omega)]
    congr 2
    omega

theorem specAttrsAux_specPayload (attrs : List (Nat × List Nat)) (fuel : Nat)
    (hf : (specPayload attrs).length ≤ fuel) :
    specAttrsAux fuel (specPayload attrs) = some attrs := by
  induction attrs generalizing fuel with
  | nil => cases fuel <;> rfl
  | cons a rest ih =>
    have hlen : (specPayload (a :: rest)).length
        = 1 + (specVarLen a.2.length).length + a.2.length + (specPayload rest).length := by
      simp [specPayload, specAttr]; omega
    rcases fuel with _ | f
    · omega
    · have e : specPayload (a :: rest)
          = a.1 :: (specVarLen a.2.length ++ (a.2 ++ specPayload rest)) := by
        simp [specPayload, specAttr]
      rw [e]
      unfold specAttrsAux
      rw [specReadVarLen_specVarLen]
      simp only
      rw [if_pos (by simp), List.drop_left, List.take_left, ih f (by omega)]
      rfl

/-- Splitting a concatenation of attributes gives the attributes back. -/
theorem specAttrs_specPayload (attrs : List (Nat × List Nat)) :
    specAttrs (specPayload attrs) = some attrs :=
  specAttrsAux_specPayload attrs _ (le_refl _)

theorem str_http : str "http://" = [104, 116, 116, 112, 58, 47, 47] := by decide

theorem str_colon : str ":" = [58] := by decide

theorem Itoa_WebPort : Itoa WebPort = [56, 48] := by decide

theorem str_lineup : str "/lineup.json"
    = [47, 108, 105, 110, 101, 117, 112, 46, 106, 115, 111, 110] := by decide

theorem str_port : str ":80" = [58, 56, 48] := by decide

theorem str_port_lineup : str ":80/lineup.json"
    = [58, 56, 48, 47, 108, 105, 110, 101, 117, 112, 46, 106, 115, 111, 110] := by decide

theorem newBase_eq (self : List Nat) : newBase self = str "http://" ++ self ++ str ":80" := by
  unfold newBase
  rw [str_colon, Itoa_WebPort, str_port]
  simp

theorem newBase_lineup_eq (self : List Nat) :
    newBase self ++ str "/lineup.json" = str "http://" ++ self ++ str ":80/lineup.json" := by
  rw [newBase_eq, str_port, str_lineup, str_port_lineup]
  simp

theorem newBase_length (self : List Nat) : (newBase self).length = self.length + 10 := by
  rw [newBase_eq, str_http, str_port]
  simp

theorem lineup_length (self : List Nat) :
    (newBase self ++ str "/lineup.json").length = self.length + 22 := by
  rw [List.length_append, newBase_length, str_lineup]
  simp

/-- With a host of 32768 bytes the base-url length (32778) does not fit the
varlen: the writer emits the bytes `0x8A 0x00`. -/
theorem responsePayload_long_host (self : List Nat) (hlen : self.length = 32768) :
    ∃ post, responsePayload self fallbackRemote
      = [0x01, 4, 0, 0, 0, 1, 0x02, 4, 0, 0, 4, 210, 0x2A] ++ 138 :: 0 :: post := by
  refine ⟨newBase self ++ [0x10, 1, 1] ++ (0x27 :: varLenBytes
    ((newBase self ++ str "/lineup.json").length % 65536) ++ (newBase self ++ str "/lineup.json")), ?_⟩
  rw [responsePayload_eq]
  have hb : varLenBytes ((newBase self).length % 65536) = [138, 0] := by
    rw [newBase_length, hlen]
    simp [varLenBytes]
  rw [hb]
  simp [fallbackRemote, putUint32BE, TypeTuner]

theorem IsBytes_varLenBytes (v : Nat) : IsBytes (varLenBytes v) := by
  intro x hx
  unfold varLenBytes at hx
  split at hx
  · simp at hx; omega
  · simp at hx; omega

theorem IsBytes_putUint32BE (v : Nat) : IsBytes (putUint32BE v) := by
  intro x hx
  simp [putUint32BE] at hx
  omega

theorem IsBytes_cons {b : Nat} {d : List Nat} (hb : b < 256) (hd : IsBytes d) :
    IsBytes (b :: d) := by
  intro x hx
  rcases List.mem_cons.1 hx with h | h
  · omega
  · exact hd x h

theorem IsBytes_newBase (self : List Nat) (hs : IsBytes self) : IsBytes (newBase self) := by
  rw [newBase_eq, str_http, str_port]
  exact IsBytes_append (IsBytes_append (by decide) hs) (by decide)

theorem IsBytes_lineup (self : List Nat) (hs : IsBytes self) :
    IsBytes (newBase self ++ str "/lineup.json") := by
  rw [str_lineup]
  exact IsBytes_append (IsBytes_newBase self hs) (by decide)

theorem IsBytes_responsePayload (self : List Nat) (u : Remote) (hs : IsBytes self)
    (ha : IsBytes u.Auth) (ht : u.TunerCount < 256) : IsBytes (responsePayload self u) := by
  rw [responsePayload_eq]
  have hnil : IsBytes ([] : List Nat) := by decide
  refine IsBytes_append (IsBytes_append (IsBytes_append (IsBytes_append (IsBytes_append ?_ ?_)
    ?_) ?_) ?_) ?_
  · exact IsBytes_cons (by norm_num) (IsBytes_cons (by norm_num) (IsBytes_putUint32BE _))
  · exact IsBytes_cons (by norm_num) (IsBytes_cons (by norm_num) (IsBytes_putUint32BE _))
  · split
    · exact IsBytes_cons (by norm_num) (IsBytes_append (IsBytes_varLenBytes _) ha)
    · exact hnil
  · exact IsBytes_cons (by norm_num)
      (IsBytes_append (IsBytes_varLenBytes _) (IsBytes_newBase self hs))
  · exact IsBytes_cons (by norm_num) (IsBytes_cons (by norm_num) (IsBytes_cons ht hnil))
  · exact IsBytes_cons (by norm_num)
      (IsBytes_append (IsBytes_varLenBytes _) (IsBytes_lineup self hs))

theorem varLenBytes_length_le (v : Nat) : (varLenBytes v).length ≤ 2 := by
  unfold varLenBytes
  split <;> simp

theorem responsePayload_fallback_length_le (self : List Nat) :
    (responsePayload self fallbackRemote).length ≤ 2 * self.length + 53 := by
  rw [responsePayload_eq]
  have h1 := varLenBytes_length_le ((newBase self).length % 65536)
  have h2 := varLenBytes_length_le ((newBase self ++ str "/lineup.json").length % 65536)
  have h3 := newBase_length self
  have h4 : (str "/lineup.json").length = 12 := by rw [str_lineup]; rfl
  simp only [fallbackRemote, List.length_nil, gt_iff_lt, lt_self_iff_false, if_false,
    List.length_append, List.length_cons, putUint32BE] at h1 h2 ⊢
  omega

theorem responsePayload_fallback_length_32768 (self : List Nat) (hlen : self.length = 32768) :
    (responsePayload self fallbackRemote).length = 65589 := by
  rw [responsePayload_eq]
  have h3 := newBase_length self
  have h4 : (str "/lineup.json").length = 12 := by rw [str_lineup]; rfl
  have h1 : (varLenBytes ((newBase self).length % 65536)).length = 2 := by
    rw [h3, hlen]; simp [varLenBytes]
  have h2 : (varLenBytes ((newBase self ++ str "/lineup.json").length % 65536)).length = 2 := by
    rw [List.length_append, h3, h4, hlen]; simp [varLenBytes]
  simp only [fallbackRemote, List.length_nil, gt_iff_lt, lt_self_iff_false, if_false,
    List.length_append, List.length_cons, putUint32BE] at h1 h2 ⊢
  omega

theorem attrValue_base (base : List Nat) (u : Remote) :
    attrValue 0x2A (responseAttrs base u) = some base ∧
    attrValue 0x27 (responseAttrs base u) = some (base ++ str "/lineup.json") := by
  unfold attrValue responseAttrs
  by_cases h : u.Auth = []
  · simp [h, List.find?]
  · simp [h, List.find?]

theorem Discover_io_error (x : Fault) :
    Discover (fun _ => .error x) = .error .ioFailure := by
  unfold Discover
  rw [Frame_eq]
  rfl

theorem upstreamOrFallback_of_error (net : List Nat → Except Fault (List Nat)) (e : Fault)
    (h : Discover net = .error e) : upstreamOrFallback net = .ok fallbackRemote := by
  unfold upstreamOrFallback
  rw [h]
  simp [Discover_no_panic net e h]

theorem long_host_not_attributes (self : List Nat) (hlen : self.length = 32768) :
    responsePayload self fallbackRemote ≠
      specPayload [(0x01, putUint32BE fallbackRemote.Ty), (0x02, putUint32BE fallbackRemote.ID),
        (0x2A, newBase self), (0x10, [fallbackRemote.TunerCount]),
        (0x27, newBase self ++ str "/lineup.json")] ∧
    (newBase self).length = 32778 ∧
    (Reader.ReadVarLen { Data := responsePayload self fallbackRemote, Pos := 13 }).val = 10 := by
  obtain ⟨post, hpost⟩ := responsePayload_long_host self hlen
  have hbl : (newBase self).length = 32778 := by rw [newBase_length, hlen]
  refine ⟨?_, hbl, ?_⟩
  · intro h
    have h14 : (responsePayload self fallbackRemote).getD 14 0 = 0 := by
      rw [hpost]; rfl
    rw [h] at h14
    have hv : specVarLen (newBase self).length = [138, 256] := by
      rw [hbl]; rfl
    have h4 : specVarLen 4 = [4] := by simp [specVarLen]
    simp [specPayload, specAttr, putUint32BE, hv, h4] at h14
  · rw [hpost]
    have := ReadVarLen_two [0x01, 4, 0, 0, 0, 1, 0x02, 4, 0, 0, 4, 210, 0x2A] 138 0 post
      (by norm_num) (by norm_num) (by norm_num)
    simp only [List.length_cons, List.length_nil] at this
    rw [this]

/-! ## What `discoveryRequest` does -/

theorem discoveryRequest_relevant (r : Relay) (net : List Nat → Except Fault (List Nat))
    (write : List Nat → UDPAddr → Option Fault) (inp : UDPIn) (data : Reader)
    (h : parseRequest data = .ok true) :
    ∃ u, upstreamOrFallback net = .ok u ∧
      discoveryRequest r net write inp data =
        { queried := true,
          writes := [(frameBytes DiscoveryResponse (responsePayload r.Self u), inp.Src)],
          err := write (frameBytes DiscoveryResponse (responsePayload r.Self u)) inp.Src } := by
  rcases upstreamOrFallback_ok net with ⟨u, _, hu⟩ | ⟨_, hu⟩
  · refine ⟨u, hu, ?_⟩
    unfold discoveryRequest
    simp only [h, hu, Frame_eq]
  · refine ⟨fallbackRemote, hu, ?_⟩
    unfold discoveryRequest
    simp only [h, hu, Frame_eq]

theorem discoveryRequest_irrelevant (r : Relay) (net : List Nat → Except Fault (List Nat))
    (write : List Nat → UDPAddr → Option Fault) (inp : UDPIn) (data : Reader)
    (h : parseRequest data ≠ .ok true) :
    (discoveryRequest r net write inp data).queried = false ∧
    (discoveryRequest r net write inp data).writes = [] := by
  unfold discoveryRequest
  cases hp : parseRequest data with
  | error e => simp
  | ok b =>
    cases b with
    | false => simp
    | true => exact absurd hp h

/-! ## The envelope beyond 65527 payload bytes -/

theorem UnFrame_invalidLength (a b c d : Nat) (rest : List Nat) (h4 : 4 ≤ rest.length)
    (hne : rest.length + 4 ≠ (c * 256 + d + 4) % 65536 + 4) :
    UnFrame ([a, b, c, d] ++ rest) = .error .invalidLength := by
  have hlen : ([a, b, c, d] ++ rest).length = rest.length + 4 := by simp
  have h12 : slice ([a, b, c, d] ++ rest) 0 2 = .ok [a, b] := by
    rw [slice_ok _ _ _ (by omega) (by omega)]; simp
  have h24 : slice ([a, b, c, d] ++ rest) 2 4 = .ok [c, d] := by
    rw [slice_ok _ _ _ (by omega) (by omega)]; simp
  unfold UnFrame
  rw [if_neg (by omega), h12, h24]
  simp only [beUint16, List.getD_cons_zero, List.getD_cons_succ, bind, Except.bind, hlen]
  rw [if_pos hne]

theorem UnFrame_panic (a b c d : Nat) (rest : List Nat) (h4 : 4 ≤ rest.length)
    (he : rest.length + 4 = (c * 256 + d + 4) % 65536 + 4)
    (hw : 65536 ≤ (c * 256 + d + 4) % 65536 + 4) :
    UnFrame ([a, b, c, d] ++ rest) = .error .panicSliceBounds := by
  have hlen : ([a, b, c, d] ++ rest).length = rest.length + 4 := by simp
  have h12 : slice ([a, b, c, d] ++ rest) 0 2 = .ok [a, b] := by
    rw [slice_ok _ _ _ (by omega) (by omega)]; simp
  have h24 : slice ([a, b, c, d] ++ rest) 2 4 = .ok [c, d] := by
    rw [slice_ok _ _ _ (by omega) (by omega)]; simp
  unfold UnFrame
  rw [if_neg (by omega), h12, h24]
  simp only [beUint16, List.getD_cons_zero, List.getD_cons_succ, bind, Except.bind, hlen]
  rw [if_neg (by omega), slice_panic _ _ _ (by omega)]

theorem frameBytes_split (ty : Nat) (data : List Nat) :
    frameBytes ty data =
      [ty / 256 % 256, ty % 256, data.length % 65536 / 256 % 256, data.length % 65536 % 256]
        ++ (data ++ putUint32LE (ChecksumIEEE (frameHeader ty data ++ data))) := by
  simp [frameBytes, frameHeader, putUint16BE]

theorem UnFrame_frameBytes_invalidLength (ty : Nat) (p : List Nat) (h1 : 65532 ≤ p.length)
    (h2 : p.length ≤ 65535) : UnFrame (frameBytes ty p) = .error .invalidLength := by
  rw [frameBytes_split]
  apply UnFrame_invalidLength
  · simp [putUint32LE]
  · simp only [List.length_append, putUint32LE, List.length_cons, List.length_nil]
    omega

theorem UnFrame_frameBytes_panic (ty : Nat) (p : List Nat) (h1 : 65528 ≤ p.length)
    (h2 : p.length ≤ 65531) : UnFrame (frameBytes ty p) = .error .panicSliceBounds := by
  rw [frameBytes_split]
  apply UnFrame_panic
  · simp [putUint32LE]
  · simp only [List.length_append, putUint32LE, List.length_cons, List.length_nil]
    omega
  · omega

theorem bind_ok {α β : Type} (a : α) (f : α → Except Fault β) :
    (Except.ok a : Except Fault α).bind f = f a := rfl

theorem length_zeros (n : Nat) : (List.replicate n 0).length = n := List.length_replicate n 0

theorem IsBytes_zeros (n : Nat) : IsBytes (List.replicate n 0) := by
  intro b hb
  rw [List.eq_of_mem_replicate hb]; norm_num

/-- A framed packet has the length field and the CRC trailer of its payload. -/
theorem frameBytes_well_formed (p : List Nat) (hb : IsBytes p) (L : Nat) (hl : p.length = L)
    (hL : L < 65536) :
    8 ≤ (frameBytes 3 p).length ∧
      beUint16 (((frameBytes 3 p).take 4).drop 2) = L ∧
      (frameBytes 3 p).length = L + 8 ∧
      ChecksumIEEE ((frameBytes 3 p).take (L + 4)) =
        leUint32 (((frameBytes 3 p).take (L + 8)).drop (L + 4)) := by
  have hcrc := ChecksumIEEE_lt _ (IsBytes_append (IsBytes_frameHeader 3 p) hb)
  refine ⟨?_, ?_, ?_, ?_⟩
  · rw [frameBytes_length]; omega
  · rw [frameBytes_split]
    simp only [List.take_succ_cons, List.cons_append, List.take_zero, List.drop_succ_cons,
      List.drop_zero, beUint16, List.getD_cons_zero, List.getD_cons_succ, hl, List.nil_append]
    omega
  · rw [frameBytes_length]; omega
  · have e1 : L + 4 = (frameHeader 3 p ++ p).length := by
      simp [frameHeader, putUint16BE, hl]
    have e2 : L + 8 = (frameBytes 3 p).length := by
      rw [frameBytes_length]; omega
    rw [e2, List.take_length, e1]
    unfold frameBytes
    rw [List.take_left, List.drop_left, leUint32_putUint32LE _ hcrc]

theorem fallback_long_host_rejected (self : List Nat) (hlen : self.length = 32768)
    (write : List Nat → UDPAddr → Option Fault) (inp : UDPIn) (data : Reader)
    (h : parseRequest data = .ok true) :
    (discoveryRequest { Target := [], Self := self } (fun _ => .error .ioFailure) write inp
        data).writes
      = [(frameBytes DiscoveryResponse (responsePayload self fallbackRemote), inp.Src)] ∧
    UnFrame (frameBytes DiscoveryResponse (responsePayload self fallbackRemote))
      = .error .invalidLength := by
  constructor
  · obtain ⟨u, hu, hd⟩ := discoveryRequest_relevant { Target := [], Self := self }
      (fun _ => .error .ioFailure) write inp data h
    rw [upstreamOrFallback_of_error _ _ (Discover_io_error .ioFailure)] at hu
    cases hu
    rw [hd]
  · have hl := responsePayload_fallback_length_32768 self hlen
    rw [frameBytes_split]
    apply UnFrame_invalidLength
    · simp [putUint32LE]
    · simp only [List.length_append, putUint32LE, List.length_cons, List.length_nil, hl]
      omega

/-! ## CRC32 tells apart two sequences that differ in one byte -/

theorem crcStep_parity (x : Nat) (hx : x < 4294967296) :
    (crcStep x).testBit 31 = decide (x % 2 = 1) := by
  have hlt : x / 2 < 2 ^ 31 := by norm_num; omega
  have h31 : (x / 2).testBit 31 = false := Nat.testBit_lt_two_pow hlt
  unfold crcStep
  split
  · rename_i h
    rw [Nat.testBit_xor, h31]
    simp [h]
    decide
  · rename_i h
    rw [h31]
    simp [h]

theorem crcStep_injective (x y : Nat) (hx : x < 4294967296) (hy : y < 4294967296)
    (h : crcStep x = crcStep y) : x = y := by
  have hp : decide (x % 2 = 1) = decide (y % 2 = 1) := by
    rw [← crcStep_parity x hx, ← crcStep_parity y hy, h]
  unfold crcStep at h
  by_cases hx1 : x % 2 = 1
  · have hy1 : y % 2 = 1 := by simpa [hx1] using hp
    rw [if_pos hx1, if_pos hy1] at h
    have := Nat.xor_left_inj.1 h
    omega
  · have hy1 : ¬ y % 2 = 1 := by simpa [hx1] using hp
    rw [if_neg hx1, if_neg hy1] at h
    omega

theorem crcByte_injective_state (x y b : Nat) (hx : x < 4294967296) (hy : y < 4294967296)
    (hb : b < 256) (h : crcByte x b = crcByte y b) : x = y := by
  unfold crcByte at h
  have hxb : x ^^^ b < 4294967296 := Nat.xor_lt_two_pow (n := 32) hx (by omega)
  have hyb : y ^^^ b < 4294967296 := Nat.xor_lt_two_pow (n := 32) hy (by omega)
  have h1 := crcStep_injective _ _ (by repeat (first | exact hxb | apply crcStep_lt))
    (by repeat (first | exact hyb | apply crcStep_lt)) h
  have h2 := crcStep_injective _ _ (by repeat (first | exact hxb | apply crcStep_lt))
    (by repeat (first | exact hyb | apply crcStep_lt)) h1
  have h3 := crcStep_injective _ _ (by repeat (first | exact hxb | apply crcStep_lt))
    (by repeat (first | exact hyb | apply crcStep_lt)) h2
  have h4 := crcStep_injective _ _ (by repeat (first | exact hxb | apply crcStep_lt))
    (by repeat (first | exact hyb | apply crcStep_lt)) h3
  have h5 := crcStep_injective _ _ (by repeat (first | exact hxb | apply crcStep_lt))
    (by repeat (first | exact hyb | apply crcStep_lt)) h4
  have h6 := crcStep_injective _ _ (by repeat (first | exact hxb | apply crcStep_lt))
    (by repeat (first | exact hyb | apply crcStep_lt)) h5
  have h7 := crcStep_injective _ _ (by repeat (first | exact hxb | apply crcStep_lt))
    (by repeat (first | exact hyb | apply crcStep_lt)) h6
  have h8 := crcStep_injective _ _ hxb hyb h7
  exact Nat.xor_left_inj.1 h8

theorem crcByte_injective_byte (x b c : Nat) (hx : x < 4294967296) (hb : b < 256)
    (hc : c < 256) (h : crcByte x b = crcByte x c) : b = c := by
  have hxb : x ^^^ b < 4294967296 := Nat.xor_lt_two_pow (n := 32) hx (by omega)
  have hxc : x ^^^ c < 4294967296 := Nat.xor_lt_two_pow (n := 32) hx (by omega)
  have e1 : crcByte x b = crcByte (x ^^^ b) 0 := by simp [crcByte]
  have e2 : crcByte x c = crcByte (x ^^^ c) 0 := by simp [crcByte]
  rw [e1, e2] at h
  have := crcByte_injective_state _ _ 0 hxb hxc (by norm_num) h
  exact Nat.xor_right_inj.1 this

theorem foldl_crcByte_injective (d : List Nat) (hd : IsBytes d) (x y : Nat)
    (hx : x < 4294967296) (hy : y < 4294967296)
    (h : d.foldl crcByte x = d.foldl crcByte y) : x = y := by
  induction d generalizing x y with
  | nil => simpa using h
  | cons b t ih =>
    have hb : b < 256 := hd b (List.mem_cons_self _ _)
    have ht : IsBytes t := fun z hz => hd z (List.mem_cons_of_mem _ hz)
    simp only [List.foldl_cons] at h
    exact crcByte_injective_state x y b hx hy hb
      (ih ht _ _ (crcByte_lt x b hx hb) (crcByte_lt y b hy hb) h)

/-- Two byte sequences that differ in exactly one byte have different CRC32. -/
theorem ChecksumIEEE_one_byte (pre post : List Nat) (b c : Nat) (hpre : IsBytes pre)
    (hpost : IsBytes post) (hb : b < 256) (hc : c < 256) (hne : b ≠ c) :
    ChecksumIEEE (pre ++ b :: post) ≠ ChecksumIEEE (pre ++ c :: post) := by
  intro h
  unfold ChecksumIEEE at h
  have h1 := Nat.xor_left_inj.1 h
  simp only [List.foldl_append, List.foldl_cons] at h1
  have hs := foldl_crcByte_lt pre hpre 4294967295 (by norm_num)
  have h2 := foldl_crcByte_injective post hpost _ _ (crcByte_lt _ b hs hb)
    (crcByte_lt _ c hs hc) h1
  exact hne (crcByte_injective_byte _ b c hs hb hc h2)

/-! ## One changed byte in a well-formed packet -/

theorem crc_ne_to_mismatch (a b c e : Nat) (p t : List Nat) (ht : t.length = 4)
    (hl : (c * 256 + e + 4) % 65536 = p.length + 4) (hp : p.length + 8 < 65536)
    (h : ChecksumIEEE ([a, b, c, e] ++ p) ≠ leUint32 t) :
    UnFrame ([a, b, c, e] ++ p ++ t) = .error .crcMismatch := by
  rw [UnFrame_parts a b c e p t ht hl hp, if_pos h]

/-- Replacing one byte of a well-formed packet by a different byte makes
`UnFrame` fail on the length check or on the CRC comparison. -/
theorem UnFrame_set_parts (a b c e t0 t1 t2 t3 : Nat) (p : List Nat)
    (ha : a < 256) (hb : b < 256) (hc : c < 256) (he : e < 256) (hp : IsBytes p)
    (hl : c * 256 + e = p.length) (hn : p.length ≤ 65527)
    (hcrc : ChecksumIEEE ([a, b, c, e] ++ p) = leUint32 [t0, t1, t2, t3])
    (k x : Nat) (hk : k < p.length + 8) (hx : x < 256)
    (hne : x ≠ ([a, b, c, e] ++ p ++ [t0, t1, t2, t3]).getD k 0) :
    UnFrame (([a, b, c, e] ++ p ++ [t0, t1, t2, t3]).set k x) = .error .invalidLength ∨
    UnFrame (([a, b, c, e] ++ p ++ [t0, t1, t2, t3]).set k x) = .error .crcMismatch := by
  rcases k with _ | _ | _ | _ | j
  · -- first type byte
    right
    have hxa : x ≠ a := by simpa using hne
    have e1 : ([a, b, c, e] ++ p ++ [t0, t1, t2, t3]).set 0 x
        = [x, b, c, e] ++ p ++ [t0, t1, t2, t3] := by simp
    rw [e1]
    apply crc_ne_to_mismatch _ _ _ _ _ _ (by simp) (by omega) (by omega)
    rw [← hcrc]
    have := ChecksumIEEE_one_byte [] (b :: c :: e :: p) x a (by intro z hz; simp at hz)
      (by intro z hz; simp at hz; rcases hz with h | h | h | h
          · omega
          · omega
          · omega
          · exact hp z h) hx ha hxa
    simpa using this
  · -- second type byte
    right
    have hxb : x ≠ b := by simpa using hne
    have e1 : ([a, b, c, e] ++ p ++ [t0, t1, t2, t3]).set 1 x
        = [a, x, c, e] ++ p ++ [t0, t1, t2, t3] := by simp
    rw [zero_add, e1]
    apply crc_ne_to_mismatch _ _ _ _ _ _ (by simp) (by omega) (by omega)
    rw [← hcrc]
    have := ChecksumIEEE_one_byte [a] (c :: e :: p) x b
      (by intro z hz; simp at hz; omega)
      (by intro z hz; simp at hz; rcases hz with h | h | h
          · omega
          · omega
          · exact hp z h) hx hb hxb
    simpa using this
  · -- first length byte
    left
    have hxc : x ≠ c := by simpa using hne
    have e1 : ([a, b, c, e] ++ p ++ [t0, t1, t2, t3]).set 2 x
        = [a, b, x, e] ++ (p ++ [t0, t1, t2, t3]) := by simp
    rw [zero_add, e1]
    apply UnFrame_invalidLength
    · simp
    · simp only [List.length_append, List.length_cons, List.length_nil]
      omega
  · -- second length byte
    left
    have hxe : x ≠ e := by simpa using hne
    have e1 : ([a, b, c, e] ++ p ++ [t0, t1, t2, t3]).set 3 x
        = [a, b, c, x] ++ (p ++ [t0, t1, t2, t3]) := by simp
    rw [zero_add, e1]
    apply UnFrame_invalidLength
    · simp
    · simp only [List.length_append, List.length_cons, List.length_nil]
      omega
  · right
    by_cases hj : j < p.length
    · -- a payload byte
      have hget : ([a, b, c, e] ++ p ++ [t0, t1, t2, t3]).getD (j + 1 + 1 + 1 + 1) 0 = p[j] := by
        simp [List.getD_eq_getElem?_getD, List.getElem?_append_left hj, List.getElem?_eq_getElem hj]
      rw [hget] at hne
      have e1 : ([a, b, c, e] ++ p ++ [t0, t1, t2, t3]).set (j + 1 + 1 + 1 + 1) x
          = [a, b, c, e] ++ p.set j x ++ [t0, t1, t2, t3] := by
        simp [List.set_append, hj]
      rw [e1]
      apply crc_ne_to_mismatch _ _ _ _ _ _ (by simp) (by simp; omega) (by simp; omega)
      rw [← hcrc]
      have hsplit : p = p.take j ++ p[j] :: p.drop (j + 1) := by
        rw [List.getElem_cons_drop, List.take_append_drop]
      have hset : p.set j x = p.take j ++ x :: p.drop (j + 1) := by
        rw [List.set_eq_take_append_cons_drop, if_pos hj]
      have hpre : IsBytes ([a, b, c, e] ++ p.take j) := by
        intro z hz
        simp at hz
        rcases hz with h | h | h | h | h
        · omega
        · omega
        · omega
        · omega
        · exact hp z (List.mem_of_mem_take h)
      have hpost : IsBytes (p.drop (j + 1)) := fun z hz => hp z (List.mem_of_mem_drop hz)
      have := ChecksumIEEE_one_byte _ _ x p[j] hpre hpost hx (hp _ (List.getElem_mem _)) hne
      rw [hset]
      conv_rhs => rw [hsplit]
      simpa using this
    · -- a trailer byte
      have hj' : j - p.length < 4 := by omega
      have hget : ([a, b, c, e] ++ p ++ [t0, t1, t2, t3]).getD (j + 1 + 1 + 1 + 1) 0
          = [t0, t1, t2, t3].getD (j - p.length) 0 := by
        simp [List.getD_eq_getElem?_getD, List.getElem?_append_right (not_lt.1 hj)]
      rw [hget] at hne
      have e1 : ([a, b, c, e] ++ p ++ [t0, t1, t2, t3]).set (j + 1 + 1 + 1 + 1) x
          = [a, b, c, e] ++ p ++ [t0, t1, t2, t3].set (j - p.length) x := by
        simp [List.set_append, hj]
      rw [e1]
      apply crc_ne_to_mismatch _ _ _ _ _ _ (by simp) (by omega) (by omega)
      rw [hcrc]
      generalize j - p.length = m at hj' hne
      rcases m with _ | _ | _ | _ | m
      · simp [leUint32] at hne ⊢; omega
      · simp [leUint32] at hne ⊢; omega
      · simp [leUint32] at hne ⊢; omega
      · simp [leUint32] at hne ⊢; omega
      · omega

theorem flip_byte (b j : Nat) (hb : b < 256) (hj : j < 8) :
    b ^^^ (1 <<< j) < 256 ∧ b ^^^ (1 <<< j) ≠ b := by
  rw [Nat.one_shiftLeft]
  have h2 : 2 ^ j < 2 ^ 8 := Nat.pow_lt_pow_right (by norm_num) hj
  constructor
  · exact Nat.xor_lt_two_pow (n := 8) (by norm_num; exact hb) h2
  · intro h
    have h0 : b ^^^ 2 ^ j = b ^^^ 0 := by rw [h, Nat.xor_zero]
    have := Nat.xor_right_inj.1 h0
    have hpos : 0 < 2 ^ j := Nat.pos_pow_of_pos j (by norm_num)
    omega

theorem IsBytes_putUint32LE (v : Nat) : IsBytes (putUint32LE v) := by
  intro x hx
  simp [putUint32LE] at hx
  omega

theorem IsBytes_frameBytes (ty : Nat) (p : List Nat) (hp : IsBytes p) :
    IsBytes (frameBytes ty p) :=
  IsBytes_append (IsBytes_append (IsBytes_frameHeader ty p) hp) (IsBytes_putUint32LE _)

theorem IsBytes_getD (d : List Nat) (hd : IsBytes d) (k : Nat) : d.getD k 0 < 256 := by
  rw [List.getD_eq_getElem?_getD]
  cases h : d[k]? with
  | none => simp
  | some v => simpa using hd v (List.mem_iff_getElem?.2 ⟨k, h⟩)

/-! ## The destination found in the control data -/

theorem controlStep_eq (ip : List Nat) (m : CMsg) :
    controlStep ip m = if IsPktInfo m then pktInfoAddr m else ip := by
  unfold controlStep IsPktInfo pktInfoAddr
  by_cases h4 : m.Level = IPPROTO_IP ∧ m.Typ = IP_PKTINFO ∧ m.body.length ≥ 12
  · rw [if_pos h4, if_pos (Or.inl h4), if_pos h4.1, List.drop_take]
  · rw [if_neg h4]
    by_cases h6 : m.Level = IPPROTO_IPV6 ∧ m.Typ = IPV6_PKTINFO ∧ m.body.length ≥ 16
    · have hne : ¬ m.Level = IPPROTO_IP := by
        rw [h6.1]; decide
      rw [if_pos h6, if_pos (Or.inr h6), if_neg hne]
    · rw [if_neg h6, if_neg]
      rintro (h | h)
      · exact h4 h
      · exact h6 h

theorem scanControl_eq (msgs : List CMsg) : scanControl msgs = specResolve msgs := by
  unfold scanControl specResolve
  induction msgs using List.reverseRecOn with
  | nil => rfl
  | append_singleton l m ih =>
    rw [List.foldl_append, List.foldl_cons, List.foldl_nil, controlStep_eq, List.filter_append]
    by_cases h : IsPktInfo m
    · have hf : List.filter (fun m => decide (IsPktInfo m)) [m] = [m] := by
        simp [List.filter, h]
      rw [if_pos h, hf, List.getLast?_concat]
    · have hf : List.filter (fun m => decide (IsPktInfo m)) [m] = [] := by
        simp [List.filter, h]
      rw [if_neg h, hf, List.append_nil, ih]

theorem beUint16_lt (b : List Nat) (hb : IsBytes b) : beUint16 b < 65536 := by
  have h0 := IsBytes_getD b hb 0
  have h1 := IsBytes_getD b hb 1
  unfold beUint16
  omega

theorem IsBytes_take (d : List Nat) (hd : IsBytes d) (n : Nat) : IsBytes (d.take n) :=
  fun x hx => hd x (List.mem_of_mem_take hx)

theorem IsBytes_drop (d : List Nat) (hd : IsBytes d) (n : Nat) : IsBytes (d.drop n) :=
  fun x hx => hd x (List.mem_of_mem_drop hx)

theorem responseAttrs_decodable (base : List Nat) (u : Remote) (ha : u.Auth.length ≤ 32767)
    (hl : (base ++ str "/lineup.json").length ≤ 32767) :
    ∀ a ∈ responseAttrs base u, DecodableAttr a := by
  have hb : base.length ≤ 32767 := by rw [List.length_append] at hl; omega
  intro a hmem
  unfold responseAttrs at hmem
  by_cases h : u.Auth = []
  · simp only [h, if_true, List.append_nil, List.cons_append, List.nil_append,
      List.mem_cons, List.mem_nil_iff, or_false] at hmem
    rcases hmem with rfl | rfl | rfl | rfl | rfl
    · exact ⟨by simp [putUint32BE], by simp [putUint32BE], by simp⟩
    · exact ⟨by simp [putUint32BE], by simp [putUint32BE], by simp⟩
    · exact ⟨hb, by simp, by simp⟩
    · exact ⟨by simp, by simp, by simp⟩
    · exact ⟨hl, by simp, by simp⟩
  · simp only [h, if_false, List.cons_append, List.nil_append,
      List.mem_cons, List.mem_nil_iff, or_false] at hmem
    rcases hmem with rfl | rfl | rfl | rfl | rfl | rfl
    · exact ⟨by simp [putUint32BE], by simp [putUint32BE], by simp⟩
    · exact ⟨by simp [putUint32BE], by simp [putUint32BE], by simp⟩
    · exact ⟨ha, by simp, by simp⟩
    · exact ⟨hb, by simp, by simp⟩
    · exact ⟨by simp, by simp, by simp⟩
    · exact ⟨hl, by simp, by simp⟩

theorem foldl_responseAttrs (base : List Nat) (u : Remote) (hty : u.Ty < 4294967296)
    (hid : u.ID < 4294967296) :
    (responseAttrs base u).foldl applyAttr {} =
      { Ty := u.Ty, ID := u.ID, TunerCount := u.TunerCount, Auth := u.Auth, Base := base,
        Lineup := base ++ str "/lineup.json" } := by
  have h1 := beUint32_putUint32BE u.Ty hty
  have h2 := beUint32_putUint32BE u.ID hid
  unfold responseAttrs
  by_cases h : u.Auth = []
  · simp [h, applyAttr, h1, h2]
  · simp [h, applyAttr, h1, h2]

/-! ## The discovery loop goes on -/

theorem ReadU8_err (r : Reader) (e : Fault) (h : r.ReadU8.err = some e) : e = .endOfPacket := by
  unfold Reader.ReadU8 at h
  split at h <;> simp at h
  exact h.symm

theorem ReadU32_err (r : Reader) (e : Fault) (h : r.ReadU32.err = some e) :
    e = .endOfPacket := by
  unfold Reader.ReadU32 at h
  split at h <;> simp at h
  exact h.symm

theorem ReadVarLen_err (r : Reader) (e : Fault) (h : r.ReadVarLen.err = some e) :
    e = .endOfPacket := by
  unfold Reader.ReadVarLen at h
  by_cases hc : r.Pos + 1 > r.Data.length
  · rw [if_pos hc] at h
    simp at h
    exact h.symm
  · rw [if_neg hc] at h
    simp only at h
    by_cases hc2 : r.Data.getD r.Pos 0 &&& 0x80 ≠ 0
    · rw [if_pos hc2] at h
      by_cases hc3 : r.Pos + 1 + 1 > r.Data.length
      · rw [if_pos hc3] at h
        simp at h
        exact h.symm
      · rw [if_neg hc3] at h
        simp at h
    · rw [if_neg hc2] at h
      simp at h

theorem multiTypeLoop_err (n : Nat) (r : Reader) (want : Bool) (e : Fault)
    (h : multiTypeLoop n r want = .error e) : e = .endOfPacket := by
  induction n generalizing r want with
  | zero => rw [multiTypeLoop] at h; cases h
  | succ n ih =>
    rw [multiTypeLoop] at h
    have he := ReadU32_err r
    generalize r.ReadU32 = x at h he
    rcases x with ⟨v, _ | er, rd⟩
    · simp only at h
      exact ih _ _ h
    · simp only at h he
      cases h
      exact he _ rfl

theorem parseRequest_no_panic (data : Reader) (e : Fault)
    (h : parseRequest data = .error e) : e.isPanic = false := by
  unfold parseRequest at h
  have h8 := ReadU8_err data
  generalize data.ReadU8 = t at h h8
  rcases t with ⟨tv, _ | ter, trd⟩
  · simp only at h
    have hv := ReadVarLen_err trd
    generalize trd.ReadVarLen = l at h hv
    rcases l with ⟨lv, _ | ler, lrd⟩
    · simp only at h
      split_ifs at h
      · cases h; rfl
      · have h32 := ReadU32_err lrd
        generalize lrd.ReadU32 = x at h h32
        rcases x with ⟨xv, _ | xer, xrd⟩
        · simp only at h; cases h
        · simp only at h h32
          cases h
          rw [h32 _ rfl]; rfl
      · cases h; rfl
      · cases hm : multiTypeLoop ((lv + 3) / 4) lrd false with
        | error e' =>
          rw [hm] at h
          simp only at h
          cases h
          rw [multiTypeLoop_err _ _ _ _ hm]; rfl
        | ok y =>
          rw [hm] at h
          simp only at h
          cases h
      · cases h; rfl
    · simp only at h hv
      split_ifs at h
      · cases h; rw [hv _ rfl]; rfl
      · cases h; rw [hv _ rfl]; rfl
      · cases h; rfl
  · simp only at h h8
    cases h
    rw [h8 _ rfl]; rfl

/-- An error `discoveryRequest` returns is an error of the request parser or
of the socket write, never a panic. -/
theorem discoveryRequest_no_panic (r : Relay) (net : List Nat → Except Fault (List Nat))
    (write : List Nat → UDPAddr → Option Fault) (inp : UDPIn) (data : Reader)
    (hw : ∀ pkt a e, write pkt a = some e → e.isPanic = false) (e : Fault)
    (h : (discoveryRequest r net write inp data).err = some e) : e.isPanic = false := by
  cases hp : parseRequest data with
  | error e' =>
    have hd : discoveryRequest r net write inp data
        = { queried := false, writes := [], err := some e' } := by
      unfold discoveryRequest; rw [hp]
    rw [hd] at h
    simp only [Option.some.injEq] at h
    rw [← h]
    exact parseRequest_no_panic data e' hp
  | ok b =>
    cases b with
    | false =>
      have hd : discoveryRequest r net write inp data
          = { queried := false, writes := [], err := none } := by
        unfold discoveryRequest; rw [hp]
      rw [hd] at h
      cases h
    | true =>
      obtain ⟨u, _, hd⟩ := discoveryRequest_relevant r net write inp data hp
      rw [hd] at h
      exact hw _ _ _ h

theorem handleDiscoveryIter_continues (r : Relay) (i : IterInput)
    (hw : ∀ pkt a e, i.write pkt a = some e → e.isPanic = false) (hctx : i.ctxErr = none) :
    ∃ w, handleDiscoveryIter r i = .continued w := by
  unfold handleDiscoveryIter
  rw [hctx]
  simp only
  cases hr : UDPCon.Read 4096 i.rx with
  | error e => exact ⟨_, rfl⟩
  | ok inp =>
    simp only
    have hlen : inp.Data.length ≤ 4096 := by
      unfold UDPCon.Read at hr
      split at hr
      · cases hr
      · split at hr
        · cases hr
        · cases hr
          simp only [List.length_take]
          omega
    cases hu : UnFrame inp.Data with
    | error e =>
      simp only
      rw [UnFrame_no_panic inp.Data (by omega) e hu]
      exact ⟨_, rfl⟩
    | ok x =>
      rcases x with ⟨ty, data⟩
      simp only
      split_ifs
      · cases he : (discoveryRequest r i.net i.write inp (NewReader data)).err with
        | none => exact ⟨_, rfl⟩
        | some e =>
          simp only
          rw [discoveryRequest_no_panic r i.net i.write inp _ hw e he]
          exact ⟨_, rfl⟩
      · exact ⟨_, rfl⟩

/-! ## The response and the size of a datagram -/

theorem varLenBytes_length_pos (v : Nat) : 1 ≤ (varLenBytes v).length := by
  unfold varLenBytes
  split <;> simp

theorem varLenBytes_length_two (v : Nat) (h : 127 < v) : (varLenBytes v).length = 2 := by
  unfold varLenBytes
  rw [if_neg (by omega)]
  rfl

/-- With an advertised host of 32724 bytes or more the fallback response has
at least 65501 bytes of payload. -/
theorem responsePayload_fallback_length_ge (self : List Nat) (hlen : 32724 ≤ self.length) :
    65501 ≤ (responsePayload self fallbackRemote).length := by
  rw [responsePayload_eq]
  have h3 := newBase_length self
  have h4 : (str "/lineup.json").length = 12 := by rw [str_lineup]; rfl
  have p1 := varLenBytes_length_pos ((newBase self).length % 65536)
  have p2 := varLenBytes_length_pos ((newBase self ++ str "/lineup.json").length % 65536)
  by_cases he : self.length = 32724
  · have h1 : (varLenBytes ((newBase self).length % 65536)).length = 2 := by
      apply varLenBytes_length_two
      rw [h3, he]
      decide
    have h2 : (varLenBytes ((newBase self ++ str "/lineup.json").length % 65536)).length
        = 2 := by
      apply varLenBytes_length_two
      rw [List.length_append, h3, h4, he]
      decide
    simp only [fallbackRemote, List.length_nil, gt_iff_lt, lt_self_iff_false, if_false,
      List.length_append, List.length_cons, putUint32BE] at h1 h2 ⊢
    omega
  · simp only [fallbackRemote, List.length_nil, gt_iff_lt, lt_self_iff_false, if_false,
      List.length_append, List.length_cons, putUint32BE] at p1 p2 ⊢
    omega

theorem UDPCon_Write_fits (sock : List Nat → UDPAddr → Option Fault) (buffer : List Nat)
    (addr : UDPAddr) (h : buffer.length ≤ maxDatagram) :
    UDPCon.Write sock buffer addr = sock buffer addr := by
  unfold UDPCon.Write
  rw [if_neg (by omega)]

theorem UDPCon_Write_too_long (sock : List Nat → UDPAddr → Option Fault) (buffer : List Nat)
    (addr : UDPAddr) (h : maxDatagram < buffer.length) :
    UDPCon.Write sock buffer addr = some .messageTooLong := by
  unfold UDPCon.Write
  rw [if_pos h]

/-- With an advertised host of 32724 bytes or more, a relevant request and a
failing upstream, the one packet the relay hands to its socket is longer than
a datagram and the write fails, whatever the network. -/
theorem fallback_host_too_long (self : List Nat) (hlen : 32724 ≤ self.length)
    (sock : List Nat → UDPAddr → Option Fault) (inp : UDPIn) (data : Reader)
    (h : parseRequest data = .ok true) :
    discoveryRequest { Target := [], Self := self } (fun _ => .error .ioFailure)
        (UDPCon.Write sock) inp data
      = { queried := true,
          writes := [(frameBytes DiscoveryResponse (responsePayload self fallbackRemote),
            inp.Src)],
          err := some .messageTooLong } ∧
    maxDatagram < (frameBytes DiscoveryResponse (responsePayload self fallbackRemote)).length := by
  have hl : maxDatagram
      < (frameBytes DiscoveryResponse (responsePayload self fallbackRemote)).length := by
    rw [frameBytes_length]
    have := responsePayload_fallback_length_ge self hlen
    unfold maxDatagram
    omega
  refine ⟨?_, hl⟩
  obtain ⟨u, hu, hd⟩ := discoveryRequest_relevant { Target := [], Self := self }
    (fun _ => .error .ioFailure) (UDPCon.Write sock) inp data h
  rw [upstreamOrFallback_of_error _ _ (Discover_io_error .ioFailure)] at hu
  cases hu
  rw [hd, UDPCon_Write_too_long _ _ _ hl]

/-! ## `ReadStr` on the whole range of `int` -/

theorem wrapInt_of_le (x : Nat) (h : x ≤ maxInt) : wrapInt (x : Int) = x := by
  unfold wrapInt
  unfold maxInt at h
  omega

theorem wrapInt_of_gt (x : Nat) (h : maxInt < x) (h2 : x ≤ 2 * maxInt) :
    wrapInt (x : Int) = (x : Int) - 18446744073709551616 := by
  unfold wrapInt
  unfold maxInt at h h2
  omega

/-- Where the sum `r.Pos + l` is in the range of `int`, the method is the one
over the natural numbers. -/
theorem ReadStrInt_eq (r : Reader) (l : Nat) (h : r.Pos + l ≤ maxInt) :
    r.ReadStrInt l = r.ReadStr l := by
  have hw : wrapInt ((r.Pos : Int) + (l : Int)) = ((r.Pos + l : Nat) : Int) := by
    rw [← Nat.cast_add]; exact wrapInt_of_le _ h
  unfold Reader.ReadStrInt Reader.ReadStr
  simp only [hw, Int.toNat_ofNat]
  by_cases hc : r.Pos + l > r.Data.length
  · rw [if_pos hc, if_pos (by omega)]
  · rw [if_neg hc, if_neg (by omega), if_neg (by omega)]

/-- Where the sum `r.Pos + l` of two values of type `int` overflows, the
method panics. -/
theorem ReadStrInt_overflow (r : Reader) (l : Nat) (hp : r.Pos ≤ maxInt) (hl : l ≤ maxInt)
    (h : maxInt < r.Pos + l) :
    r.ReadStrInt l = { val := [], err := some .panicSliceBounds, rd := r } := by
  have hw : wrapInt ((r.Pos : Int) + (l : Int))
      = ((r.Pos + l : Nat) : Int) - 18446744073709551616 := by
    rw [← Nat.cast_add]; exact wrapInt_of_gt _ h (by omega)
  have h1 : ¬ wrapInt ((r.Pos : Int) + (l : Int)) > (r.Data.length : Int) := by
    rw [hw]; unfold maxInt at hp hl h; omega
  have h2 : wrapInt ((r.Pos : Int) + (l : Int)) < (r.Pos : Int) := by
    rw [hw]; unfold maxInt at hp hl h; omega
  unfold Reader.ReadStrInt
  simp only [if_neg h1, if_pos h2]

/-! ## Claims -/

/-- C1, the code at the failing inputs: `UnFrame(Frame(ty, p))` is not
`(ty, p)` for the largest payloads a 16-bit length field can describe. For a
payload of 65535 bytes `UnFrame` rejects the packet `Frame` built with
"invalid length", because `l + 4` wraps around in `uint16`; for a payload of
65528 bytes the length check passes and the slice `data[crcPos : crcPos+4]`
panics, because `crcPos + 4` wraps around. -/
theorem unframe_frame_fails_on_largest_payloads :
    (Frame 3 (List.replicate 65535 0)).bind UnFrame = .error .invalidLength ∧
    (Frame 3 (List.replicate 65528 0)).bind UnFrame = .error .panicSliceBounds := by
  constructor
  · rw [Frame_eq, bind_ok]
    exact UnFrame_frameBytes_invalidLength 3 _ (by rw [length_zeros]; norm_num)
      (le_of_eq (length_zeros 65535))
  · rw [Frame_eq, bind_ok]
    exact UnFrame_frameBytes_panic 3 _ (le_of_eq (length_zeros 65528).symm)
      (by rw [length_zeros]; norm_num)

/-- C3, the code at the failing input: for the packet `d` that `Frame` builds
around 65532 zero bytes the length field is `L = 65532`, `len(d) = L + 8`, and
the CRC32 of `d[0 .. L+4)` equals the little-endian value of `d[L+4 .. L+8)`,
so none of the three error conditions of the claim holds; still `UnFrame(d)`
returns the error "invalid length". For the packet around 65528 zero bytes
`UnFrame` returns neither an error nor a result: it panics. -/
theorem unframe_rejects_well_formed_long_packet :
    Frame 3 (List.replicate 65532 0) = .ok (frameBytes 3 (List.replicate 65532 0)) ∧
    (8 ≤ (frameBytes 3 (List.replicate 65532 0)).length ∧
      beUint16 (((frameBytes 3 (List.replicate 65532 0)).take 4).drop 2) = 65532 ∧
      (frameBytes 3 (List.replicate 65532 0)).length = 65532 + 8 ∧
      ChecksumIEEE ((frameBytes 3 (List.replicate 65532 0)).take (65532 + 4)) =
        leUint32 (((frameBytes 3 (List.replicate 65532 0)).take (65532 + 8)).drop
          (65532 + 4))) ∧
    UnFrame (frameBytes 3 (List.replicate 65532 0)) = .error .invalidLength ∧
    UnFrame (frameBytes 3 (List.replicate 65528 0)) = .error .panicSliceBounds :=
  ⟨Frame_eq _ _,
   frameBytes_well_formed _ (IsBytes_zeros 65532) 65532 (length_zeros 65532) (by norm_num),
   UnFrame_frameBytes_invalidLength 3 _ (le_of_eq (length_zeros 65532).symm)
     (by rw [length_zeros]; norm_num),
   UnFrame_frameBytes_panic 3 _ (le_of_eq (length_zeros 65528).symm)
     (by rw [length_zeros]; norm_num)⟩

/-- C2: for every 16-bit type and every payload whose framed packet fits in a
65535-byte datagram, flipping any one bit of the packet (type, length, payload
or checksum) makes `UnFrame` return an `ErrInvalidPacket` error, "invalid
length" or "CRC mismatch"; it does not return a type and payload. -/
theorem unframe_detects_bit_flip (ty : Nat) (p : List Nat) (i : Nat)
    (hp : IsBytes p) (hlen : p.length + 8 ≤ 65535) (hi : i < 8 * (p.length + 8)) :
    ∃ pkt, Frame ty p = .ok pkt ∧
      (UnFrame (flipBit pkt i) = .error .invalidLength ∨
       UnFrame (flipBit pkt i) = .error .crcMismatch) := by
  refine ⟨frameBytes ty p, Frame_eq ty p, ?_⟩
  have hC := ChecksumIEEE_lt _ (IsBytes_append (IsBytes_frameHeader ty p) hp)
  have hd := IsBytes_frameBytes ty p hp
  have hflip := flip_byte ((frameBytes ty p).getD (i / 8) 0) (i % 8)
    (IsBytes_getD _ hd _) (Nat.mod_lt _ (by norm_num))
  have hH : frameHeader ty p
      = [ty / 256 % 256, ty % 256, p.length % 65536 / 256 % 256, p.length % 65536 % 256] := by
    simp [frameHeader, putUint16BE]
  have hshape : frameBytes ty p
      = [ty / 256 % 256, ty % 256, p.length % 65536 / 256 % 256, p.length % 65536 % 256] ++ p
        ++ [ChecksumIEEE (frameHeader ty p ++ p) % 256,
            ChecksumIEEE (frameHeader ty p ++ p) / 256 % 256,
            ChecksumIEEE (frameHeader ty p ++ p) / 65536 % 256,
            ChecksumIEEE (frameHeader ty p ++ p) / 16777216 % 256] := by
    rw [frameBytes_shape]; rfl
  unfold flipBit
  rw [hshape] at hflip ⊢
  apply UnFrame_set_parts _ _ _ _ _ _ _ _ p (by omega) (by omega) (by omega) (by omega) hp
    (by omega) (by omega) ?_ (i / 8) _ (by omega) hflip.1 hflip.2
  rw [← hH]
  have := leUint32_putUint32LE _ hC
  simp only [putUint32LE] at this
  exact this.symm

/-- C2 at type 3, payload `[1, 2, 3]` and bit 5. -/
theorem unframe_detects_bit_flip_witness :
    IsBytes [1, 2, 3] ∧ 5 < 8 * ([1, 2, 3].length + 8) ∧
    ∃ pkt, Frame 3 [1, 2, 3] = .ok pkt ∧
      (UnFrame (flipBit pkt 5) = .error .invalidLength ∨
       UnFrame (flipBit pkt 5) = .error .crcMismatch) :=
  ⟨by decide, by decide,
   unframe_detects_bit_flip 3 [1, 2, 3] 5 (by decide) (by decide) (by decide)⟩

/-- With an advertised host of 32768 bytes, a wildcard request and a failing
upstream, the packet the relay hands to its socket is not one `UnFrame`
accepts ("invalid length"): its payload has 65589 bytes, more than the 16-bit
length field of the envelope can describe. -/
theorem fallback_response_long_host_rejected :
    (discoveryRequest { Target := [], Self := List.replicate 32768 97 }
        (fun _ => .error .ioFailure) (fun _ _ => none)
        { Data := [], Src := { IP := [10, 0, 0, 7], Port := 40000 }, Dst := [] }
        (NewReader [0x01, 0x04, 0xFF, 0xFF, 0xFF, 0xFF])).writes
      = [(frameBytes DiscoveryResponse
            (responsePayload (List.replicate 32768 97) fallbackRemote),
          { IP := [10, 0, 0, 7], Port := 40000 })] ∧
    UnFrame (frameBytes DiscoveryResponse
        (responsePayload (List.replicate 32768 97) fallbackRemote))
      = .error .invalidLength :=
  fallback_long_host_rejected (List.replicate 32768 97) (List.length_replicate _ _)
    (fun _ _ => none) { Data := [], Src := { IP := [10, 0, 0, 7], Port := 40000 }, Dst := [] }
    (NewReader [0x01, 0x04, 0xFF, 0xFF, 0xFF, 0xFF]) (by rfl)

/-- C5, counterexample: with an advertised host of 32724 bytes, a wildcard
request, a failing upstream and a network that carries every datagram, the
relay produces no outbound packet: the one packet it hands to `Write` has
more than the 65507 bytes of a UDP datagram over IPv4, and the write fails
with "message too long". -/
theorem fallback_response_host_exceeds_datagram :
    discoveryRequest { Target := [], Self := List.replicate 32724 97 }
        (fun _ => .error .ioFailure) (UDPCon.Write (fun _ _ => none))
        { Data := [], Src := { IP := [10, 0, 0, 7], Port := 40000 }, Dst := [] }
        (NewReader [0x01, 0x04, 0xFF, 0xFF, 0xFF, 0xFF])
      = { queried := true,
          writes := [(frameBytes DiscoveryResponse
              (responsePayload (List.replicate 32724 97) fallbackRemote),
            { IP := [10, 0, 0, 7], Port := 40000 })],
          err := some .messageTooLong } ∧
    maxDatagram < (frameBytes DiscoveryResponse
        (responsePayload (List.replicate 32724 97) fallbackRemote)).length :=
  fallback_host_too_long (List.replicate 32724 97)
    (by rw [List.length_replicate])
    (fun _ _ => none) { Data := [], Src := { IP := [10, 0, 0, 7], Port := 40000 }, Dst := [] }
    (NewReader [0x01, 0x04, 0xFF, 0xFF, 0xFF, 0xFF]) (by rfl)

/-- C5, amended: for every relevant discovery request and every advertised
host of at most 32723 bytes, when `Discover` returns an error the relay still
hands exactly one packet to `Write`, addressed to the source of the request;
the packet has at most the 65507 bytes of a UDP datagram over IPv4, so that
`Write` passes it to the network as one datagram; `UnFrame` accepts it with
type 0x3, and its payload is the attribute sequence device-type = 1 (tuner),
device-id = 1234, base-url, tuner-count = 1, lineup-url, with no device-auth
(0x2B) attribute. -/
theorem fallback_response (r : Relay) (net : List Nat → Except Fault (List Nat))
    (sock : List Nat → UDPAddr → Option Fault) (inp : UDPIn) (p : List Nat) (e : Fault)
    (hp : IsBytes p) (hrel : SpecRelevant p) (hs : IsBytes r.Self)
    (hlen : r.Self.length ≤ 32723) (hd : Discover net = .error e) :
    ∃ pkt, discoveryRequest r net (UDPCon.Write sock) inp (NewReader p)
        = { queried := true, writes := [(pkt, inp.Src)], err := sock pkt inp.Src } ∧
      pkt.length ≤ maxDatagram ∧
      UnFrame pkt = .ok (0x3,
        specPayload [(0x01, putUint32BE 1), (0x02, putUint32BE 1234), (0x2A, newBase r.Self),
          (0x10, [1]), (0x27, newBase r.Self ++ str "/lineup.json")]) := by
  obtain ⟨u, hu, hreq⟩ := discoveryRequest_relevant r net (UDPCon.Write sock) inp _
    ((parseRequest_spec p hp).2 hrel)
  rw [upstreamOrFallback_of_error net e hd] at hu
  cases hu
  have hb : IsBytes (responsePayload r.Self fallbackRemote) :=
    IsBytes_responsePayload r.Self fallbackRemote hs (by decide) (by decide)
  have hle := responsePayload_fallback_length_le r.Self
  have hfit : (frameBytes DiscoveryResponse (responsePayload r.Self fallbackRemote)).length
      ≤ maxDatagram := by
    rw [frameBytes_length]
    unfold maxDatagram
    omega
  refine ⟨_, ?_, hfit, ?_⟩
  · rw [hreq, UDPCon_Write_fits _ _ _ hfit]
  · rw [UnFrame_frameBytes DiscoveryResponse _ (by decide) hb (by omega)]
    have hspec := responsePayload_spec r.Self fallbackRemote (by decide)
      (by rw [lineup_length]; omega)
    rw [hspec]
    rfl

/-- C5, amended, at the host "relay", a wildcard request, an unreachable
upstream and a network that carries every datagram. -/
theorem fallback_response_witness :
    IsBytes [0x01, 0x04, 0xFF, 0xFF, 0xFF, 0xFF] ∧ IsBytes (str "relay") ∧
    ∃ pkt, discoveryRequest { Target := [], Self := str "relay" } (fun _ => .error .ioFailure)
        (UDPCon.Write (fun _ _ => none))
        { Data := [], Src := { IP := [10, 0, 0, 7], Port := 40000 }, Dst := [] }
        (NewReader [0x01, 0x04, 0xFF, 0xFF, 0xFF, 0xFF])
        = { queried := true, writes := [(pkt, { IP := [10, 0, 0, 7], Port := 40000 })],
            err := none } ∧
      pkt.length ≤ maxDatagram ∧
      UnFrame pkt = .ok (0x3,
        specPayload [(0x01, putUint32BE 1), (0x02, putUint32BE 1234),
          (0x2A, newBase (str "relay")), (0x10, [1]),
          (0x27, newBase (str "relay") ++ str "/lineup.json")]) :=
  ⟨by decide, by decide,
    fallback_response { Target := [], Self := str "relay" } (fun _ => .error .ioFailure)
      (fun _ _ => none) { Data := [], Src := { IP := [10, 0, 0, 7], Port := 40000 }, Dst := [] }
      [0x01, 0x04, 0xFF, 0xFF, 0xFF, 0xFF] .ioFailure (by decide)
      (Or.inl ⟨rfl, rfl, by decide, Or.inr (by decide)⟩) (by decide) (by decide)
      (Discover_io_error .ioFailure)⟩

/-- C8, counterexample: with the advertised host "a" and a failing upstream the
response to a wildcard request carries the base-url value "http://a:80", not
"http://a", and the lineup-url value "http://a:80/lineup.json", not
"http://a/lineup.json": the relay appends the web port. -/
theorem base_url_carries_port :
    (discoveryRequest { Target := [], Self := str "a" } (fun _ => .error .ioFailure)
        (fun _ _ => none)
        { Data := [], Src := { IP := [10, 0, 0, 7], Port := 40000 }, Dst := [] }
        (NewReader [0x01, 0x04, 0xFF, 0xFF, 0xFF, 0xFF])).writes
      = [(frameBytes DiscoveryResponse (responsePayload (str "a") fallbackRemote),
          { IP := [10, 0, 0, 7], Port := 40000 })] ∧
    UnFrame (frameBytes DiscoveryResponse (responsePayload (str "a") fallbackRemote))
      = .ok (0x3, responsePayload (str "a") fallbackRemote) ∧
    specAttrs (responsePayload (str "a") fallbackRemote)
      = some [(0x01, [0, 0, 0, 1]), (0x02, [0, 0, 4, 210]), (0x2A, str "http://a:80"),
          (0x10, [1]), (0x27, str "http://a:80/lineup.json")] ∧
    str "http://a:80" ≠ str "http://" ++ str "a" ∧
    str "http://a:80/lineup.json" ≠ str "http://" ++ str "a" ++ str "/lineup.json" := by
  refine ⟨?_, ?_, ?_, by decide, by decide⟩
  · obtain ⟨u, hu, hd⟩ := discoveryRequest_relevant { Target := [], Self := str "a" }
      (fun _ => .error .ioFailure) (fun _ _ => none)
      { Data := [], Src := { IP := [10, 0, 0, 7], Port := 40000 }, Dst := [] }
      (NewReader [0x01, 0x04, 0xFF, 0xFF, 0xFF, 0xFF]) (by rfl)
    rw [upstreamOrFallback_of_error _ _ (Discover_io_error .ioFailure)] at hu
    cases hu
    rw [hd]
  · exact UnFrame_frameBytes DiscoveryResponse _ (by decide)
      (IsBytes_responsePayload _ _ (by decide) (by decide) (by decide))
      (by have := responsePayload_fallback_length_le (str "a")
          have h1 : (str "a").length = 1 := by decide
          omega)
  · rw [responsePayload_spec (str "a") fallbackRemote (by decide) (by decide),
      specAttrs_specPayload]
    decide

/-- C8, amended: for every advertised host `h` whose lineup URL has at most
32767 bytes and every upstream outcome, the response to a relevant request has
a base-url attribute whose value is exactly "http://" followed by `h` and
":80", and a lineup-url attribute whose value is exactly "http://" followed by
`h` and ":80/lineup.json". -/
theorem response_urls (r : Relay) (net : List Nat → Except Fault (List Nat))
    (write : List Nat → UDPAddr → Option Fault) (inp : UDPIn) (p : List Nat)
    (hp : IsBytes p) (hrel : SpecRelevant p)
    (hl : (str "http://" ++ r.Self ++ str ":80/lineup.json").length ≤ 32767) :
    ∃ payload attrs,
      (discoveryRequest r net write inp (NewReader p)).writes
        = [(frameBytes DiscoveryResponse payload, inp.Src)] ∧
      Frame DiscoveryResponse payload = .ok (frameBytes DiscoveryResponse payload) ∧
      specAttrs payload = some attrs ∧
      attrValue 0x2A attrs = some (str "http://" ++ r.Self ++ str ":80") ∧
      attrValue 0x27 attrs = some (str "http://" ++ r.Self ++ str ":80/lineup.json") := by
  obtain ⟨u, hu, hreq⟩ := discoveryRequest_relevant r net write inp _
    ((parseRequest_spec p hp).2 hrel)
  have hauth : u.Auth.length ≤ 32767 := by
    rcases upstreamOrFallback_ok net with ⟨u', hD, hu'⟩ | ⟨_, hu'⟩
    · rw [hu] at hu'
      cases hu'
      have := Discover_auth net u hD
      omega
    · rw [hu] at hu'
      cases hu'
      decide
  rw [← newBase_lineup_eq] at hl
  refine ⟨responsePayload r.Self u, responseAttrs (newBase r.Self) u, ?_, Frame_eq _ _, ?_, ?_, ?_⟩
  · rw [hreq]
  · rw [responsePayload_spec r.Self u hauth hl, specAttrs_specPayload]
  · rw [(attrValue_base _ u).1, newBase_eq]
  · rw [(attrValue_base _ u).2, newBase_lineup_eq]

/-- C8, amended, at the host "relay", a wildcard request and an unreachable
upstream. -/
theorem response_urls_witness :
    IsBytes [0x01, 0x04, 0xFF, 0xFF, 0xFF, 0xFF] ∧
    ∃ payload attrs,
      (discoveryRequest { Target := [], Self := str "relay" } (fun _ => .error .ioFailure)
        (fun _ _ => none)
        { Data := [], Src := { IP := [10, 0, 0, 7], Port := 40000 }, Dst := [] }
        (NewReader [0x01, 0x04, 0xFF, 0xFF, 0xFF, 0xFF])).writes
        = [(frameBytes DiscoveryResponse payload, { IP := [10, 0, 0, 7], Port := 40000 })] ∧
      Frame DiscoveryResponse payload = .ok (frameBytes DiscoveryResponse payload) ∧
      specAttrs payload = some attrs ∧
      attrValue 0x2A attrs = some (str "http://" ++ str "relay" ++ str ":80") ∧
      attrValue 0x27 attrs = some (str "http://" ++ str "relay" ++ str ":80/lineup.json") :=
  ⟨by decide,
    response_urls { Target := [], Self := str "relay" } (fun _ => .error .ioFailure)
      (fun _ _ => none) { Data := [], Src := { IP := [10, 0, 0, 7], Port := 40000 }, Dst := [] }
      [0x01, 0x04, 0xFF, 0xFF, 0xFF, 0xFF] (by decide)
      (Or.inl ⟨rfl, rfl, by decide, Or.inr (by decide)⟩) (by decide)⟩

/-- C6: the relay answers a discovery request (it calls `Discover` and hands
exactly one datagram, addressed to the source of the request, to the socket)
if and only if the request is relevant in the words of the specification, and
otherwise it neither queries upstream nor writes anything. A single
device-type request for storage is not answered; a multi-type request listing
storage and tuner is answered with exactly one datagram. -/
theorem relay_answers_iff_relevant (r : Relay) (net : List Nat → Except Fault (List Nat))
    (write : List Nat → UDPAddr → Option Fault) (inp : UDPIn) (p : List Nat)
    (hp : IsBytes p) :
    (((discoveryRequest r net write inp (NewReader p)).queried = true ∧
        ∃ pkt, (discoveryRequest r net write inp (NewReader p)).writes = [(pkt, inp.Src)])
      ↔ SpecRelevant p) ∧
    (¬ SpecRelevant p →
      (discoveryRequest r net write inp (NewReader p)).queried = false ∧
      (discoveryRequest r net write inp (NewReader p)).writes = []) ∧
    (discoveryRequest r net write inp (NewReader [0x01, 0x04, 0, 0, 0, 0x05])).writes = [] ∧
    (discoveryRequest r net write inp
      (NewReader [0x2D, 0x08, 0, 0, 0, 0x05, 0, 0, 0, 0x01])).writes.length = 1 := by
  have hno : ∀ q : List Nat, parseRequest (NewReader q) ≠ .ok true →
      (discoveryRequest r net write inp (NewReader q)).queried = false ∧
      (discoveryRequest r net write inp (NewReader q)).writes = [] :=
    fun q hq => discoveryRequest_irrelevant r net write inp _ hq
  refine ⟨⟨?_, ?_⟩, ?_, ?_, ?_⟩
  · rintro ⟨hq, _⟩
    by_contra hs
    have := (hno p (fun h => hs ((parseRequest_spec p hp).1 h))).1
    rw [hq] at this
    cases this
  · intro hs
    obtain ⟨u, _, hd⟩ := discoveryRequest_relevant r net write inp _
      ((parseRequest_spec p hp).2 hs)
    rw [hd]
    exact ⟨rfl, _, rfl⟩
  · intro hs
    exact hno p (fun h => hs ((parseRequest_spec p hp).1 h))
  · have h1 : parseRequest (NewReader [0x01, 0x04, 0, 0, 0, 0x05]) = .ok false := by rfl
    exact (hno _ (by rw [h1]; simp)).2
  · have h2 : parseRequest (NewReader [0x2D, 0x08, 0, 0, 0, 0x05, 0, 0, 0, 0x01]) = .ok true := by
      rfl
    obtain ⟨u, _, hd⟩ := discoveryRequest_relevant r net write inp _ h2
    rw [hd]
    rfl

/-- C6 at the wildcard request `01 04 FF FF FF FF`, with an unreachable
upstream: the relay queries and writes one datagram to the source. -/
theorem relay_answers_iff_relevant_witness :
    IsBytes [0x01, 0x04, 0xFF, 0xFF, 0xFF, 0xFF] ∧
    (discoveryRequest { Target := [], Self := [] } (fun _ => .error .ioFailure)
        (fun _ _ => none) { Data := [], Src := { IP := [10, 0, 0, 7], Port := 40000 }, Dst := [] }
        (NewReader [0x01, 0x04, 0xFF, 0xFF, 0xFF, 0xFF])).queried = true :=
  ⟨by decide,
    (((relay_answers_iff_relevant { Target := [], Self := [] } (fun _ => .error .ioFailure)
      (fun _ _ => none) { Data := [], Src := { IP := [10, 0, 0, 7], Port := 40000 }, Dst := [] }
      [0x01, 0x04, 0xFF, 0xFF, 0xFF, 0xFF] (by decide)).1).2
        (Or.inl ⟨rfl, rfl, by decide, Or.inr (by decide)⟩)).1⟩

/-- C7, counterexample: for the fallback record (empty auth) and an advertised
host of 32768 bytes the response payload is not the concatenation of the
attributes of the claim. The base URL has 32778 bytes, a length the varlen
cannot express: the two length bytes written after the tag 0x2A are
`0x8A 0x00`, which `ReadVarLen` reads as 10. -/
theorem response_payload_long_host_not_attributes :
    responsePayload (List.replicate 32768 97) fallbackRemote ≠
      specPayload [(0x01, putUint32BE fallbackRemote.Ty), (0x02, putUint32BE fallbackRemote.ID),
        (0x2A, newBase (List.replicate 32768 97)),
        (0x10, [fallbackRemote.TunerCount]),
        (0x27, newBase (List.replicate 32768 97) ++ str "/lineup.json")] ∧
    (newBase (List.replicate 32768 97)).length = 32778 ∧
    (Reader.ReadVarLen
      { Data := responsePayload (List.replicate 32768 97) fallbackRemote, Pos := 13 }).val = 10
    :=
  long_host_not_attributes (List.replicate 32768 97) (List.length_replicate _ _)

/-- C7, amended: for every device record whose auth has at most 32767 bytes
and every advertised host whose lineup URL has at most 32767 bytes, the
response payload is exactly the concatenation, in this order, of the
attributes device-type (0x01, the type big-endian), device-id (0x02, the id
big-endian), device-auth (0x2B, the auth) present exactly when the auth is
non-empty, base-url (0x2A), tuner-count (0x10, one byte) and lineup-url
(0x27), whose value is the base-url value followed by "/lineup.json"; the
base and lineup URLs of the record play no part. -/
theorem response_payload_is_attribute_sequence (self : List Nat) (u : Remote)
    (ha : u.Auth.length ≤ 32767)
    (hl : (newBase self ++ str "/lineup.json").length ≤ 32767) :
    responsePayload self u =
      specPayload ([(0x01, putUint32BE u.Ty), (0x02, putUint32BE u.ID)]
        ++ (if u.Auth = [] then [] else [(0x2B, u.Auth)])
        ++ [(0x2A, newBase self), (0x10, [u.TunerCount]),
            (0x27, newBase self ++ str "/lineup.json")]) ∧
    ∀ b l : List Nat, responsePayload self { u with Base := b, Lineup := l }
      = responsePayload self u :=
  ⟨responsePayload_spec self u ha hl, fun _ _ => rfl⟩

/-- C7, amended, at the fallback record and the host "relay". -/
theorem response_payload_is_attribute_sequence_witness :
    fallbackRemote.Auth.length ≤ 32767 ∧
    (newBase (str "relay") ++ str "/lineup.json").length ≤ 32767 ∧
    responsePayload (str "relay") fallbackRemote =
      specPayload ([(0x01, putUint32BE fallbackRemote.Ty), (0x02, putUint32BE fallbackRemote.ID)]
        ++ (if fallbackRemote.Auth = [] then [] else [(0x2B, fallbackRemote.Auth)])
        ++ [(0x2A, newBase (str "relay")), (0x10, [fallbackRemote.TunerCount]),
            (0x27, newBase (str "relay") ++ str "/lineup.json")]) :=
  ⟨by decide, by decide,
    (response_payload_is_attribute_sequence (str "relay") fallbackRemote (by decide)
      (by decide)).1⟩

/-- C9: for every list of attributes in which each value has at most 32767
bytes, each device-type and device-id value exactly 4 bytes and each
tuner-count value exactly 1 byte, the attribute-decoding loop of `Discover`
on the concatenated TLV encoding succeeds, and the record it returns holds in
each field the value of the last attribute with the tag of that field, or the
zero value when there is none. No other tag occurs in the result. -/
theorem discover_decodes_attributes (attrs : List (Nat × List Nat))
    (hlen : ∀ a ∈ attrs, a.2.length ≤ 32767)
    (hfix4 : ∀ a ∈ attrs, a.1 = 0x01 ∨ a.1 = 0x02 → a.2.length = 4)
    (hfix1 : ∀ a ∈ attrs, a.1 = 0x10 → a.2.length = 1) :
    discoverLoop ((specPayload attrs).length + 1) (NewReader (specPayload attrs)) {} =
      .ok { Ty := ((lastValue 0x01 attrs).map beUint32).getD 0,
            ID := ((lastValue 0x02 attrs).map beUint32).getD 0,
            TunerCount := ((lastValue 0x10 attrs).map (fun v => v.getD 0 0)).getD 0,
            Lineup := (lastValue 0x27 attrs).getD [],
            Base := (lastValue 0x2A attrs).getD [],
            Auth := (lastValue 0x2B attrs).getD [] } := by
  rw [discoverLoop_attrs attrs (fun a ha => ⟨hlen a ha, hfix4 a ha, hfix1 a ha⟩),
    foldl_applyAttr_eq]

/-- C9 at a payload with two device-id attributes, an unknown tag and a base
URL: the later device-id wins and the unknown tag leaves no trace. -/
theorem discover_decodes_attributes_witness :
    discoverLoop
      ((specPayload [(0x02, [0, 0, 0, 7]), (0x99, [1, 2]), (0x02, [0, 0, 1, 0]),
        (0x2A, [104, 105])]).length + 1)
      (NewReader (specPayload [(0x02, [0, 0, 0, 7]), (0x99, [1, 2]), (0x02, [0, 0, 1, 0]),
        (0x2A, [104, 105])])) {} =
      .ok { ID := 256, Base := [104, 105] } := by
  have h := discover_decodes_attributes
    [(0x02, [0, 0, 0, 7]), (0x99, [1, 2]), (0x02, [0, 0, 1, 0]), (0x2A, [104, 105])]
    (by decide) (by decide) (by decide)
  rw [h]
  rfl

/-- C10, counterexample: the reply framed around the payload `10 05 01` (a
tuner-count attribute that declares 5 value bytes when 1 remains) is not a
concatenation of complete attributes, yet `Discover` returns a record with
tuner count 1 and no error; likewise `99 05`, an unknown tag declaring 5
bytes when none remains, gives the empty record. -/
theorem discover_accepts_over_declared_attribute :
    Frame 0x3 [0x10, 0x05, 0x01] = .ok (frameBytes 0x3 [0x10, 0x05, 0x01]) ∧
    specAttrs [0x10, 0x05, 0x01] = none ∧
    discoverDecode (frameBytes 0x3 [0x10, 0x05, 0x01]) = .ok { TunerCount := 1 } ∧
    Discover (fun _ => .ok (frameBytes 0x3 [0x10, 0x05, 0x01])) = .ok { TunerCount := 1 } ∧
    discoverDecode (frameBytes 0x3 [0x99, 0x05]) = .ok {} := by
  have h1 : UnFrame (frameBytes 0x3 [0x10, 0x05, 0x01]) = .ok (0x3, [0x10, 0x05, 0x01]) :=
    UnFrame_frameBytes 0x3 _ (by decide) (by decide) (by decide)
  have h2 : UnFrame (frameBytes 0x3 [0x99, 0x05]) = .ok (0x3, [0x99, 0x05]) :=
    UnFrame_frameBytes 0x3 _ (by decide) (by decide) (by decide)
  have h3 : discoverDecode (frameBytes 0x3 [0x10, 0x05, 0x01]) = .ok { TunerCount := 1 } := by
    unfold discoverDecode
    rw [h1]
    rfl
  refine ⟨Frame_eq _ _, by rfl, h3, ?_, ?_⟩
  · unfold Discover
    rw [Frame_eq]
    simp only [bind, Except.bind]
    rw [List.take_of_length_le (by rw [frameBytes_length]; decide)]
    exact h3
  · unfold discoverDecode
    rw [h2]
    rfl

/-- C10, amended: the reply decoding of `Discover` returns an error, and no
device record, for every reply that `UnFrame` rejects, every reply whose
envelope type is not 0x3, and every reply whose payload is a sequence of
decodable attributes followed by a truncated one that the decoder reads: a tag
without a complete varlen length, a device-type or device-id with fewer than 4
bytes after its length, a tuner-count with no byte after its length, or a
lineup-url, base-url or device-auth with fewer bytes than it declares. -/
theorem discover_rejects_malformed_reply (d : List Nat) (hm : MalformedReply d) :
    (∃ e, discoverDecode d = .error e ∧ e ≠ .outOfFuel) ∧
    ∀ net : List Nat → Except Fault (List Nat),
      net (frameBytes DiscoveryRequest discoverRequestPayload) = .ok d → d.length ≤ 4096 →
      ∃ e, Discover net = .error e ∧ e ≠ .outOfFuel := by
  refine ⟨discoverDecode_malformed d hm, ?_⟩
  intro net hnet hlen
  obtain ⟨e, he, hne⟩ := discoverDecode_malformed d hm
  refine ⟨e, ?_, hne⟩
  unfold Discover
  rw [Frame_eq]
  simp only [bind, Except.bind, hnet]
  rw [List.take_of_length_le hlen]
  exact he

/-- C10, amended, at the reply framed around `01 04 00 00`: a device-type
attribute with 2 of its 4 value bytes. -/
theorem discover_rejects_malformed_reply_witness :
    MalformedReply (frameBytes 0x3 [0x01, 0x04, 0, 0]) ∧
    ∃ e, discoverDecode (frameBytes 0x3 [0x01, 0x04, 0, 0]) = .error e ∧ e ≠ .outOfFuel :=
  have hm : MalformedReply (frameBytes 0x3 [0x01, 0x04, 0, 0]) := by
    right; right
    refine ⟨[], [0x01, 0x04, 0, 0], ?_, ?_, ?_⟩
    · exact UnFrame_frameBytes 0x3 _ (by decide) (by decide) (by decide)
    · intro a ha; cases ha
    · right; right
      exact ⟨0x01, 4, [0, 0], by rfl, by decide, Or.inl ⟨Or.inl rfl, by decide⟩⟩
  ⟨hm, (discover_rejects_malformed_reply _ hm).1⟩

/-- C4: `WriteVarLen` appends one byte for a value up to 127 and, for a value
from 128 to 32767, the two bytes `(v & 0x7F) | 0x80` and `v >> 7`; `ReadVarLen`
on a reader placed at the bytes written returns the value without error and
stops at their end. -/
theorem writeVarLen_readVarLen (w : Writer) (v : Nat) (hv : v ≤ 32767) :
    (v ≤ 127 → (w.WriteVarLen v).Data = w.Data ++ [v]) ∧
    (128 ≤ v → (w.WriteVarLen v).Data = w.Data ++ [(v &&& 0x7F) ||| 0x80, v >>> 7]) ∧
    (Reader.ReadVarLen { Data := (w.WriteVarLen v).Data, Pos := w.Data.length }).val = v ∧
    (Reader.ReadVarLen { Data := (w.WriteVarLen v).Data, Pos := w.Data.length }).err = none ∧
    (Reader.ReadVarLen { Data := (w.WriteVarLen v).Data, Pos := w.Data.length }).rd.Pos =
      (w.WriteVarLen v).Data.length := by
  have hr := ReadVarLen_varLenBytes w.Data v [] hv
  rw [List.append_nil] at hr
  rw [WriteVarLen_data, hr]
  refine ⟨?_, ?_, rfl, rfl, ?_⟩
  · intro h; simp [varLenBytes, h]
  · intro h
    have hlo : (v &&& 0x7F) ||| 0x80 = v % 128 + 128 := by
      have := or_0x80_mod (v % 128)
      rw [and_0x7f]
      have h2 : v % 128 ||| 0x80 < 256 :=
        Nat.or_lt_two_pow (n := 8) (by omega) (by norm_num)
      rw [Nat.mod_eq_of_lt h2] at this
      omega
    have hhi : v >>> 7 = v / 128 % 256 := by rw [shr7]; omega
    have hn : ¬ v ≤ 127 := by omega
    rw [hlo, hhi]
    simp only [varLenBytes, hn, if_false]
  · simp

/-- C4 at the value 300: the bytes are `0xAC 0x02` and they read back as 300. -/
theorem writeVarLen_readVarLen_witness :
    (300 : Nat) ≤ 32767 ∧ (NewWriter.WriteVarLen 300).Data = [172, 2] ∧
    (Reader.ReadVarLen { Data := (NewWriter.WriteVarLen 300).Data, Pos := 0 }).val = 300 :=
  ⟨by decide, by
    have h := (writeVarLen_readVarLen NewWriter 300 (by decide)).2.1 (by decide)
    rw [h]; decide,
   (writeVarLen_readVarLen NewWriter 300 (by decide)).2.2.1⟩

/-- C12, counterexample: on the reader over the two bytes `41 42` at position
1 one byte remains, fewer than `n = maxInt`, yet `ReadStr(n)` does not fail
with `ErrEndOfPacket`: the sum `1 + n` overflows `int`, the bounds test passes
and the slice expression panics. -/
theorem readStr_overflow_panics :
    ((([0x41, 0x42] : List Nat).length : Int) - (1 : Nat) < (maxInt : Int)) ∧
    (Reader.ReadStrInt { Data := [0x41, 0x42], Pos := 1 } maxInt).err
      = some .panicSliceBounds ∧
    (Reader.ReadStrInt { Data := [0x41, 0x42], Pos := 1 } maxInt).err
      ≠ some .endOfPacket := by
  have h := ReadStrInt_overflow { Data := [0x41, 0x42], Pos := 1 } maxInt
    (by decide) (by decide) (by decide)
  refine ⟨by decide, ?_, ?_⟩
  · rw [h]
  · rw [h]; decide

/-- C12, amended: for every reader state and every `n ≥ 0` for which the sum
`Pos + n` is in the range of `int`, `ReadU8`, `ReadU32` and `ReadStr(n)` fail
with `ErrEndOfPacket` exactly when fewer than 1, 4 and `n` bytes remain after
`Pos`; a failing read returns the zero value, and a read that does not fail
returns exactly the next 1, 4 or `n` bytes (`ReadU32` as a big-endian integer)
and advances `Pos` by that count. -/
theorem reader_reads (r : Reader) (n : Nat) (hn : r.Pos + n ≤ maxInt) :
    ((r.ReadU8.err = some .endOfPacket ↔ (r.Data.length : Int) - r.Pos < 1) ∧
      (r.ReadU8.err = some .endOfPacket → r.ReadU8.val = 0) ∧
      (r.ReadU8.err ≠ some .endOfPacket →
        r.ReadU8.err = none ∧ (r.Data.drop r.Pos).take 1 = [r.ReadU8.val] ∧
        r.ReadU8.rd = { Data := r.Data, Pos := r.Pos + 1 })) ∧
    ((r.ReadU32.err = some .endOfPacket ↔ (r.Data.length : Int) - r.Pos < 4) ∧
      (r.ReadU32.err = some .endOfPacket → r.ReadU32.val = 0) ∧
      (r.ReadU32.err ≠ some .endOfPacket →
        r.ReadU32.err = none ∧ r.ReadU32.val = beUint32 ((r.Data.drop r.Pos).take 4) ∧
        ((r.Data.drop r.Pos).take 4).length = 4 ∧
        r.ReadU32.rd = { Data := r.Data, Pos := r.Pos + 4 })) ∧
    (((r.ReadStrInt n).err = some .endOfPacket ↔ (r.Data.length : Int) - r.Pos < n) ∧
      ((r.ReadStrInt n).err = some .endOfPacket → (r.ReadStrInt n).val = []) ∧
      ((r.ReadStrInt n).err ≠ some .endOfPacket →
        (r.ReadStrInt n).err = none ∧ (r.ReadStrInt n).val = (r.Data.drop r.Pos).take n ∧
        ((r.Data.drop r.Pos).take n).length = n ∧
        (r.ReadStrInt n).rd = { Data := r.Data, Pos := r.Pos + n })) := by
  refine ⟨?_, ?_, ?_⟩
  · unfold Reader.ReadU8
    by_cases h : r.Pos + 1 > r.Data.length
    · rw [if_pos h]
      simp
      omega
    · rw [if_neg h]
      have hlt : r.Pos < r.Data.length := by omega
      refine ⟨?_, ?_, ?_⟩
      · simp; omega
      · intro h0; cases h0
      · intro _
        refine ⟨rfl, ?_, rfl⟩
        simp only
        rw [List.drop_eq_getElem_cons hlt, List.take_succ_cons, List.take_zero,
          List.getD_eq_getElem _ _ hlt]
  · unfold Reader.ReadU32
    by_cases h : r.Pos + 4 > r.Data.length
    · rw [if_pos h]
      simp
      omega
    · rw [if_neg h]
      refine ⟨?_, ?_, ?_⟩
      · simp; omega
      · intro h0; cases h0
      · intro _
        refine ⟨rfl, ?_, ?_, rfl⟩
        · simp only
          rw [List.drop_take]
          simp
        · simp only [List.length_take, List.length_drop]
          omega
  · rw [ReadStrInt_eq r n hn]
    unfold Reader.ReadStr
    by_cases h : r.Pos + n > r.Data.length
    · rw [if_pos h]
      simp
      omega
    · rw [if_neg h]
      refine ⟨?_, ?_, ?_⟩
      · simp; omega
      · intro h0; cases h0
      · intro _
        refine ⟨rfl, ?_, ?_, rfl⟩
        · simp only
          rw [List.drop_take]
          simp
        · simp only [List.length_take, List.length_drop]
          omega

/-- C12, amended, at the reader over `07 00 01 00 09` at position 1 and
`n = 3`. -/
theorem reader_reads_witness :
    (1 : Nat) + 3 ≤ maxInt ∧
    (((Reader.ReadU8 (Reader.mk [7, 0, 1, 0, 9] 1)).err = some .endOfPacket ↔
        ([7, 0, 1, 0, 9].length : Int) - (1 : Nat) < 1) ∧
      ((Reader.ReadU8 (Reader.mk [7, 0, 1, 0, 9] 1)).err = some .endOfPacket →
        (Reader.ReadU8 (Reader.mk [7, 0, 1, 0, 9] 1)).val = 0) ∧
      ((Reader.ReadU8 (Reader.mk [7, 0, 1, 0, 9] 1)).err ≠ some .endOfPacket →
        (Reader.ReadU8 (Reader.mk [7, 0, 1, 0, 9] 1)).err = none ∧
        ([7, 0, 1, 0, 9].drop 1).take 1 = [(Reader.ReadU8 (Reader.mk [7, 0, 1, 0, 9] 1)).val] ∧
        (Reader.ReadU8 (Reader.mk [7, 0, 1, 0, 9] 1)).rd = { Data := [7, 0, 1, 0, 9], Pos := 1 + 1 })) ∧
    (((Reader.ReadU32 (Reader.mk [7, 0, 1, 0, 9] 1)).err = some .endOfPacket ↔
        ([7, 0, 1, 0, 9].length : Int) - (1 : Nat) < 4) ∧
      ((Reader.ReadU32 (Reader.mk [7, 0, 1, 0, 9] 1)).err = some .endOfPacket →
        (Reader.ReadU32 (Reader.mk [7, 0, 1, 0, 9] 1)).val = 0) ∧
      ((Reader.ReadU32 (Reader.mk [7, 0, 1, 0, 9] 1)).err ≠ some .endOfPacket →
        (Reader.ReadU32 (Reader.mk [7, 0, 1, 0, 9] 1)).err = none ∧
        (Reader.ReadU32 (Reader.mk [7, 0, 1, 0, 9] 1)).val = beUint32 (([7, 0, 1, 0, 9].drop 1).take 4) ∧
        (([7, 0, 1, 0, 9].drop 1).take 4).length = 4 ∧
        (Reader.ReadU32 (Reader.mk [7, 0, 1, 0, 9] 1)).rd = { Data := [7, 0, 1, 0, 9], Pos := 1 + 4 })) ∧
    (((Reader.ReadStrInt (Reader.mk [7, 0, 1, 0, 9] 1) 3).err = some .endOfPacket ↔
        ([7, 0, 1, 0, 9].length : Int) - (1 : Nat) < (3 : Nat)) ∧
      ((Reader.ReadStrInt (Reader.mk [7, 0, 1, 0, 9] 1) 3).err = some .endOfPacket →
        (Reader.ReadStrInt (Reader.mk [7, 0, 1, 0, 9] 1) 3).val = []) ∧
      ((Reader.ReadStrInt (Reader.mk [7, 0, 1, 0, 9] 1) 3).err ≠ some .endOfPacket →
        (Reader.ReadStrInt (Reader.mk [7, 0, 1, 0, 9] 1) 3).err = none ∧
        (Reader.ReadStrInt (Reader.mk [7, 0, 1, 0, 9] 1) 3).val = ([7, 0, 1, 0, 9].drop 1).take 3 ∧
        (([7, 0, 1, 0, 9].drop 1).take 3).length = 3 ∧
        (Reader.ReadStrInt (Reader.mk [7, 0, 1, 0, 9] 1) 3).rd = { Data := [7, 0, 1, 0, 9], Pos := 1 + 3 })) :=
  ⟨by decide, reader_reads (Reader.mk [7, 0, 1, 0, 9] 1) 3 (by decide)⟩

/-- C13: on a reader over bytes, with `b0` the byte at `Pos` and `b1` the
byte after it: when `b0` remains and its high bit is clear `ReadVarLen`
returns `b0` and advances `Pos` by 1; when its high bit is set and `b1`
remains it returns `(b0 & 0x7F) | (b1 << 7)` and advances `Pos` by 2; the
value returned is always at most 32767; when the high bit is set and no second
byte remains, or no byte remains at all, it fails with `ErrEndOfPacket`. -/
theorem readVarLen_cases (r : Reader) (hb : IsBytes r.Data) :
    (r.Pos < r.Data.length → r.Data.getD r.Pos 0 &&& 0x80 = 0 →
      r.ReadVarLen = { val := r.Data.getD r.Pos 0, err := none,
                       rd := { Data := r.Data, Pos := r.Pos + 1 } }) ∧
    (r.Pos + 1 < r.Data.length → r.Data.getD r.Pos 0 &&& 0x80 ≠ 0 →
      r.ReadVarLen =
        { val := (r.Data.getD r.Pos 0 &&& 0x7F) ||| (r.Data.getD (r.Pos + 1) 0 <<< 7),
          err := none, rd := { Data := r.Data, Pos := r.Pos + 2 } }) ∧
    r.ReadVarLen.val ≤ 32767 ∧
    (r.Pos < r.Data.length → r.Data.length ≤ r.Pos + 1 → r.Data.getD r.Pos 0 &&& 0x80 ≠ 0 →
      r.ReadVarLen.err = some .endOfPacket) ∧
    (r.Data.length ≤ r.Pos → r.ReadVarLen.err = some .endOfPacket) := by
  have h0 := IsBytes_getD r.Data hb r.Pos
  have h1 := IsBytes_getD r.Data hb (r.Pos + 1)
  have hshift : (r.Data.getD (r.Pos + 1) 0 <<< 7) % 65536 = r.Data.getD (r.Pos + 1) 0 <<< 7 := by
    rw [shl7]; omega
  have hval : (r.Data.getD r.Pos 0 &&& 0x7F) ||| (r.Data.getD (r.Pos + 1) 0 <<< 7) ≤ 32767 := by
    have := Nat.or_lt_two_pow (n := 15)
      (x := r.Data.getD r.Pos 0 &&& 0x7F) (y := r.Data.getD (r.Pos + 1) 0 <<< 7)
      (by rw [and_0x7f]; omega) (by rw [shl7]; omega)
    omega
  refine ⟨?_, ?_, ?_, ?_, ?_⟩
  · intro hp hc
    unfold Reader.ReadVarLen
    rw [if_neg (by omega)]
    simp only
    rw [if_neg (not_not.2 hc)]
  · intro hp hc
    unfold Reader.ReadVarLen
    rw [if_neg (by omega)]
    simp only
    rw [if_pos hc, if_neg (by omega), hshift]
  · unfold Reader.ReadVarLen
    by_cases hp : r.Pos + 1 > r.Data.length
    · rw [if_pos hp]; simp
    · rw [if_neg hp]
      simp only
      by_cases hc : r.Data.getD r.Pos 0 &&& 0x80 ≠ 0
      · rw [if_pos hc]
        by_cases hp2 : r.Pos + 1 + 1 > r.Data.length
        · rw [if_pos hp2]; simp
        · rw [if_neg hp2, hshift]
          exact hval
      · rw [if_neg hc]
        simp only
        omega
  · intro hp hp2 hc
    unfold Reader.ReadVarLen
    rw [if_neg (by omega)]
    simp only
    rw [if_pos hc, if_pos (by omega)]
  · intro hp
    unfold Reader.ReadVarLen
    rw [if_pos (by omega)]

/-- C13 on the bytes `AC 02`: the value is 300 and two bytes are consumed. -/
theorem readVarLen_cases_witness :
    IsBytes [0xAC, 0x02] ∧
    Reader.ReadVarLen { Data := [0xAC, 0x02], Pos := 0 } =
      { val := 300, err := none, rd := { Data := [0xAC, 0x02], Pos := 2 } } :=
  ⟨by decide,
    (readVarLen_cases { Data := [0xAC, 0x02], Pos := 0 } (by decide)).2.1 (by decide)
      (by decide)⟩

/-- C14: for every 16-bit type and every payload of at most 65535 bytes,
`Frame` does not reach its "copy mismatch" panic and returns `len(p) + 8`
bytes: the type big-endian, the payload length big-endian, the payload, and
as last 4 bytes the little-endian CRC32 of the `len(p) + 4` bytes before
them. -/
theorem frame_layout (ty : Nat) (p : List Nat) (hty : ty < 65536) (hb : IsBytes p)
    (hlen : p.length ≤ 65535) :
    ∃ out, Frame ty p = .ok out ∧ out.length = p.length + 8 ∧
      out.take 2 = putUint16BE ty ∧ beUint16 (out.take 2) = ty ∧
      (out.drop 2).take 2 = putUint16BE p.length ∧
      beUint16 ((out.drop 2).take 2) = p.length ∧
      (out.drop 4).take p.length = p ∧
      out.drop (p.length + 4) = putUint32LE (ChecksumIEEE (out.take (p.length + 4))) ∧
      leUint32 (out.drop (p.length + 4)) = ChecksumIEEE (out.take (p.length + 4)) := by
  have hmod : p.length % 65536 = p.length := Nat.mod_eq_of_lt (by omega)
  have hcrc := ChecksumIEEE_lt _ (IsBytes_append (IsBytes_frameHeader ty p) hb)
  have hhl : (frameHeader ty p ++ p).length = p.length + 4 := by
    simp [frameHeader, putUint16BE]
  have htake : (frameBytes ty p).take (p.length + 4) = frameHeader ty p ++ p := by
    unfold frameBytes
    rw [← hhl, List.take_left]
  have hdrop : (frameBytes ty p).drop (p.length + 4)
      = putUint32LE (ChecksumIEEE (frameHeader ty p ++ p)) := by
    unfold frameBytes
    rw [← hhl, List.drop_left]
  refine ⟨frameBytes ty p, Frame_eq ty p, frameBytes_length ty p, ?_, ?_, ?_, ?_, ?_, ?_, ?_⟩
  · simp [frameBytes, frameHeader, putUint16BE]
  · rw [show (frameBytes ty p).take 2 = putUint16BE ty by
      simp [frameBytes, frameHeader, putUint16BE]]
    exact beUint16_putUint16BE ty hty
  · simp [frameBytes, frameHeader, putUint16BE, hmod]
  · rw [show ((frameBytes ty p).drop 2).take 2 = putUint16BE p.length by
      simp [frameBytes, frameHeader, putUint16BE, hmod]]
    exact beUint16_putUint16BE _ (by omega)
  · simp [frameBytes, frameHeader, putUint16BE]
  · rw [hdrop, htake]
  · rw [hdrop, htake]
    exact leUint32_putUint32LE _ hcrc

/-- C14 at type 3 and the payload `[1, 2, 3]`. -/
theorem frame_layout_witness :
    (3 : Nat) < 65536 ∧ IsBytes [1, 2, 3] ∧
    ∃ out, Frame 3 [1, 2, 3] = .ok out ∧ out.length = 11 ∧ (out.drop 4).take 3 = [1, 2, 3] :=
  ⟨by decide, by decide,
    (frame_layout 3 [1, 2, 3] (by decide) (by decide) (by decide)).elim
      (fun out h => ⟨out, h.1, h.2.1, h.2.2.2.2.2.2.1⟩)⟩

/-- C11: `discoveryRequest` returns an error without querying upstream or
writing anything exactly when the first attribute of the request cannot be
parsed (empty payload, a first tag other than 0x01 and 0x2D, a truncated
varlen length, tag 0x01 with a declared length other than 4 or fewer than 4
value bytes, tag 0x2D with a declared length that is no multiple of 4 or fewer
bytes than declared); a parsable request that names neither tuner nor wildcard
returns no error, queries nothing and writes nothing. -/
theorem request_parse_errors (r : Relay) (net : List Nat → Except Fault (List Nat))
    (write : List Nat → UDPAddr → Option Fault) (inp : UDPIn) (p : List Nat)
    (hp : IsBytes p) :
    (((discoveryRequest r net write inp (NewReader p)).err ≠ none ∧
        (discoveryRequest r net write inp (NewReader p)).queried = false ∧
        (discoveryRequest r net write inp (NewReader p)).writes = [])
      ↔ SpecUnparsable p) ∧
    (¬ SpecUnparsable p → ¬ SpecRelevant p →
      (discoveryRequest r net write inp (NewReader p)).err = none ∧
      (discoveryRequest r net write inp (NewReader p)).queried = false ∧
      (discoveryRequest r net write inp (NewReader p)).writes = []) := by
  have herr := parseRequest_error_spec p hp
  have hrel := parseRequest_spec p hp
  cases hres : parseRequest (NewReader p) with
  | error e =>
    have hu : SpecUnparsable p := herr.1 ⟨e, hres⟩
    have hd : discoveryRequest r net write inp (NewReader p)
        = { queried := false, writes := [], err := some e } := by
      unfold discoveryRequest; rw [hres]
    rw [hd]
    exact ⟨⟨fun _ => hu, fun _ => ⟨by simp, rfl, rfl⟩⟩, fun h => absurd hu h⟩
  | ok b =>
    have hnu : ¬ SpecUnparsable p := by
      intro hu
      obtain ⟨e, he⟩ := herr.2 hu
      rw [hres] at he
      cases he
    cases b with
    | false =>
      have hd : discoveryRequest r net write inp (NewReader p)
          = { queried := false, writes := [], err := none } := by
        unfold discoveryRequest; rw [hres]
      rw [hd]
      exact ⟨⟨fun h => absurd rfl h.1, fun h => absurd h hnu⟩, fun _ _ => ⟨rfl, rfl, rfl⟩⟩
    | true =>
      obtain ⟨u, _, hd⟩ := discoveryRequest_relevant r net write inp _ hres
      rw [hd]
      refine ⟨⟨fun h => ?_, fun h => absurd h hnu⟩, fun _ h => absurd (hrel.1 hres) h⟩
      have := h.2.1
      cases this

/-- C11 at the payload `07 00`, whose first tag is neither 0x01 nor 0x2D: an
error is returned and nothing is queried or written. -/
theorem request_parse_errors_witness :
    IsBytes [0x07, 0x00] ∧
    (discoveryRequest { Target := [], Self := [] } (fun _ => .error .ioFailure)
        (fun _ _ => none) { Data := [], Src := { IP := [10, 0, 0, 7], Port := 40000 }, Dst := [] }
        (NewReader [0x07, 0x00])).err ≠ none :=
  ⟨by decide,
    (((request_parse_errors { Target := [], Self := [] } (fun _ => .error .ioFailure)
      (fun _ _ => none) { Data := [], Src := { IP := [10, 0, 0, 7], Port := 40000 }, Dst := [] }
      [0x07, 0x00] (by decide)).1).2 (Or.inl ⟨by decide, by decide⟩)).1⟩

/-- C15: for every sequence of parsed control messages the destination
`UDPCon.Read` resolves is the address of the last message that is an IPv4
packet-info entry with a body of at least 12 bytes (bytes 8 to 12 of the body)
or an IPv6 packet-info entry with a body of at least 16 bytes (its first 16
bytes, an IPv4-mapped address unwrapped); without such a message it is the
zero address, and no error. An IPv4 entry for 203.0.113.5 resolves to
203.0.113.5 and an IPv6 entry for `::ffff:a.b.c.d` to `a.b.c.d`. -/
theorem read_resolves_last_pktinfo (msgs : List CMsg) :
    scanControl msgs = specResolve msgs ∧
    (∀ (bufLen : Nat) (data : List Nat) (src : UDPAddr),
      UDPCon.Read bufLen (.ok { Data := data, Src := src, Control := .ok msgs })
        = .ok { Data := data.take bufLen, Src := src, Dst := specResolve msgs }) ∧
    ((∀ m ∈ msgs, ¬ IsPktInfo m) → scanControl msgs = []) ∧
    scanControl [{ Level := IPPROTO_IP, Typ := IP_PKTINFO,
                   body := [2, 0, 0, 0, 192, 0, 2, 1, 203, 0, 113, 5] }] = [203, 0, 113, 5] ∧
    (∀ a b c d : Nat,
      scanControl [{ Level := IPPROTO_IPV6, Typ := IPV6_PKTINFO,
                     body := [0, 0, 0, 0, 0, 0, 0, 0, 0, 0, 0xff, 0xff, a, b, c, d,
                              2, 0, 0, 0] }] = [a, b, c, d]) := by
  refine ⟨scanControl_eq msgs, ?_, ?_, by decide, ?_⟩
  · intro bufLen data src
    simp only [UDPCon.Read, scanControl_eq]
  · intro h
    rw [scanControl_eq]
    unfold specResolve
    have : msgs.filter (fun m => decide (IsPktInfo m)) = [] := by
      rw [List.filter_eq_nil_iff]
      intro m hm
      simpa using h m hm
    rw [this]
    rfl
  · intro a b c d
    simp [scanControl, controlStep, Unmap, IPPROTO_IP, IPPROTO_IPV6, IPV6_PKTINFO]

/-- C17: the bytes of the response do not depend on the source of the request
nor on the resolved destination: for two inbound datagrams with the same
payload, the same network behind `Discover` and the same relay configuration,
`discoveryRequest` hands byte-identical packets to the socket, each addressed
to the source of its own datagram. -/
theorem response_independent_of_addresses (r : Relay)
    (net : List Nat → Except Fault (List Nat))
    (write1 write2 : List Nat → UDPAddr → Option Fault) (inp1 inp2 : UDPIn) (data : Reader) :
    (discoveryRequest r net write1 inp1 data).writes.map Prod.fst
      = (discoveryRequest r net write2 inp2 data).writes.map Prod.fst ∧
    (∀ w ∈ (discoveryRequest r net write1 inp1 data).writes, w.2 = inp1.Src) ∧
    (∀ w ∈ (discoveryRequest r net write2 inp2 data).writes, w.2 = inp2.Src) := by
  by_cases h : parseRequest data = .ok true
  · obtain ⟨u1, hu1, hd1⟩ := discoveryRequest_relevant r net write1 inp1 data h
    obtain ⟨u2, hu2, hd2⟩ := discoveryRequest_relevant r net write2 inp2 data h
    rw [hu1] at hu2
    cases hu2
    rw [hd1, hd2]
    simp
  · have h1 := (discoveryRequest_irrelevant r net write1 inp1 data h).2
    have h2 := (discoveryRequest_irrelevant r net write2 inp2 data h).2
    rw [h1, h2]
    simp

/-- C18: on a byte sequence of at most 65535 bytes `UnFrame` returns an
`ErrInvalidPacket` error or a result and never panics: the slices of the
header are in bounds once the length is at least 8, and once the length check
`len(data) == int(l+4)+4` has passed the 16-bit sums `l + 4` and `(l + 4) + 4`
have not wrapped around and the slices of the trailer, of the checksummed
bytes and of the payload are in bounds. -/
theorem unframe_in_bounds (d : List Nat) (hb : IsBytes d) (hlen : d.length ≤ 65535) :
    ((∃ e, UnFrame d = .error e ∧ e.isInvalidPacket = true) ∨
      ∃ ty payload, UnFrame d = .ok (ty, payload)) ∧
    (8 ≤ d.length →
      slice d 0 2 = .ok (d.take 2) ∧ slice d 2 4 = .ok ((d.take 4).drop 2)) ∧
    (8 ≤ d.length → d.length = (beUint16 ((d.take 4).drop 2) + 4) % 65536 + 4 →
      beUint16 ((d.take 4).drop 2) + 4 < 65536 ∧
      beUint16 ((d.take 4).drop 2) + 4 + 4 < 65536 ∧
      beUint16 ((d.take 4).drop 2) + 4 + 4 ≤ d.length ∧
      (∃ s, slice d ((beUint16 ((d.take 4).drop 2) + 4) % 65536)
          (((beUint16 ((d.take 4).drop 2) + 4) % 65536 + 4) % 65536) = .ok s) ∧
      (∃ s, slice d 0 ((beUint16 ((d.take 4).drop 2) + 4) % 65536) = .ok s) ∧
      (∃ s, slice d 4 ((beUint16 ((d.take 4).drop 2) + 4) % 65536) = .ok s)) := by
  have hl : beUint16 ((d.take 4).drop 2) < 65536 :=
    beUint16_lt _ (IsBytes_drop _ (IsBytes_take d hb 4) 2)
  refine ⟨?_, ?_, ?_⟩
  · by_cases h8 : 8 ≤ d.length
    · rw [UnFrame_datagram d h8 hlen]
      split_ifs
      · exact Or.inl ⟨_, rfl, rfl⟩
      · exact Or.inl ⟨_, rfl, rfl⟩
      · exact Or.inr ⟨_, _, rfl⟩
    · left
      refine ⟨.tooShort, ?_, rfl⟩
      unfold UnFrame
      rw [if_pos (by omega)]
  · intro h8
    exact ⟨by rw [slice_ok d 0 2 (by omega) (by omega)]; simp,
      slice_ok d 2 4 (by omega) (by omega)⟩
  · intro h8 hc
    have h1 : beUint16 ((d.take 4).drop 2) + 4 < 65536 := by omega
    have hm : (beUint16 ((d.take 4).drop 2) + 4) % 65536
        = beUint16 ((d.take 4).drop 2) + 4 := Nat.mod_eq_of_lt h1
    rw [hm] at hc ⊢
    have hm2 : (beUint16 ((d.take 4).drop 2) + 4 + 4) % 65536
        = beUint16 ((d.take 4).drop 2) + 4 + 4 := Nat.mod_eq_of_lt (by omega)
    rw [hm2]
    exact ⟨h1, by omega, by omega, ⟨_, slice_ok d _ _ (by omega) (by omega)⟩,
      ⟨_, slice_ok d _ _ (by omega) (by omega)⟩, ⟨_, slice_ok d _ _ (by omega) (by omega)⟩⟩

/-- C18 at the 8-byte packet with an empty payload and a wrong checksum. -/
theorem unframe_in_bounds_witness :
    IsBytes [0, 3, 0, 0, 1, 2, 3, 4] ∧
    ((∃ e, UnFrame [0, 3, 0, 0, 1, 2, 3, 4] = .error e ∧ e.isInvalidPacket = true) ∨
      ∃ ty payload, UnFrame [0, 3, 0, 0, 1, 2, 3, 4] = .ok (ty, payload)) :=
  ⟨by decide, (unframe_in_bounds [0, 3, 0, 0, 1, 2, 3, 4] (by decide) (by decide)).1⟩

/-- C19: the response builder of the relay and the decoder of the upstream
client are inverse on the relayed fields: for every device record (32-bit type
and id) with auth of at most 32767 bytes and every advertised host whose
lineup URL has at most 32767 bytes, the decoding loop of `Discover` on the
response payload succeeds and yields the type, id, tuner count and auth of the
record, the base URL of the relay and that base URL followed by
"/lineup.json". -/
theorem response_decodes_back (self : List Nat) (u : Remote) (hty : u.Ty < 4294967296)
    (hid : u.ID < 4294967296) (ha : u.Auth.length ≤ 32767)
    (hl : (str "http://" ++ self ++ str ":80/lineup.json").length ≤ 32767) :
    discoverLoop ((responsePayload self u).length + 1) (NewReader (responsePayload self u)) {}
      = .ok { Ty := u.Ty, ID := u.ID, TunerCount := u.TunerCount, Auth := u.Auth,
              Base := str "http://" ++ self ++ str ":80",
              Lineup := str "http://" ++ self ++ str ":80" ++ str "/lineup.json" } := by
  rw [← newBase_lineup_eq] at hl
  rw [responsePayload_spec self u ha hl,
    discoverLoop_attrs _ (responseAttrs_decodable _ u ha hl),
    foldl_responseAttrs _ u hty hid, newBase_eq]

/-- C19 at the fallback record and the host "relay". -/
theorem response_decodes_back_witness :
    fallbackRemote.Ty < 4294967296 ∧ fallbackRemote.ID < 4294967296 ∧
    discoverLoop ((responsePayload (str "relay") fallbackRemote).length + 1)
        (NewReader (responsePayload (str "relay") fallbackRemote)) {}
      = .ok { Ty := 1, ID := 1234, TunerCount := 1, Auth := [],
              Base := str "http://" ++ str "relay" ++ str ":80",
              Lineup := str "http://" ++ str "relay" ++ str ":80" ++ str "/lineup.json" } :=
  ⟨by decide, by decide,
    response_decodes_back (str "relay") fallbackRemote (by decide) (by decide) (by decide)
      (by decide)⟩

/-- C20: the decoding loop of `Discover` terminates on every reply payload.
An iteration that does not return an error leaves the position at least 2
bytes further than it found it (the tag byte and at least one length byte),
so a payload of `n` bytes is processed in at most `ceil(n/2)` iterations:
with a budget of `ceil(n/2) + 1` loop tests or more the loop never stops for
lack of budget and its result and number of iterations are the same. This
holds also when a fixed-width attribute declares the length 0, as in the
payload `01 00 00 00 00 01`, whose first iteration ends at position 2. -/
theorem discover_loop_terminates (data : List Nat) (res : Remote) :
    (∀ (r r' : Reader) (x x' : Remote), discoverStep r x = .ok (r', x') →
      r'.Data = r.Data ∧ r.Pos + 2 ≤ r'.Pos) ∧
    discoverLoopIters (data.length + 1) (NewReader data) res ≤ (data.length + 1) / 2 ∧
    discoverLoop (data.length + 1) (NewReader data) res ≠ .error .outOfFuel ∧
    (∀ fuel, (data.length + 1) / 2 + 1 ≤ fuel →
      discoverLoop fuel (NewReader data) res ≠ .error .outOfFuel ∧
      discoverLoop fuel (NewReader data) res
        = discoverLoop (data.length + 1) (NewReader data) res ∧
      discoverLoopIters fuel (NewReader data) res
        = discoverLoopIters (data.length + 1) (NewReader data) res) ∧
    discoverStep { Data := [0x01, 0x00, 0, 0, 0, 1], Pos := 0 } {}
      = .ok ({ Data := [0x01, 0x00, 0, 0, 0, 1], Pos := 2 }, { Ty := 1 }) := by
  have hbase : (NewReader data).Data.length + 2
      ≤ (NewReader data).Pos + 2 * ((data.length + 1) / 2 + 1) := by
    simp only [NewReader]; omega
  refine ⟨fun r r' x x' h => discoverStep_pos r r' x x' h, ?_, discoverLoop_total data res,
    ?_, by rfl⟩
  · have := discoverLoopIters_le (data.length + 1) (NewReader data) res
    simpa [NewReader] using this
  · intro fuel hf
    have h1 := discoverLoop_stable ((data.length + 1) / 2 + 1) (NewReader data) res fuel
      (by omega) hbase hf
    have h2 := discoverLoop_stable ((data.length + 1) / 2 + 1) (NewReader data) res
      (data.length + 1) (by omega) hbase (by omega)
    refine ⟨?_, by rw [h1.1, h2.1], by rw [h1.2, h2.2]⟩
    rw [h1.1]
    exact discoverLoop_fuel _ _ _ (by omega) hbase

/-- C16: no datagram ends the discovery loop. Whenever the context is not
cancelled an iteration of `handleDiscovery` ends without a panic and the loop
goes on, whatever the socket read delivers (an error, or a datagram, of which
the 4096-byte buffer keeps at most 4096 bytes, that fails to unframe, has
another envelope type than 0x2, a request that cannot be parsed or is not
relevant), whatever `Discover` meets and whether or not the write of the
response fails; `handleDiscovery` only ever ends by returning the error of its
context. A failing socket write returns an error. -/
theorem discovery_loop_survives (r : Relay) (inputs : List IterInput)
    (hw : ∀ i ∈ inputs, ∀ pkt a e, i.write pkt a = some e → e.isPanic = false) :
    (∀ i ∈ inputs, i.ctxErr = none → ∃ w, handleDiscoveryIter r i = .continued w) ∧
    (∀ e, handleDiscovery r inputs = some e →
      ∃ i ∈ inputs, ∃ err, i.ctxErr = some err ∧ e = .returned err) := by
  refine ⟨fun i hi hctx => handleDiscoveryIter_continues r i (hw i hi) hctx, ?_⟩
  induction inputs with
  | nil => intro e h; cases h
  | cons i rest ih =>
    intro e h
    rw [handleDiscovery] at h
    cases hc : i.ctxErr with
    | some err =>
      have hi : handleDiscoveryIter r i = .returned err := by
        unfold handleDiscoveryIter; rw [hc]
      rw [hi] at h
      simp only [Option.some.injEq] at h
      exact ⟨i, List.mem_cons_self _ _, err, hc, h.symm⟩
    | none =>
      obtain ⟨w, hwc⟩ := handleDiscoveryIter_continues r i
        (hw i (List.mem_cons_self _ _)) hc
      rw [hwc] at h
      simp only at h
      obtain ⟨j, hj, err, hje, hee⟩ := ih
        (fun k hk => hw k (List.mem_cons_of_mem _ hk)) e h
      exact ⟨j, List.mem_cons_of_mem _ hj, err, hje, hee⟩

/-- C16 on a run of two iterations: a datagram too short to unframe, then a
cancelled context. The first iteration goes on and the run ends with the
error of the context. -/
theorem discovery_loop_survives_witness :
    ∃ i ∈ [({ ctxErr := none,
              rx := .ok { Data := [1, 2, 3], Src := { IP := [10, 0, 0, 7], Port := 40000 },
                          Control := .ok [] },
              net := fun _ => .error .ioFailure, write := fun _ _ => none } : IterInput),
           { ctxErr := some .canceled, rx := .error .ioFailure,
             net := fun _ => .error .ioFailure, write := fun _ _ => none }],
      ∃ err, i.ctxErr = some err ∧ IterEnd.returned .canceled = IterEnd.returned err :=
  (discovery_loop_survives { Target := [], Self := [] }
    [{ ctxErr := none,
       rx := .ok { Data := [1, 2, 3], Src := { IP := [10, 0, 0, 7], Port := 40000 },
                   Control := .ok [] },
       net := fun _ => .error .ioFailure, write := fun _ _ => none },
     { ctxErr := some .canceled, rx := .error .ioFailure,
       net := fun _ => .error .ioFailure, write := fun _ _ => none }]
    (by
      intro i hi pkt a e h
      simp only [List.mem_cons, List.mem_nil_iff, or_false] at hi
      rcases hi with rfl | rfl <;> cases h)).2 (.returned .canceled) (by rfl)

end HDHR
